import Mathlib

/-!
# flang: HLFIR optimized bufferization (OptimizedBufferization.cpp)

A shallow embedding of the analysis performed by
`ElementalAssignBufferization::findMatch` and of the helpers it calls
(`getEffectsBetween`, `containsReadOrWriteEffectOn`, `ArraySectionAnalyzer`,
`getDesignatorIndices`), followed by theorems about them.

Conventions of the embedding:
* an `mlir::Value` is a tree: a result of its defining operation (which carries
  its own operand values) or a block argument.  Every operation carries an `id`
  standing for its address, so that equality of trees is pointer equality;
* `mlir::getEffectsRecursively`, `fir::AliasAnalysis`, the type predicates of
  FIR and `hlfir::elementalOpMustProduceTemp` are not part of this file of the
  compiler: they are parameters, gathered in `Env`;
* a failed `assert` is an `Except.error`.
-/

namespace OptimizedBufferization

/-! ## Values and the operations defining them -/

mutual
/-- An SSA value: the result number `resultNumber` of the operation `owner`, or
the argument number `argNumber` of the block with identity `owner`. -/
inductive Value where
  | opResult (owner : Operation) (resultNumber : Nat)
  | blockArgument (owner : Nat) (argNumber : Nat)
  deriving DecidableEq
/-- The operations the analysis looks through.  `id` is the identity of the
operation.  Optional operands of `hlfir.designate` (`component_shape`) are
operand groups of length zero or one, as in MLIR. -/
inductive Operation where
  /-- Constant: `arith.constant` holding an integer attribute. -/
  | constant (id : Nat) (value : Int)
  /-- Conversion: `fir.convert`. -/
  | convert (id : Nat) (value : Value)
  /-- Addition: `arith.addi`. -/
  | addi (id : Nat) (lhs rhs : Value)
  /-- Subtraction: `arith.subi`. -/
  | subi (id : Nat) (lhs rhs : Value)
  /-- Box dimensions: `fir.box_dims` (three results). -/
  | boxDims (id : Nat) (val dim : Value)
  /-- Designator: `hlfir.designate`. -/
  | designate (id : Nat) (memref : Value) (component : Option Nat)
      (componentShape : ValueList) (subscripts : SubscriptList)
      (substring : ValueList) (complexPart : Option Bool) (typeparams : ValueList)
  /-- Any other operation. -/
  | other (id : Nat) (operands : ValueList)
  deriving DecidableEq
/-- A range of operand values. -/
inductive ValueList where
  | nil
  | cons (head : Value) (tail : ValueList)
  deriving DecidableEq
/-- The subscripts of a designator: the `indices` operands grouped by the
`is_triplet` attribute (one operand for a scalar index, three for a triplet). -/
inductive SubscriptList where
  | nil
  | index (v : Value) (tail : SubscriptList)
  | triplet (lb ub stride : Value) (tail : SubscriptList)
  deriving DecidableEq
end

/-- One subscript of a designator. -/
inductive Subscript where
  | index (v : Value)
  | triplet (lb ub stride : Value)
  deriving DecidableEq

/-- The operand range as a list. -/
def ValueList.toList : ValueList → List Value
  | .nil => []
  | .cons v vs => v :: vs.toList

/-- The subscripts as a list. -/
def SubscriptList.toList : SubscriptList → List Subscript
  | .nil => []
  | .index v tl => Subscript.index v :: tl.toList
  | .triplet lb ub st tl => Subscript.triplet lb ub st :: tl.toList

/-- The flag `is_triplet` of one subscript. -/
def Subscript.isTriplet : Subscript → Bool
  | .index _ => false
  | .triplet _ _ _ => true

/-- The operands one subscript contributes to `getIndices()`. -/
def Subscript.operands : Subscript → List Value
  | .index v => [v]
  | .triplet lb ub st => [lb, ub, st]

/-- The method `Value::getDefiningOp()`: null for a block argument. -/
def Value.getDefiningOp : Value → Option Operation
  | .opResult op _ => some op
  | .blockArgument _ _ => none

/-- The method `Operation::getResult(i)`. -/
def Operation.getResult (op : Operation) (i : Nat) : Value :=
  Value.opResult op i

/-- The view `hlfir::DesignateOp` of an operation, with the accessors used by the
analysis. -/
structure DesignateOp where
  op : Operation
  getMemref : Value
  getComponent : Option Nat
  getComponentShape : List Value
  subscripts : List Subscript
  getSubstring : List Value
  getComplexPart : Option Bool
  getTypeparams : List Value
  deriving DecidableEq

/-- The accessor `getIndices()`: all index operands, in order. -/
def DesignateOp.getIndices (d : DesignateOp) : List Value :=
  (d.subscripts.map Subscript.operands).flatten

/-- The accessor `getIsTriplet()`. -/
def DesignateOp.getIsTriplet (d : DesignateOp) : List Bool :=
  d.subscripts.map Subscript.isTriplet

/-- The cast `dyn_cast<hlfir::DesignateOp>(op)`. -/
def Operation.asDesignate : Operation → Option DesignateOp
  | .designate id memref component componentShape subscripts substring complexPart
      typeparams =>
    some
      { op := .designate id memref component componentShape subscripts substring
          complexPart typeparams
        getMemref := memref
        getComponent := component
        getComponentShape := componentShape.toList
        subscripts := subscripts.toList
        getSubstring := substring.toList
        getComplexPart := complexPart
        getTypeparams := typeparams.toList }
  | _ => none

/-- The call `v.getDefiningOp<hlfir::DesignateOp>()`. -/
def Value.getDefiningDesignateOp (v : Value) : Option DesignateOp :=
  match v.getDefiningOp with
  | some op => op.asDesignate
  | none => none

/-- Modelled from the spec: `fir::getIntIfConstant` is declared outside this file;
the spec only speaks of "compile-time constants" and "statically the constant 1".
It yields the integer of a value defined by a constant operation, nothing
otherwise. -/
def getIntIfConstant : Value → Option Int
  | .opResult (.constant _ value) _ => some value
  | _ => none

/-! ## Memory effects -/

/-- The kinds of `mlir::MemoryEffects::Effect`. -/
inductive Effect where
  | Read
  | Write
  | Allocate
  | Free
  deriving DecidableEq

/-- The class `mlir::MemoryEffects::EffectInstance`: the effect, the value it
applies to (absent when the effect is on no particular value) and whether its
resource is `fir::DebuggingResource`. -/
structure EffectInstance where
  getEffect : Effect
  getValue : Option Value
  onDebuggingResource : Bool
  deriving DecidableEq

/-- The enumeration `mlir::AliasResult::Kind`. -/
inductive AliasResult where
  | NoAlias
  | MayAlias
  | PartialAlias
  | MustAlias
  deriving DecidableEq

/-- The method `AliasResult::isNo()`. -/
def AliasResult.isNo : AliasResult → Bool
  | .NoAlias => true
  | _ => false

/-- The method `AliasResult::isPartial()`. -/
def AliasResult.isPartialAlias : AliasResult → Bool
  | .PartialAlias => true
  | _ => false

/-! ## Blocks and positions of operations -/

/-- An operation as a member of a block: all the analysis asks of it is what
`mlir::getEffectsRecursively` returns for it (`none`: the effects cannot be
enumerated). -/
structure BlockOp where
  getEffectsRecursively : Option (List EffectInstance)
  deriving DecidableEq

/-- A block: its identity and its operations in order. -/
structure Block where
  id : Nat
  ops : List BlockOp
  deriving DecidableEq

/-- A pointer `mlir::Operation *` to an operation linked in a block: the block
and the position in it. -/
structure OpPtr where
  getBlock : Block
  index : Nat
  deriving DecidableEq

/-- The failed assertions of `getEffectsBetween`. -/
inductive AssertionFailure where
  /-- The assertion `start->getBlock() == end->getBlock()` failed. -/
  | sameBlock
  /-- The assertion `DominanceInfo.properlyDominates(start, end)` failed. -/
  | properlyDominates
  deriving DecidableEq

/-- Modelled from the spec: `mlir::DominanceInfo::properlyDominates` is external
(the spec's "dominance oracle"); for two operations of one block it is "strictly
before in the block".  It is only called after the same-block assertion. -/
def properlyDominates (a b : OpPtr) : Bool :=
  decide (a.index < b.index)

/-- The loop of `getEffectsBetween`: `ops` are the operations of the block from
`nextOp` on, `i` is the position of `nextOp`, `ret` the effects so far. -/
def getEffectsBetween.loop (stop : OpPtr) (block : Block) :
    Nat → List BlockOp → List EffectInstance → Option (List EffectInstance)
  | _, [], ret => some ret
  | i, nextOp :: rest, ret =>
    if (OpPtr.mk block i) = stop then some ret
    else
      match nextOp.getEffectsRecursively with
      | none => none
      | some effects => getEffectsBetween.loop stop block (i + 1) rest (ret ++ effects)

/-- The function `getEffectsBetween(start, end)` (lines 110-129), assertions
enabled.  Operations of the model are always linked in a block, so the first
assertion holds. -/
def getEffectsBetween (start stop : OpPtr) :
    Except AssertionFailure (Option (List EffectInstance)) :=
  if start = stop then .ok (some [])
  else if start.getBlock ≠ stop.getBlock then .error .sameBlock
  else if properlyDominates start stop = false then .error .properlyDominates
  else
    .ok (getEffectsBetween.loop stop start.getBlock start.index
      (start.getBlock.ops.drop start.index) [])

/-! ## The elemental operation and its users -/

/-- The operation `hlfir.assign` using the elemental: where it is, its left-hand
side and whether it is an allocatable (reallocating) assignment. -/
structure AssignOp where
  op : OpPtr
  getLhs : Value
  isAllocatableAssignment : Bool
  deriving DecidableEq

/-- The operation `hlfir.destroy` using the elemental. -/
structure DestroyOp where
  op : OpPtr
  deriving DecidableEq

/-- A user of the elemental, as `mlir::TypeSwitch` sees it. -/
inductive User where
  | assign (op : AssignOp)
  | destroy (op : DestroyOp)
  | other (op : OpPtr)
  deriving DecidableEq

/-- The operation `hlfir.elemental`: its users (one entry per use), its body (the
operations before the terminator, and the terminator `hlfir.yield_element`), the
number of arguments of the body block, and the operation following it in its
block (it exists: a block ends with a terminator and the elemental is none). -/
structure ElementalOp where
  getUsers : List User
  bodyId : Nat
  numIndices : Nat
  bodyOps : List BlockOp
  terminator : BlockOp
  getNextNode : OpPtr
  deriving DecidableEq

/-- The accessor `getBody()`. -/
def ElementalOp.getBody (e : ElementalOp) : Block :=
  { id := e.bodyId, ops := e.bodyOps ++ [e.terminator] }

/-- The pointer `&getBody()->front()`. -/
def ElementalOp.front (e : ElementalOp) : OpPtr :=
  { getBlock := e.getBody, index := 0 }

/-- The pointer `getBody()->getTerminator()`. -/
def ElementalOp.getTerminator (e : ElementalOp) : OpPtr :=
  { getBlock := e.getBody, index := e.bodyOps.length }

/-- The accessor `getIndices()`: the arguments of the body block. -/
def ElementalOp.getIndices (e : ElementalOp) : List Value :=
  (List.range e.numIndices).map (Value.blockArgument e.bodyId)

/-- The record `MatchInfo`. -/
structure MatchInfo where
  array : Value
  assign : AssignOp
  destroy : DestroyOp
  deriving DecidableEq

/-- What the analysis takes from the rest of the compiler. -/
structure Env where
  /-- The oracle `fir::AliasAnalysis::alias`. -/
  aliasAnalysis : Value → Value → AliasResult
  /-- The test `mlir::isa<fir::BaseBoxType>(v.getType())`. -/
  hasBaseBoxType : Value → Bool
  /-- The test that `fir::unwrapPassByRefType(v.getType())` is a
  `fir::SequenceType`. -/
  isSequenceAfterUnwrap : Value → Bool
  /-- The test `fir::isa_trivial` of the Fortran element type of that sequence
  type. -/
  hasTrivialElementType : Value → Bool
  /-- The function `hlfir::elementalOpMustProduceTemp`. -/
  elementalOpMustProduceTemp : ElementalOp → Bool

/-! ## containsReadOrWriteEffectOn -/

/-- The function `containsReadOrWriteEffectOn(effect, val)` (lines 133-168). -/
def containsReadOrWriteEffectOn (env : Env) (effect : EffectInstance) (val : Value) :
    AliasResult :=
  if effect.getEffect = .Read ∨ effect.getEffect = .Write then
    if effect.onDebuggingResource then .NoAlias
    else
      match effect.getValue with
      | none => .MayAlias
      | some accessedVal =>
        if accessedVal = val then .MustAlias
        else
          let res := env.aliasAnalysis val accessedVal
          if !res.isNo then res
          else
            match accessedVal.getDefiningDesignateOp with
            | some designate =>
              if designate.getMemref = val then .MustAlias
              else
                let res2 := env.aliasAnalysis val designate.getMemref
                if !res2.isNo then res2 else .NoAlias
            | none => .NoAlias
  else .NoAlias

/-! ## ArraySectionAnalyzer -/

/-- The enumeration `ArraySectionAnalyzer::SlicesOverlapKind`. -/
inductive SlicesOverlapKind where
  | Unknown
  | DefinitelyIdentical
  | DefinitelyDisjoint
  | EitherIdenticalOrDisjoint
  deriving DecidableEq

/-- The structure `SectionDesc`: the lower bound (an operand, never null, so the
assertion of the constructor holds), and the nullable upper bound and stride. -/
structure SectionDesc where
  lb : Value
  ub : Option Value
  stride : Option Value
  deriving DecidableEq

/-- The method `SectionDesc::normalize()` (lines 213-222). -/
def SectionDesc.normalize (d : SectionDesc) : SectionDesc :=
  let ub : Value := match d.ub with
    | none => d.lb
    | some u => u
  let stride : Option Value := if d.lb = ub then none else d.stride
  let stride : Option Value := match stride with
    | none => none
    | some st =>
      match getIntIfConstant st with
      | some val => if val = 1 then none else some st
      | none => some st
  { lb := d.lb, ub := some ub, stride := stride }

/-- The constructor `SectionDesc(lb, ub, stride)`: it stores the fields and
normalizes. -/
def SectionDesc.construct (lb : Value) (ub stride : Option Value) : SectionDesc :=
  SectionDesc.normalize { lb := lb, ub := ub, stride := stride }

/-- The function `readSectionDesc(it, isTriplet)` (lines 235-240) on the operands
of one subscript. -/
def readSectionDesc : Subscript → SectionDesc
  | .triplet lb ub stride => SectionDesc.construct lb (some ub) (some stride)
  | .index v => SectionDesc.construct v none none

/-- The function `getOrderedBounds(desc)` (lines 249-264). -/
def getOrderedBounds (desc : SectionDesc) : Option Value × Option Value :=
  match desc.stride with
  | none => (some desc.lb, desc.ub)
  | some stride =>
    match getIntIfConstant stride with
    | some val => if val ≥ 0 then (some desc.lb, desc.ub) else (desc.ub, some desc.lb)
    | none => (none, none)

/-- The lambda `removeConvert` of `isLess`, from the defining operation on. -/
def removeConvertOp : Operation → Option Operation
  | .convert _ (.opResult op _) => removeConvertOp op
  | .convert _ (.blockArgument _ _) => none
  | op => some op

/-- The lambda `removeConvert` of `isLess` (lines 401-406). -/
def removeConvert (v : Value) : Option Operation :=
  match v.getDefiningOp with
  | some op => removeConvertOp op
  | none => none

/-- The lambda `isPositiveConstant` of `isLess` (lines 408-412). -/
def isPositiveConstant (v : Value) : Bool :=
  match getIntIfConstant v with
  | some val => decide (val > 0)
  | none => false

/-- The variable cases of `isLess` (lines 428-438), on the two operations left
after the conversions are removed. -/
def isLess.variableCases (op1 op2 : Operation) : Bool :=
  let viaAdd : Bool := match op2 with
    | .addi _ lhs rhs =>
      (decide (lhs.getDefiningOp = some op1) && isPositiveConstant rhs) ||
      (decide (rhs.getDefiningOp = some op1) && isPositiveConstant lhs)
    | _ => false
  if viaAdd then true
  else
    match op1 with
    | .subi _ lhs rhs => decide (lhs.getDefiningOp = some op2) && isPositiveConstant rhs
    | _ => false

/-- The function `ArraySectionAnalyzer::isLess(v1, v2)` (lines 400-439). -/
def isLess (v1 v2 : Value) : Bool :=
  match removeConvert v1, removeConvert v2 with
  | some op1, some op2 =>
    match getIntIfConstant (op1.getResult 0), getIntIfConstant (op2.getResult 0) with
    | some val1, some val2 => decide (val1 < val2)
    | _, _ => isLess.variableCases op1 op2
  | _, _ => false

/-- The function `areDisjointSections(desc1, desc2)` (lines 273-285).  The upper
bound of a normalized descriptor is never null. -/
def areDisjointSections (desc1 desc2 : SectionDesc) : Bool :=
  match getOrderedBounds desc1, getOrderedBounds desc2 with
  | (some lb1, some ub1), (some lb2, some ub2) => isLess ub1 lb2 || isLess ub2 lb1
  | _, _ => false

/-- The function `areIdenticalSections(desc1, desc2)` (lines 298-303). -/
def areIdenticalSections (desc1 desc2 : SectionDesc) : Bool :=
  decide (desc1 = desc2)

/-- The subscript loop of `analyze` and its conclusion (lines 345-397): the pairs
are those of `llvm::zip`, the flags are `identicalTriplets` and
`identicalIndices`. -/
def analyze.loop : List (Subscript × Subscript) → Bool → Bool → SlicesOverlapKind
  | [], identicalTriplets, identicalIndices =>
    if identicalTriplets then
      if identicalIndices then .DefinitelyIdentical else .EitherIdenticalOrDisjoint
    else .Unknown
  | (s1, s2) :: rest, identicalTriplets, identicalIndices =>
    let desc1 := readSectionDesc s1
    let desc2 := readSectionDesc s2
    if areDisjointSections desc1 desc2 then .DefinitelyDisjoint
    else if !areIdenticalSections desc1 desc2 then
      if s1.isTriplet || s2.isTriplet then analyze.loop rest false identicalIndices
      else analyze.loop rest identicalTriplets false
    else analyze.loop rest identicalTriplets identicalIndices

/-- The function `ArraySectionAnalyzer::analyze(ref1, ref2)` (lines 309-398). -/
def analyze (ref1 ref2 : Value) : SlicesOverlapKind :=
  if ref1 = ref2 then .DefinitelyIdentical
  else
    match ref1.getDefiningDesignateOp, ref2.getDefiningDesignateOp with
    | some des1, some des2 =>
      if des1.getMemref ≠ des2.getMemref then .Unknown
      else if des1.getComponent ≠ des2.getComponent ∨
          des1.getComponentShape ≠ des2.getComponentShape ∨
          des1.getSubstring ≠ des2.getSubstring ∨
          des1.getComplexPart ≠ des2.getComplexPart ∨
          des1.getTypeparams ≠ des2.getTypeparams then .Unknown
      else analyze.loop (des1.subscripts.zip des2.subscripts) true true
    | _, _ => .Unknown

/-! ## getDesignatorIndices -/

/-- The lambda `isNormalizedLb` of `getDesignatorIndices` (lines 459-479).  The
dimension is an operand position, which MLIR keeps in 32 bits, so the conversion
to `unsigned` loses nothing. -/
def isNormalizedLb (memref : Value) (v : Value) (dim : Nat) : Bool :=
  match v.getDefiningOp with
  | some (.subi _ subLhs subRhs) =>
    match getIntIfConstant subRhs with
    | some cst =>
      if cst ≠ 1 then false
      else
        match subLhs.getDefiningOp with
        | some (.boxDims id val dimOperand) =>
          if memref ≠ val ∨ (Operation.boxDims id val dimOperand).getResult 0 ≠ subLhs then
            false
          else
            match getIntIfConstant dimOperand with
            | some dimsOpDim => decide (dimsOpDim = (dim : Int))
            | none => false
        | _ => false
    | none => false
  | _ => false

/-- The loop of `getDesignatorIndices` over the enumerated index operands (lines
482-495): `i` is `index.index()`, `newIndices` the indices found so far. -/
def getDesignatorIndices.loop (memref : Value) :
    List Value → Nat → List Value → List Value
  | [], _, newIndices => newIndices
  | value :: rest, i, newIndices =>
    match value.getDefiningOp with
    | some (.addi _ lhs rhs) =>
      let newIndices :=
        if isNormalizedLb memref lhs i then newIndices ++ [rhs]
        else if isNormalizedLb memref rhs i then newIndices ++ [lhs]
        else newIndices
      if newIndices.length ≤ i then newIndices
      else getDesignatorIndices.loop memref rest (i + 1) newIndices
    | _ => getDesignatorIndices.loop memref rest (i + 1) newIndices

/-- The function `ElementalAssignBufferization::getDesignatorIndices` (lines
441-506). -/
def getDesignatorIndices (env : Env) (designate : DesignateOp) : List Value :=
  let memref := designate.getMemref
  if env.hasBaseBoxType memref then
    let newIndices := getDesignatorIndices.loop memref designate.getIndices 0 []
    if newIndices.length ≠ designate.getIndices.length then designate.getIndices
    else newIndices
  else designate.getIndices

/-! ## findMatch -/

/-- The loop over the users (lines 525-528): the last `hlfir.assign` and the last
`hlfir.destroy` among them. -/
def findMatch.scanUsers :
    List User → Option AssignOp → Option DestroyOp → Option AssignOp × Option DestroyOp
  | [], assign, destroy => (assign, destroy)
  | .assign op :: rest, _, destroy => findMatch.scanUsers rest (some op) destroy
  | .destroy op :: rest, assign, _ => findMatch.scanUsers rest assign (some op)
  | .other _ :: rest, assign, destroy => findMatch.scanUsers rest assign destroy

/-- The first loop of `findMatch`, over the effects of the body (lines 592-656).
It returns `none` where the source returns `std::nullopt`, and otherwise the lists
`notToBeAccessedBeforeAssign` and `notToBeWrittenBeforeAssign`. -/
def findMatch.bodyLoop (env : Env) (elemental : ElementalOp) (array : Value) :
    List EffectInstance → List Value → List Value → Option (List Value × List Value)
  | [], notToBeAccessedBeforeAssign, notToBeWrittenBeforeAssign =>
    some (notToBeAccessedBeforeAssign, notToBeWrittenBeforeAssign)
  | effect :: rest, notToBeAccessedBeforeAssign, notToBeWrittenBeforeAssign =>
    let res := containsReadOrWriteEffectOn env effect array
    if res.isNo then
      match effect.getValue with
      | some value =>
        if effect.getEffect = .Write then
          findMatch.bodyLoop env elemental array rest
            (notToBeAccessedBeforeAssign ++ [value]) notToBeWrittenBeforeAssign
        else if effect.getEffect = .Read then
          findMatch.bodyLoop env elemental array rest
            notToBeAccessedBeforeAssign (notToBeWrittenBeforeAssign ++ [value])
        else
          findMatch.bodyLoop env elemental array rest
            notToBeAccessedBeforeAssign notToBeWrittenBeforeAssign
      | none =>
        findMatch.bodyLoop env elemental array rest
          notToBeAccessedBeforeAssign notToBeWrittenBeforeAssign
    else if effect.getEffect = .Write then none
    else
      match effect.getValue with
      | none => none
      | some value =>
        if !res.isPartialAlias then
          match value.getDefiningDesignateOp with
          | some designate =>
            let overlap := analyze array designate.getMemref
            if overlap = .DefinitelyDisjoint then
              findMatch.bodyLoop env elemental array rest
                notToBeAccessedBeforeAssign notToBeWrittenBeforeAssign
            else if overlap = .Unknown then none
            else if getDesignatorIndices env designate = elemental.getIndices then
              findMatch.bodyLoop env elemental array rest
                notToBeAccessedBeforeAssign notToBeWrittenBeforeAssign
            else none
          | none => none
        else none

/-- The second loop of `findMatch`, over the effects between the elemental and the
assignment (lines 666-690): `true` when no effect makes it return
`std::nullopt`. -/
def findMatch.spanLoop (env : Env) (effects : List EffectInstance)
    (notToBeAccessedBeforeAssign notToBeWrittenBeforeAssign : List Value) : Bool :=
  effects.all fun effect =>
    (notToBeAccessedBeforeAssign.all fun val =>
      (containsReadOrWriteEffectOn env effect val).isNo) &&
    (notToBeWrittenBeforeAssign.all fun val =>
      !(!(containsReadOrWriteEffectOn env effect val).isNo &&
        !decide (effect.getEffect = .Read)))

/-- The effect analysis of `findMatch` (lines 572-692), once `match.array`,
`match.assign` and `match.destroy` are set. -/
def findMatch.effectAnalysis (env : Env) (elemental : ElementalOp) (info : MatchInfo) :
    Except AssertionFailure (Option MatchInfo) :=
  match getEffectsBetween elemental.front elemental.getTerminator with
  | .error failure => .error failure
  | .ok none => .ok none
  | .ok (some effects) =>
    match findMatch.bodyLoop env elemental info.array effects [] [] with
    | none => .ok none
    | some (notToBeAccessedBeforeAssign, notToBeWrittenBeforeAssign) =>
      match getEffectsBetween elemental.getNextNode info.assign.op with
      | .error failure => .error failure
      | .ok none => .ok none
      | .ok (some effects) =>
        if findMatch.spanLoop env effects notToBeAccessedBeforeAssign
            notToBeWrittenBeforeAssign then .ok (some info)
        else .ok none

/-- The function `ElementalAssignBufferization::findMatch` (lines 508-693). -/
def findMatch (env : Env) (elemental : ElementalOp) :
    Except AssertionFailure (Option MatchInfo) :=
  if elemental.getUsers.length ≠ 2 then .ok none
  else if env.elementalOpMustProduceTemp elemental then .ok none
  else
    match findMatch.scanUsers elemental.getUsers none none with
    | (some assign, some destroy) =>
      let array := assign.getLhs
      if !env.isSequenceAfterUnwrap array then .ok none
      else if !env.hasTrivialElementType array then .ok none
      else if assign.isAllocatableAssignment then .ok none
      else
        findMatch.effectAnalysis env elemental
          { array := array, assign := assign, destroy := destroy }
    | _ => .ok none

/-! ## Notions used to state the properties -/

/-- The effects of a run of operations, in program order: the concatenation of
what `mlir::getEffectsRecursively` gives for each, or nothing as soon as one of
them has effects that cannot be enumerated. -/
def collectEffects : List BlockOp → Option (List EffectInstance)
  | [] => some []
  | op :: rest =>
    match op.getEffectsRecursively, collectEffects rest with
    | some effects, some others => some (effects ++ others)
    | _, _ => none

/-- The operations of the block of `start` from `start` (included) up to the
position of `stop` (excluded). -/
def opsBetween (start stop : OpPtr) : List BlockOp :=
  (start.getBlock.ops.drop start.index).take (stop.index - start.index)

/-- The checks `findMatch` makes before the effect analysis (lines 510-570) all
pass, `assign` and `destroy` being the users it finds. -/
def PassesPreAnalysis (env : Env) (elemental : ElementalOp) (assign : AssignOp)
    (destroy : DestroyOp) : Prop :=
  elemental.getUsers.length = 2 ∧
  env.elementalOpMustProduceTemp elemental = false ∧
  findMatch.scanUsers elemental.getUsers none none = (some assign, some destroy) ∧
  env.isSequenceAfterUnwrap assign.getLhs = true ∧
  env.hasTrivialElementType assign.getLhs = true ∧
  assign.isAllocatableAssignment = false

/-- An effect of the body that may alias the array is a read the first loop of
`findMatch` lets through: it has a value defined by a designator, the alias
result is not partial, and either the designated base is a slice disjoint from the
array, or the overlap is known and the designator is indexed by the indices of the
elemental. -/
def AllowedAliasingRead (env : Env) (elemental : ElementalOp) (array : Value)
    (effect : EffectInstance) : Prop :=
  effect.getEffect ≠ .Write ∧
  (containsReadOrWriteEffectOn env effect array).isPartialAlias = false ∧
  ∃ value designate, effect.getValue = some value ∧
    value.getDefiningDesignateOp = some designate ∧
    (analyze array designate.getMemref = .DefinitelyDisjoint ∨
      (analyze array designate.getMemref ≠ .Unknown ∧
        getDesignatorIndices env designate = elemental.getIndices))

/-- The values the first loop of `findMatch` appends to
`notToBeAccessedBeforeAssign`: those of the writes that do not alias the array. -/
def recordedWrites (env : Env) (array : Value) (effects : List EffectInstance) :
    List Value :=
  effects.filterMap fun effect =>
    if (containsReadOrWriteEffectOn env effect array).isNo ∧ effect.getEffect = .Write
    then effect.getValue else none

/-- The values the first loop of `findMatch` appends to
`notToBeWrittenBeforeAssign`: those of the reads that do not alias the array. -/
def recordedReads (env : Env) (array : Value) (effects : List EffectInstance) :
    List Value :=
  effects.filterMap fun effect =>
    if (containsReadOrWriteEffectOn env effect array).isNo ∧ effect.getEffect = .Read
    then effect.getValue else none

/-! ## Concrete programs -/

/-- An oracle environment: the alias analysis answers `answer` for every pair, no
value is a box, every left-hand side is an array of trivial elements and no
elemental must produce a temporary. -/
def sampleEnv (answer : AliasResult) : Env :=
  { aliasAnalysis := fun _ _ => answer
    hasBaseBoxType := fun _ => false
    isSequenceAfterUnwrap := fun _ => true
    hasTrivialElementType := fun _ => true
    elementalOpMustProduceTemp := fun _ => false }

/-- The value `%array`, result of some declaration. -/
def sampleArray : Value :=
  .opResult (.other 1 .nil) 0

/-- The value `%0 = hlfir.designate %array(%arg0)`, where `%arg0` is the argument
of the body block (block 100) of the elemental. -/
def sampleElement : Value :=
  .opResult (.designate 2 sampleArray none .nil (.index (.blockArgument 100 0) .nil) .nil
    none .nil) 0

/-- An operation without memory effects. -/
def pureOp : BlockOp :=
  { getEffectsRecursively := some [] }

/-- An operation whose only effect is `effect`. -/
def opWith (effect : EffectInstance) : BlockOp :=
  { getEffectsRecursively := some [effect] }

/-- An operation whose effects cannot be enumerated. -/
def unknownOp : BlockOp :=
  { getEffectsRecursively := none }

/-- A read of `value`. -/
def readOf (value : Value) : EffectInstance :=
  { getEffect := .Read, getValue := some value, onDebuggingResource := false }

/-- A write to `value`. -/
def writeTo (value : Value) : EffectInstance :=
  { getEffect := .Write, getValue := some value, onDebuggingResource := false }

/-- The block (block 200) holding the elemental at position 0, the operations
`between`, then `hlfir.assign %expr to array`, `hlfir.destroy %expr` and a
terminator. -/
def sampleBlock (array : Value) (between : List BlockOp) : Block :=
  { id := 200
    ops := pureOp :: (between ++ [opWith (writeTo array), pureOp, pureOp]) }

/-- The assignment `hlfir.assign %expr to array` of `sampleBlock array between`. -/
def sampleAssign (array : Value) (between : List BlockOp) : AssignOp :=
  { op := { getBlock := sampleBlock array between, index := between.length + 1 }
    getLhs := array
    isAllocatableAssignment := false }

/-- The operation `hlfir.destroy %expr` of `sampleBlock array between`. -/
def sampleDestroy (array : Value) (between : List BlockOp) : DestroyOp :=
  { op := { getBlock := sampleBlock array between, index := between.length + 2 } }

/-- The elemental of `sampleBlock array between` with the body `bodyOps` (followed
by `hlfir.yield_element`), one index, used by the assignment and the destroy. -/
def sampleElemental (array : Value) (bodyOps between : List BlockOp) : ElementalOp :=
  { getUsers := [.assign (sampleAssign array between), .destroy (sampleDestroy array between)]
    bodyId := 100
    numIndices := 1
    bodyOps := bodyOps
    terminator := pureOp
    getNextNode := { getBlock := sampleBlock array between, index := 1 } }

/-- The match `findMatch` returns for `sampleElemental array bodyOps between`. -/
def sampleMatch (array : Value) (between : List BlockOp) : MatchInfo :=
  { array := array
    assign := sampleAssign array between
    destroy := sampleDestroy array between }

/-- The in-place update of the class comment:
`%0 = hlfir.designate %array(%arg0)`, a load of `%0`, and the assignment right
after the elemental. -/
def inPlaceElemental : ElementalOp :=
  sampleElemental sampleArray [pureOp, opWith (readOf sampleElement)] []

/-- The effect of `hlfir.declare`: an allocation on the debugging resource, on no
value. -/
def declareEffect : EffectInstance :=
  { getEffect := .Allocate, getValue := none, onDebuggingResource := true }

/-- A read of no particular value. -/
def valuelessRead : EffectInstance :=
  { getEffect := .Read, getValue := none, onDebuggingResource := false }

/-- A write to no particular value. -/
def valuelessWrite : EffectInstance :=
  { getEffect := .Write, getValue := none, onDebuggingResource := false }

/-- The value `%other`, result of another declaration. -/
def otherArray : Value :=
  .opResult (.other 3 .nil) 0

/-- The constant `%c<n>`. -/
def sampleConstant (n : Nat) : Value :=
  .opResult (.constant (1000 + n) n) 0

/-- The slice `%array(lb:ub:1)`, defined by the operation `id`. -/
def sampleSlice (id lb ub : Nat) : Value :=
  .opResult (.designate id sampleArray none .nil
    (.triplet (sampleConstant lb) (sampleConstant ub) (sampleConstant 1) .nil) .nil none
    .nil) 0

/-- The element `%slice(%c5)` of the slice `%array(11:20:1)`. -/
def sampleSliceElement : Value :=
  .opResult (.designate 22 (sampleSlice 21 11 20) none .nil (.index (sampleConstant 5) .nil)
    .nil none .nil) 0

/-- A block (block 300) in the region of the operation that follows the elemental,
holding the assignment `hlfir.assign %expr to %array` and a terminator. -/
def nestedBlock : Block :=
  { id := 300, ops := [opWith (writeTo sampleArray), pureOp] }

/-- An elemental whose assignment is in `nestedBlock`: the block of the elemental
is `%expr = hlfir.elemental ...`, then the operation holding `nestedBlock` (its
recursive effect is the store of the assignment), then `hlfir.destroy %expr`. -/
def nestedAssignElemental : ElementalOp :=
  { getUsers := [.assign { op := { getBlock := nestedBlock, index := 0 }
                           getLhs := sampleArray
                           isAllocatableAssignment := false },
      .destroy (sampleDestroy sampleArray [])]
    bodyId := 100
    numIndices := 1
    bodyOps := [pureOp, opWith (readOf sampleElement)]
    terminator := pureOp
    getNextNode := { getBlock := sampleBlock sampleArray [], index := 1 } }

/-! ## Notions used to state the properties of ArraySectionAnalyzer -/

/-- Two designators are comparable: `analyze` gets past its tests on the base and
on the static components (lines 320-340). -/
def Comparable (des1 des2 : DesignateOp) : Prop :=
  des1.getMemref = des2.getMemref ∧
  des1.getComponent = des2.getComponent ∧
  des1.getComponentShape = des2.getComponentShape ∧
  des1.getSubstring = des2.getSubstring ∧
  des1.getComplexPart = des2.getComplexPart ∧
  des1.getTypeparams = des2.getTypeparams

/-- The ordered bounds of a section as the specification words them: `(lb, ub)`
when the stride is absent or a non-negative integer constant, `(ub, lb)` when it is
a negative integer constant, nothing when the stride is not statically signed. -/
def orderedBoundsSpec (desc : SectionDesc) : Option (Value × Value) :=
  match desc.ub with
  | none => none
  | some ub =>
    match desc.stride with
    | none => some (desc.lb, ub)
    | some stride =>
      match getIntIfConstant stride with
      | some val => if 0 ≤ val then some (desc.lb, ub) else some (ub, desc.lb)
      | none => none

/-- Two sections are proven disjoint, as the specification words it: both have
statically signed strides and, with `(low, high)` their ordered bounds,
`isLess(high1, low2)` or `isLess(high2, low1)` holds. -/
def ProvenDisjoint (desc1 desc2 : SectionDesc) : Prop :=
  ∃ low1 high1 low2 high2,
    orderedBoundsSpec desc1 = some (low1, high1) ∧
    orderedBoundsSpec desc2 = some (low2, high2) ∧
    (isLess high1 low2 = true ∨ isLess high2 low1 = true)

/-- An operation `isLess` cannot look through: neither a constant, nor a
conversion, an addition or a subtraction. -/
def Operation.isOpaque : Operation → Bool
  | .constant _ _ => false
  | .convert _ _ => false
  | .addi _ _ _ => false
  | .subi _ _ _ => false
  | _ => true

/-- An opaque value: a block argument, or a result of an opaque operation. -/
def Value.isOpaque : Value → Bool
  | .blockArgument _ _ => true
  | .opResult op _ => op.isOpaque

/-- An interpretation of the index values left open: an integer for every result
of an operation that is not interpreted, and for every block argument. -/
structure Interpretation where
  result : Operation → Nat → Int
  argument : Nat → Nat → Int

mutual
/-- The integer a value denotes: constants as themselves, `arith.addi` and
`arith.subi` as exact integer addition and subtraction, `fir.convert` as the
identity, any other value as the interpretation gives it. -/
def Value.eval (ρ : Interpretation) : Value → Int
  | .opResult op resultNumber => op.eval ρ resultNumber
  | .blockArgument owner argNumber => ρ.argument owner argNumber
/-- The integer denoted by result `resultNumber` of an operation. -/
def Operation.eval (ρ : Interpretation) : Operation → Nat → Int
  | .constant _ value, _ => value
  | .convert _ value, _ => value.eval ρ
  | .addi _ lhs rhs, _ => lhs.eval ρ + rhs.eval ρ
  | .subi _ lhs rhs, _ => lhs.eval ρ - rhs.eval ρ
  | .boxDims id val dim, resultNumber => ρ.result (.boxDims id val dim) resultNumber
  | .designate id memref component componentShape subscripts substring complexPart
      typeparams, resultNumber =>
    ρ.result (.designate id memref component componentShape subscripts substring
      complexPart typeparams) resultNumber
  | .other id operands, resultNumber => ρ.result (.other id operands) resultNumber
end

/-- The indices one subscript addresses: the index itself for a scalar subscript;
for a triplet `lb:ub:stride` the values `lb + k * stride`, `k ≥ 0`, lying between
`lb` and `ub` in the direction of the stride. -/
def Subscript.addresses (ρ : Interpretation) : Subscript → Int → Prop
  | .index v => fun x => x = v.eval ρ
  | .triplet lb ub stride => fun x =>
    ∃ k : Nat, x = lb.eval ρ + (k : Int) * stride.eval ρ ∧
      (0 < stride.eval ρ → x ≤ ub.eval ρ) ∧ (stride.eval ρ < 0 → ub.eval ρ ≤ x)

/-- The stride of a triplet is not zero under the interpretation. -/
def Subscript.hasNonZeroStride (ρ : Interpretation) : Subscript → Prop
  | .index _ => True
  | .triplet _ _ stride => stride.eval ρ ≠ 0

/-- The index tuples a list of subscripts addresses: one index per subscript. -/
def addressesTuple (ρ : Interpretation) : List Subscript → List Int → Prop
  | [], [] => True
  | s :: subscripts, x :: tuple => s.addresses ρ x ∧ addressesTuple ρ subscripts tuple
  | _, _ => False

/-- The value `%third`, result of a third declaration. -/
def thirdArray : Value :=
  .opResult (.other 4 .nil) 0

/-- The operation `%dims:3 = fir.box_dims %array, %c0`. -/
def sampleBoxDims : Operation :=
  .boxDims 50 sampleArray (sampleConstant 0)

/-- The designator `%array(%c1 : %dims#1 : %c1)`: from 1 to the extent. -/
def extentSlice : Value :=
  .opResult (.designate 51 sampleArray none .nil
    (.triplet (sampleConstant 1) (.opResult sampleBoxDims 1) (sampleConstant 1) .nil) .nil
    none .nil) 0

/-- The designator `%array(%lb1 : %c20 : %c1)` where
`%lb1 = arith.addi %dims#0, %c1`: from the lower bound plus one to 20. -/
def shiftedSlice : Value :=
  .opResult (.designate 53 sampleArray none .nil
    (.triplet (.opResult (.addi 52 (.opResult sampleBoxDims 0) (sampleConstant 1)) 0)
      (sampleConstant 20) (sampleConstant 1) .nil) .nil none .nil) 0

/-- An interpretation giving the lower bound 1 (result 0 of `fir.box_dims`) and the
extent 10 (result 1), and 0 to everything else. -/
def sampleInterpretation : Interpretation :=
  { result := fun _ resultNumber =>
      if resultNumber = 0 then 1 else if resultNumber = 1 then 10 else 0
    argument := fun _ _ => 0 }

/-- The designator `%array(%c2 : %c7999 : %c1, %i)` defined by the operation `id`,
where `%i` is the result of the operation `idIndex`. -/
def columnSlice (id idIndex : Nat) : Value :=
  .opResult (.designate id sampleArray none .nil
    (.triplet (sampleConstant 2) (sampleConstant 7999) (sampleConstant 1)
      (.index (.opResult (.other idIndex .nil) 0) .nil)) .nil none .nil) 0

/-- The designator `%array(%c2 : %c2 : %c1)`. -/
def unitSlice : Value :=
  sampleSlice 63 2 2

/-- The designator `%array(%c2)`. -/
def unitElement : Value :=
  .opResult (.designate 64 sampleArray none .nil (.index (sampleConstant 2) .nil) .nil none
    .nil) 0

/-! ## Notions used to state the properties of isLess and getDesignatorIndices -/

/-- A value wrapped in `fir.convert` operations, one for each identity of `ids`,
the outermost first. -/
def wrapConverts : List Nat → Value → Value
  | [], v => v
  | id :: ids, v => .opResult (.convert id (wrapConverts ids v)) 0

/-- The value `v` is "the lower bound of dimension `k` of the box `memref`, minus
one", as the comment of `getDesignatorIndices` writes it:
`%d:3 = fir.box_dims memref, %k` and `v = arith.subi %d#0, %c1`. -/
def IsLowerBoundMinusOne (memref v : Value) (k : Nat) : Prop :=
  ∃ idSub idDims dim one resultNumber,
    v = .opResult (.subi idSub (.opResult (.boxDims idDims memref dim) 0) one)
      resultNumber ∧
    getIntIfConstant one = some 1 ∧ getIntIfConstant dim = some (k : Int)

/-- The index operand `v` of position `k` is an `arith.addi` of `o` and of the lower
bound of dimension `k` minus one, in either operand order. -/
def IsAdjustedIndex (memref v : Value) (k : Nat) (o : Value) : Prop :=
  ∃ id resultNumber lowerBoundMinusOne,
    IsLowerBoundMinusOne memref lowerBoundMinusOne k ∧
    (v = .opResult (.addi id o lowerBoundMinusOne) resultNumber ∨
      v = .opResult (.addi id lowerBoundMinusOne o) resultNumber)

/-- One step of the loop of `getDesignatorIndices` (lines 483-489): the one-based
index pushed for the operand `value` of position `i`, if any. -/
def getDesignatorIndices.oneBasedIndex (memref value : Value) (i : Nat) : Option Value :=
  match value.getDefiningOp with
  | some (.addi _ lhs rhs) =>
    if isNormalizedLb memref lhs i then some rhs
    else if isNormalizedLb memref rhs i then some lhs
    else none
  | _ => none

/-- The one-based indices of all the operands from position `i` on, when every one
of them has one. -/
def getDesignatorIndices.oneBasedIndices (memref : Value) :
    List Value → Nat → Option (List Value)
  | [], _ => some []
  | value :: rest, i =>
    match getDesignatorIndices.oneBasedIndex memref value i,
      getDesignatorIndices.oneBasedIndices memref rest (i + 1) with
    | some o, some others => some (o :: others)
    | _, _ => none

/-! ## tryUsingAssignLhsDirectly -/

/-- The operation `hlfir.eval_in_mem`: its users (one entry per use) and the
operation that follows it in its block. -/
structure EvaluateInMemoryOp where
  getUsers : List User
  getNextNode : OpPtr
  deriving DecidableEq

/-- What `tryUsingAssignLhsDirectly` takes from the rest of the compiler. -/
structure EvalInMemEnv where
  /-- The method `hlfir::DestroyOp::mustFinalizeExpr`. -/
  mustFinalizeExpr : DestroyOp → Bool
  /-- The method `hlfir::Entity::isSimplyContiguous` of the left-hand side. -/
  isSimplyContiguous : Value → Bool
  /-- The method `hlfir::Entity::isCharacter` of the left-hand side. -/
  isCharacter : Value → Bool
  /-- The test `aliasAnalysis.getModRef(evalInMem.getBody(), v).isModOrRef()`. -/
  bodyModOrRef : EvaluateInMemoryOp → Value → Bool

/-- The loop over the enumerated users (lines 859-865): nothing when it returns
`failure`, otherwise the assignment and the destroy found. -/
def tryUsingAssignLhsDirectly.scanUsers :
    List User → Nat → Option AssignOp → Option DestroyOp →
      Option (Option AssignOp × Option DestroyOp)
  | [], _, assign, destroy => some (assign, destroy)
  | user :: rest, index, assign, destroy =>
    if index > 2 then none
    else
      match user with
      | .assign op => tryUsingAssignLhsDirectly.scanUsers rest (index + 1) (some op) destroy
      | .destroy op => tryUsingAssignLhsDirectly.scanUsers rest (index + 1) assign (some op)
      | .other _ => tryUsingAssignLhsDirectly.scanUsers rest (index + 1) assign destroy

/-- The function `tryUsingAssignLhsDirectly` (lines 853-917): `true` for
`mlir::success()`, in which case the assignment, the destroy and the
`hlfir.eval_in_mem` are erased, `false` for `mlir::failure()`. -/
def tryUsingAssignLhsDirectly (env : EvalInMemEnv) (evalInMem : EvaluateInMemoryOp) :
    Except AssertionFailure Bool :=
  match tryUsingAssignLhsDirectly.scanUsers evalInMem.getUsers 0 none none with
  | none => .ok false
  | some (some assign, some destroy) =>
    if env.mustFinalizeExpr destroy || assign.isAllocatableAssignment then .ok false
    else
      let lhs := assign.getLhs
      if !env.isSimplyContiguous lhs then .ok false
      else if env.isCharacter lhs then .ok false
      else if env.bodyModOrRef evalInMem lhs then .ok false
      else
        match getEffectsBetween evalInMem.getNextNode assign.op with
        | .error failure => .error failure
        | .ok none => .ok false
        | .ok (some effects) =>
          .ok (effects.all fun effect =>
            match effect.getValue with
            | none => false
            | some affected => !env.bodyModOrRef evalInMem affected)
  | some _ => .ok false

/-- An environment in which nothing must be finalized, every left-hand side is
simply contiguous and not of character type, and the body of the
`hlfir.eval_in_mem` touches no value. -/
def sampleEvalInMemEnv : EvalInMemEnv :=
  { mustFinalizeExpr := fun _ => false
    isSimplyContiguous := fun _ => true
    isCharacter := fun _ => false
    bodyModOrRef := fun _ _ => false }

/-- An `hlfir.eval_in_mem` at position 0 of `sampleBlock sampleArray []`, used by
the assignment, by the destroy, and by the operations at the positions
`extraUsers` of the block. -/
def sampleEvalInMem (extraUsers : List Nat) : EvaluateInMemoryOp :=
  { getUsers := [.assign (sampleAssign sampleArray []), .destroy (sampleDestroy sampleArray [])]
      ++ extraUsers.map fun index =>
        .other { getBlock := sampleBlock sampleArray [], index := index }
    getNextNode := { getBlock := sampleBlock sampleArray [], index := 1 } }

/-- The designator `%array imag`, without subscripts: the imaginary parts of the
whole array. -/
def imagPartOfArray : Value :=
  .opResult (.designate 90 sampleArray none .nil .nil .nil (some true) .nil) 0

/-- The designator `%array(%c2) imag`: the imaginary part of one element. -/
def imagPartOfElement : Value :=
  .opResult (.designate 91 sampleArray none .nil (.index (sampleConstant 2) .nil) .nil
    (some true) .nil) 0

/-- An environment in which every value has a box type. -/
def boxEnv : Env :=
  { aliasAnalysis := fun _ _ => .MayAlias
    hasBaseBoxType := fun _ => true
    isSequenceAfterUnwrap := fun _ => true
    hasTrivialElementType := fun _ => true
    elementalOpMustProduceTemp := fun _ => false }

/-- The value `%17 = arith.subi %dims#0, %c1`: the lower bound of dimension 0 of
`%array`, minus one. -/
def sampleLowerBoundMinusOne : Value :=
  .opResult (.subi 51 (.opResult sampleBoxDims 0) (sampleConstant 1)) 0

/-- The value `%18 = arith.addi %arg0, %17`. -/
def sampleAdjustedIndex : Value :=
  .opResult (.addi 52 (.blockArgument 100 0) sampleLowerBoundMinusOne) 0

/-- The designator `hlfir.designate %array(%18)`. -/
def adjustedDesignate : DesignateOp :=
  { op := .designate 53 sampleArray none .nil (.index sampleAdjustedIndex .nil) .nil none .nil
    getMemref := sampleArray
    getComponent := none
    getComponentShape := []
    subscripts := [.index sampleAdjustedIndex]
    getSubstring := []
    getComplexPart := none
    getTypeparams := [] }


end OptimizedBufferization

/-! # MathToFuncs: the outlined functions of `math.ipowi` and `math.ctlz`

The functions `createElementIPowIFunc` and `createCtlzFunc` of
`mlir/lib/Conversion/MathToFuncs/MathToFuncs.cpp` build the bodies of
`__mlir_math_ipowi_<T>` and `__mlir_math_ctlz_<T>`.  A value of the integer type of
width `w` is its bit pattern, a natural number below `2 ^ w`; the operations of
`arith` are taken modulo `2 ^ w`. -/

namespace MathToFuncs

/-- The signed reading of the bit pattern `x` of width `w` (two's complement). -/
def toSigned (w x : Nat) : Int :=
  if x < 2 ^ (w - 1) then (x : Int) else (x : Int) - 2 ^ w

/-- The outcome of a call of `__mlir_math_ipowi_<T>`: the returned value, or the
execution of `arith.divsi %one, %zero`. -/
inductive IPowIResult where
  | value (v : Nat)
  | divisionByZero
  deriving DecidableEq

/-- The loop of `__mlir_math_ipowi_<T>` (lines 309-354): the block `loopHeader` with
its arguments `resultTmp`, `baseTmp` and `powerTmp`.  One unit of `fuel` is one
entry into `loopHeader`; `none` means that the fuel ran out. -/
def createElementIPowIFunc.loop (w : Nat) : Nat → Nat → Nat → Nat → Option Nat
  | 0, _, _, _ => none
  | fuel + 1, resultTmp, baseTmp, powerTmp =>
    let newResultTmp :=
      if powerTmp &&& (1 % 2 ^ w) ≠ 0 then (resultTmp * baseTmp) % 2 ^ w else resultTmp
    let newPowerTmp := powerTmp >>> (1 % 2 ^ w)
    if newPowerTmp = 0 then some newResultTmp
    else
      createElementIPowIFunc.loop w fuel newResultTmp ((baseTmp * baseTmp) % 2 ^ w)
        newPowerTmp

/-- The function `__mlir_math_ipowi_<T>` built by `createElementIPowIFunc` (lines
183-356), for the integer type of width `w`, on the arguments `bArg` and `pArg`. -/
def createElementIPowIFunc (w fuel bArg pArg : Nat) : Option IPowIResult :=
  let zeroValue := 0
  let oneValue := 1 % 2 ^ w
  let minusOneValue := 2 ^ w - 1
  if pArg = zeroValue then some (.value oneValue)
  else if toSigned w pArg ≤ toSigned w zeroValue then
    if bArg = zeroValue then some .divisionByZero
    else if bArg = oneValue then some (.value oneValue)
    else if bArg = minusOneValue then
      if pArg &&& oneValue ≠ zeroValue then some (.value minusOneValue)
      else some (.value oneValue)
    else some (.value zeroValue)
  else (createElementIPowIFunc.loop w fuel oneValue bArg pArg).map .value

/-- The body of the `scf.for` of `__mlir_math_ctlz_<T>` (lines 723-742), on the
iteration arguments `(argIter, nIter)`. -/
def createCtlzFunc.body (w : Nat) (args : Nat × Nat) : Nat × Nat :=
  let zeroValue := 0
  let oneValue := 1 % 2 ^ w
  if toSigned w args.1 < toSigned w zeroValue then (args.1, args.2)
  else ((args.1 <<< oneValue) % 2 ^ w, (args.2 + oneValue) % 2 ^ w)

/-- The function `__mlir_math_ctlz_<T>` built by `createCtlzFunc` (lines 653-750),
for the integer type of width `bitWidth`: the `scf.for` runs from 1 to `bitWidth`
(excluded) by steps of 1. -/
def createCtlzFunc (bitWidth arg : Nat) : Nat :=
  let bitWidthValue := bitWidth % 2 ^ bitWidth
  let zeroValue := 0
  if arg = zeroValue then bitWidthValue
  else
    ((List.range' 1 (bitWidth - 1)).foldl (fun args _ => createCtlzFunc.body bitWidth args)
      (arg, 0)).2

end MathToFuncs

/-! # SveEmitter: the splat operand of a prototype

The methods `Intrinsic::hasSplat`, `Intrinsic::getSplatIdx` and the function
`getProtoModifier` of `clang/utils/TableGen/SveEmitter.cpp`.  A prototype is the
list of its characters; the first token is the return type. -/

namespace SveEmitter

/-- The test of the characters `a j f r K L R @ !` in `getSplatIdx` (lines
268-270); they are also the set of `hasSplat`. -/
def isSplatModifier (c : Char) : Bool :=
  c = 'a' || c = 'j' || c = 'f' || c = 'r' || c = 'K' || c = 'L' || c = 'R' ||
    c = '@' || c = '!'

/-- The method `Intrinsic::hasSplat()` (lines 259-262):
`Proto.find_first_of("ajfrKLR@!") != npos`. -/
def hasSplat (Proto : List Char) : Bool :=
  Proto.any isSplatModifier

/-- The outcome of `getSplatIdx`: the returned parameter index, or the failure of
the assertion "Prototype has no splat operand". -/
inductive SplatIdx where
  | param (index : Nat)
  | assertionFailure
  deriving DecidableEq

/-- The loop of `getSplatIdx` (lines 267-276): the state on leaving the loop is
`(I, Param)`.  One unit of `fuel` is one test of the loop condition; `none` means
that the fuel ran out.  The counters are `unsigned`; a prototype is far shorter
than `2 ^ 32` characters. -/
def getSplatIdx.loop (Proto : List Char) : Nat → Nat → Nat → Option (Nat × Nat)
  | 0, _, _ => none
  | fuel + 1, I, Param =>
    match Proto[I]? with
    | none => some (I, Param)
    | some c =>
      if isSplatModifier c then some (I, Param)
      else
        let I := if c = '.' then I + 2 else I
        getSplatIdx.loop Proto fuel (I + 1) (Param + 1)

/-- The method `Intrinsic::getSplatIdx()` (lines 265-279).  Every pass of the loop
increases `I`, which starts at 1, so `Proto.size() + 1` tests of its condition are
enough. -/
def getSplatIdx (Proto : List Char) : Option SplatIdx :=
  match getSplatIdx.loop Proto (Proto.length + 1) 1 0 with
  | none => none
  | some (I, Param) => if I ≠ Proto.length then some (.param Param) else some .assertionFailure

/-- The function `getProtoModifier(Proto, Op)` (lines 938-958).  The recursion
counts `Op - P` down where the source counts `P` up to `Op`; `none` stands for
`llvm_unreachable("Unexpected Op")` and for the access `Proto[2]` past the end. -/
def getProtoModifier : List Char → Nat → Option (Char × Nat)
  | [], _ => none
  | Mod :: rest, Op =>
    let step : Option (Char × Nat × Nat) :=
      if Mod = '2' ∨ Mod = '3' ∨ Mod = '4' then
        let NumVectors := Mod.toNat - '0'.toNat
        if rest.head? = some '.' then
          match rest[1]? with
          | some mod2 => some (mod2, NumVectors, 3)
          | none => none
        else some ('d', NumVectors, 1)
      else some (Mod, 1, 1)
    match step with
    | none => none
    | some (modifier, NumVectors, CharsToSkip) =>
      match Op with
      | 0 => some (modifier, NumVectors)
      | Op + 1 => getProtoModifier ((Mod :: rest).drop CharsToSkip) Op

/-- The prototype `d2.da`: it returns the default vector, takes a tuple of two
default vectors and then a scalar that is splatted. -/
def tupleThenSplat : List Char :=
  ['d', '2', '.', 'd', 'a']

/-- The prototype `d2.daa`. -/
def tupleThenTwoSplats : List Char :=
  ['d', '2', '.', 'd', 'a', 'a']

end SveEmitter

namespace OptimizedBufferization


/-! ## Lemmas on getEffectsBetween -/

theorem OpPtr.mk_eq_iff (block : Block) (i j : Nat) :
    (OpPtr.mk block i = OpPtr.mk block j) ↔ i = j := by
  constructor
  · intro h
    cases h
    rfl
  · intro h
    rw [h]

theorem getEffectsBetween.loop_eq (block : Block) (stopIndex : Nat) :
    ∀ (ops : List BlockOp) (i : Nat) (ret : List EffectInstance), i ≤ stopIndex →
      getEffectsBetween.loop (OpPtr.mk block stopIndex) block i ops ret =
        (collectEffects (ops.take (stopIndex - i))).map (fun effects => ret ++ effects) := by
  intro ops
  induction ops with
  | nil =>
    intro i ret _
    simp [getEffectsBetween.loop, collectEffects]
  | cons op rest ih =>
    intro i ret hle
    by_cases hi : i = stopIndex
    · subst hi
      simp [getEffectsBetween.loop, collectEffects]
    · have hlt : i < stopIndex := lt_of_le_of_ne hle hi
      have hsub : stopIndex - i = (stopIndex - (i + 1)) + 1 := by omega
      have hne : ¬ (OpPtr.mk block i = OpPtr.mk block stopIndex) := by
        rw [OpPtr.mk_eq_iff]
        exact hi
      rw [hsub, List.take_succ_cons]
      simp only [getEffectsBetween.loop, hne, if_false, collectEffects]
      cases hop : op.getEffectsRecursively with
      | none => simp
      | some effects =>
        dsimp only
        rw [ih (i + 1) (ret ++ effects) (by omega)]
        cases collectEffects (List.take (stopIndex - (i + 1)) rest) with
        | none => simp
        | some others => simp [List.append_assoc]

theorem getEffectsBetween_eq (start stop : OpPtr)
    (hblock : start.getBlock = stop.getBlock) (hle : start.index ≤ stop.index) :
    getEffectsBetween start stop = .ok (collectEffects (opsBetween start stop)) := by
  obtain ⟨block, i⟩ := start
  obtain ⟨block2, j⟩ := stop
  simp only at hblock hle
  subst hblock
  by_cases hij : i = j
  · subst hij
    simp [getEffectsBetween, opsBetween, collectEffects]
  · have hlt : i < j := lt_of_le_of_ne hle hij
    have hne : ¬ (OpPtr.mk block i = OpPtr.mk block j) := by
      rw [OpPtr.mk_eq_iff]
      exact hij
    simp only [getEffectsBetween, hne, if_false, ne_eq, not_true_eq_false, properlyDominates,
      decide_eq_false_iff_not, not_lt, opsBetween]
    rw [if_neg (by omega)]
    rw [getEffectsBetween.loop_eq block j _ i [] hle]
    cases collectEffects (List.take (j - i) (List.drop i block.ops)) <;> simp

theorem getEffectsBetween_body (e : ElementalOp) :
    getEffectsBetween e.front e.getTerminator = .ok (collectEffects e.bodyOps) := by
  rw [getEffectsBetween_eq e.front e.getTerminator rfl (Nat.zero_le _)]
  simp [opsBetween, ElementalOp.front, ElementalOp.getTerminator, ElementalOp.getBody]

theorem collectEffects_eq_none_of_mem :
    ∀ (ops : List BlockOp) (op : BlockOp), op ∈ ops → op.getEffectsRecursively = none →
      collectEffects ops = none := by
  intro ops
  induction ops with
  | nil => intro op h; simp at h
  | cons hd tl ih =>
    intro op hmem hnone
    rcases List.mem_cons.mp hmem with h | h
    · subst h
      simp [collectEffects, hnone]
    · have := ih op h hnone
      simp only [collectEffects, this]
      cases hd.getEffectsRecursively <;> rfl


theorem findMatch.bodyLoop_cons_some (env : Env) (e : ElementalOp) (array : Value)
    (effect : EffectInstance) (rest : List EffectInstance) (a w : List Value)
    (r : List Value × List Value)
    (h : findMatch.bodyLoop env e array (effect :: rest) a w = some r) :
    ((containsReadOrWriteEffectOn env effect array).isNo = true ∨
        AllowedAliasingRead env e array effect) ∧
      findMatch.bodyLoop env e array rest (a ++ recordedWrites env array [effect])
        (w ++ recordedReads env array [effect]) = some r := by
  simp only [findMatch.bodyLoop] at h
  by_cases hno : (containsReadOrWriteEffectOn env effect array).isNo = true
  · refine ⟨Or.inl hno, ?_⟩
    simp only [hno, if_true] at h
    cases hv : effect.getValue with
    | none =>
      simp only [hv] at h
      simpa [recordedWrites, recordedReads, hno, hv] using h
    | some value =>
      simp only [hv] at h
      by_cases hw : effect.getEffect = .Write
      · simp only [hw, if_true] at h
        simpa [recordedWrites, recordedReads, hno, hv, hw] using h
      · by_cases hr : effect.getEffect = .Read
        · simp only [hr, if_true] at h
          simpa [recordedWrites, recordedReads, hno, hv, hr] using h
        · simp only [hw, hr, if_false] at h
          simpa [recordedWrites, recordedReads, hno, hv, hr, hw] using h
  · simp only [hno, if_false] at h
    have hrec : recordedWrites env array [effect] = [] ∧
        recordedReads env array [effect] = [] := by
      simp [recordedWrites, recordedReads, hno]
    rw [hrec.1, hrec.2, List.append_nil, List.append_nil]
    by_cases hw : effect.getEffect = .Write
    · simp [hw] at h
    · simp only [hw, if_false] at h
      cases hv : effect.getValue with
      | none => simp [hv] at h
      | some value =>
        simp only [hv] at h
        by_cases hp : (containsReadOrWriteEffectOn env effect array).isPartialAlias = true
        · simp [hp] at h
        · simp only [hp, Bool.not_false, if_true] at h
          simp only [Bool.not_eq_true] at hp
          cases hd : value.getDefiningDesignateOp with
          | none => simp [hd, hp] at h
          | some designate =>
            simp only [hd, hp, Bool.not_false, if_true] at h
            by_cases hdis : analyze array designate.getMemref = .DefinitelyDisjoint
            · simp only [hdis, if_true] at h
              exact ⟨Or.inr ⟨hw, hp, value, designate, hv, hd, Or.inl hdis⟩, h⟩
            · simp only [hdis, if_false] at h
              by_cases hun : analyze array designate.getMemref = .Unknown
              · simp [hun] at h
              · simp only [hun, if_false] at h
                by_cases hidx : getDesignatorIndices env designate = e.getIndices
                · simp only [hidx, if_true] at h
                  exact ⟨Or.inr ⟨hw, hp, value, designate, hv, hd, Or.inr ⟨hun, hidx⟩⟩, h⟩
                · simp [hidx] at h

theorem findMatch.bodyLoop_cons_of_allowed (env : Env) (e : ElementalOp) (array : Value)
    (effect : EffectInstance) (rest : List EffectInstance) (a w : List Value)
    (h : (containsReadOrWriteEffectOn env effect array).isNo = true ∨
        AllowedAliasingRead env e array effect) :
    findMatch.bodyLoop env e array (effect :: rest) a w =
      findMatch.bodyLoop env e array rest (a ++ recordedWrites env array [effect])
        (w ++ recordedReads env array [effect]) := by
  simp only [findMatch.bodyLoop]
  by_cases hno : (containsReadOrWriteEffectOn env effect array).isNo = true
  · simp only [hno, if_true]
    cases hv : effect.getValue with
    | none => simp [recordedWrites, recordedReads, hno, hv]
    | some value =>
      by_cases hw : effect.getEffect = .Write
      · simp [recordedWrites, recordedReads, hno, hv, hw]
      · by_cases hr : effect.getEffect = .Read
        · simp [recordedWrites, recordedReads, hno, hv, hr]
        · simp [recordedWrites, recordedReads, hno, hv, hr, hw]
  · rcases h with h | ⟨hw, hp, value, designate, hv, hd, hcase⟩
    · exact absurd h hno
    · have hrec : recordedWrites env array [effect] = [] ∧
          recordedReads env array [effect] = [] := by
        simp [recordedWrites, recordedReads, hno]
      rw [hrec.1, hrec.2, List.append_nil, List.append_nil]
      simp only [hno, if_false, hw, hv, hp, Bool.not_false, if_true, hd]
      rcases hcase with hdis | ⟨hun, hidx⟩
      · simp [hdis]
      · by_cases hdis : analyze array designate.getMemref = .DefinitelyDisjoint
        · simp [hdis]
        · simp [hdis, hun, hidx]

theorem recordedWrites_cons (env : Env) (array : Value) (effect : EffectInstance)
    (rest : List EffectInstance) :
    recordedWrites env array (effect :: rest) =
      recordedWrites env array [effect] ++ recordedWrites env array rest := by
  unfold recordedWrites
  rw [← List.filterMap_append]
  rfl

theorem recordedReads_cons (env : Env) (array : Value) (effect : EffectInstance)
    (rest : List EffectInstance) :
    recordedReads env array (effect :: rest) =
      recordedReads env array [effect] ++ recordedReads env array rest := by
  unfold recordedReads
  rw [← List.filterMap_append]
  rfl

theorem findMatch.bodyLoop_some (env : Env) (e : ElementalOp) (array : Value) :
    ∀ (effects : List EffectInstance) (a w : List Value) (r : List Value × List Value),
      findMatch.bodyLoop env e array effects a w = some r →
        (∀ effect ∈ effects, (containsReadOrWriteEffectOn env effect array).isNo = true ∨
          AllowedAliasingRead env e array effect) ∧
        r = (a ++ recordedWrites env array effects, w ++ recordedReads env array effects) := by
  intro effects
  induction effects with
  | nil =>
    intro a w r h
    simp only [findMatch.bodyLoop, Option.some.injEq] at h
    simp [recordedWrites, recordedReads, ← h]
  | cons effect rest ih =>
    intro a w r h
    obtain ⟨hhead, htail⟩ := findMatch.bodyLoop_cons_some env e array effect rest a w r h
    obtain ⟨hall, hr⟩ := ih _ _ r htail
    refine ⟨?_, ?_⟩
    · intro x hx
      rcases List.mem_cons.mp hx with hx | hx
      · rw [hx]
        exact hhead
      · exact hall x hx
    · rw [hr, recordedWrites_cons env array effect rest, recordedReads_cons env array effect rest,
        List.append_assoc, List.append_assoc]

theorem findMatch.bodyLoop_of_allowed (env : Env) (e : ElementalOp) (array : Value) :
    ∀ (effects : List EffectInstance) (a w : List Value),
      (∀ effect ∈ effects, (containsReadOrWriteEffectOn env effect array).isNo = true ∨
          AllowedAliasingRead env e array effect) →
      findMatch.bodyLoop env e array effects a w =
        some (a ++ recordedWrites env array effects, w ++ recordedReads env array effects) := by
  intro effects
  induction effects with
  | nil =>
    intro a w _
    simp [findMatch.bodyLoop, recordedWrites, recordedReads]
  | cons effect rest ih =>
    intro a w h
    rw [findMatch.bodyLoop_cons_of_allowed env e array effect rest a w
      (h effect (List.mem_cons_self _ _))]
    rw [ih _ _ (fun x hx => h x (List.mem_cons_of_mem _ hx))]
    rw [recordedWrites_cons env array effect rest, recordedReads_cons env array effect rest,
      List.append_assoc, List.append_assoc]

/-! ## Lemmas on findMatch -/

theorem findMatch_of_passesPreAnalysis (env : Env) (e : ElementalOp) (assign : AssignOp)
    (destroy : DestroyOp) (hpre : PassesPreAnalysis env e assign destroy) :
    findMatch env e =
      findMatch.effectAnalysis env e
        { array := assign.getLhs, assign := assign, destroy := destroy } := by
  obtain ⟨hlen, htemp, hscan, hseq, htriv, hrealloc⟩ := hpre
  simp [findMatch, hlen, htemp, hscan, hseq, htriv, hrealloc]

theorem findMatch.effectAnalysis_some (env : Env) (e : ElementalOp) (info m : MatchInfo)
    (h : findMatch.effectAnalysis env e info = .ok (some m)) :
    m = info ∧ ∃ bodyEffects spanEffects,
      collectEffects e.bodyOps = some bodyEffects ∧
      (∀ effect ∈ bodyEffects,
        (containsReadOrWriteEffectOn env effect info.array).isNo = true ∨
          AllowedAliasingRead env e info.array effect) ∧
      getEffectsBetween e.getNextNode info.assign.op = .ok (some spanEffects) ∧
      findMatch.spanLoop env spanEffects (recordedWrites env info.array bodyEffects)
        (recordedReads env info.array bodyEffects) = true := by
  unfold findMatch.effectAnalysis at h
  rw [getEffectsBetween_body] at h
  cases hbody : collectEffects e.bodyOps with
  | none => simp [hbody] at h
  | some bodyEffects =>
    simp only [hbody] at h
    cases hloop : findMatch.bodyLoop env e info.array bodyEffects [] [] with
    | none => simp [hloop] at h
    | some r =>
      obtain ⟨hall, hr⟩ := findMatch.bodyLoop_some env e info.array bodyEffects [] [] r hloop
      simp only [List.nil_append] at hr
      subst hr
      simp only [hloop] at h
      cases hspan : getEffectsBetween e.getNextNode info.assign.op with
      | error failure => simp [hspan] at h
      | ok res =>
        cases res with
        | none => simp [hspan] at h
        | some spanEffects =>
          simp only [hspan] at h
          by_cases hs : findMatch.spanLoop env spanEffects
              (recordedWrites env info.array bodyEffects)
              (recordedReads env info.array bodyEffects) = true
          · simp only [hs, if_true, Except.ok.injEq, Option.some.injEq] at h
            exact ⟨h.symm, bodyEffects, spanEffects, rfl, hall, rfl, hs⟩
          · simp [hs] at h

theorem findMatch_some (env : Env) (e : ElementalOp) (m : MatchInfo)
    (h : findMatch env e = .ok (some m)) :
    PassesPreAnalysis env e m.assign m.destroy ∧ m.array = m.assign.getLhs ∧
      findMatch.effectAnalysis env e m = .ok (some m) := by
  unfold findMatch at h
  by_cases hlen : e.getUsers.length = 2
  · simp only [hlen, ne_eq, not_true_eq_false, if_false] at h
    cases htemp : env.elementalOpMustProduceTemp e with
    | true => simp [htemp] at h
    | false =>
      simp only [htemp, Bool.false_eq_true, if_false] at h
      cases hscan : findMatch.scanUsers e.getUsers none none with
      | mk assign destroy =>
        cases assign with
        | none => simp [hscan] at h
        | some assign =>
          cases destroy with
          | none => simp [hscan] at h
          | some destroy =>
            simp only [hscan] at h
            cases hseq : env.isSequenceAfterUnwrap assign.getLhs with
            | false => simp [hseq] at h
            | true =>
              cases htriv : env.hasTrivialElementType assign.getLhs with
              | false => simp [hseq, htriv] at h
              | true =>
                cases hre : assign.isAllocatableAssignment with
                | true => simp [hseq, htriv, hre] at h
                | false =>
                  simp only [hseq, htriv, hre, Bool.not_true, Bool.false_eq_true,
                    if_false] at h
                  obtain ⟨hm, _⟩ := findMatch.effectAnalysis_some env e _ m h
                  subst hm
                  exact ⟨⟨hlen, htemp, hscan, hseq, htriv, hre⟩, rfl, h⟩
  · simp [hlen] at h

theorem AliasResult.isNo_eq_true_iff (res : AliasResult) :
    res.isNo = true ↔ res = .NoAlias := by
  cases res <;> simp [AliasResult.isNo]

theorem findMatch.effectAnalysis_of_body_rejected (env : Env) (e : ElementalOp)
    (info : MatchInfo) (effects : List EffectInstance) (effect : EffectInstance)
    (heffects : collectEffects e.bodyOps = some effects) (hmem : effect ∈ effects)
    (hno : (containsReadOrWriteEffectOn env effect info.array).isNo = false)
    (hnot : ¬ AllowedAliasingRead env e info.array effect) :
    findMatch.effectAnalysis env e info = .ok none := by
  unfold findMatch.effectAnalysis
  rw [getEffectsBetween_body, heffects]
  cases hloop : findMatch.bodyLoop env e info.array effects [] [] with
  | none => simp [hloop]
  | some r =>
    exfalso
    obtain ⟨hall, _⟩ := findMatch.bodyLoop_some env e info.array effects [] [] r hloop
    rcases hall effect hmem with h | h
    · rw [hno] at h
      exact Bool.false_ne_true h
    · exact hnot h

theorem collectEffects_of_getEffectsBetween_body (e : ElementalOp)
    (effects : List EffectInstance)
    (h : getEffectsBetween e.front e.getTerminator = .ok (some effects)) :
    collectEffects e.bodyOps = some effects := by
  rw [getEffectsBetween_body] at h
  exact Except.ok.inj h

/-! ## The properties of findMatch -/

/-- C1: for an elemental that passes the pre-analysis checks, a Write effect among
the effects collected over the body whose alias result against the assigned array
is not NoAlias makes `findMatch` return no match. -/
theorem findMatch_rejects_aliasing_write_in_body (env : Env) (e : ElementalOp)
    (assign : AssignOp) (destroy : DestroyOp) (effects : List EffectInstance)
    (effect : EffectInstance)
    (hpre : PassesPreAnalysis env e assign destroy)
    (heffects : getEffectsBetween e.front e.getTerminator = .ok (some effects))
    (hmem : effect ∈ effects) (hwrite : effect.getEffect = .Write)
    (halias : containsReadOrWriteEffectOn env effect assign.getLhs ≠ .NoAlias) :
    findMatch env e = .ok none := by
  rw [findMatch_of_passesPreAnalysis env e assign destroy hpre]
  apply findMatch.effectAnalysis_of_body_rejected env e _ effects effect
    (collectEffects_of_getEffectsBetween_body e effects heffects) hmem
  · cases hres : (containsReadOrWriteEffectOn env effect assign.getLhs).isNo with
    | false => rfl
    | true => exact absurd ((AliasResult.isNo_eq_true_iff _).mp hres) halias
  · intro hallowed
    exact hallowed.1 hwrite

/-- Witness of C1: a body storing into the assigned array is rejected. -/
theorem findMatch_rejects_aliasing_write_in_body_witness :
    PassesPreAnalysis (sampleEnv .NoAlias) (sampleElemental sampleArray [opWith (writeTo sampleArray)] [])
        (sampleAssign sampleArray []) (sampleDestroy sampleArray []) ∧
      findMatch (sampleEnv .NoAlias) (sampleElemental sampleArray [opWith (writeTo sampleArray)] []) =
        .ok none :=
  have hpre : PassesPreAnalysis (sampleEnv .NoAlias)
      (sampleElemental sampleArray [opWith (writeTo sampleArray)] []) (sampleAssign sampleArray [])
      (sampleDestroy sampleArray []) := by
    unfold PassesPreAnalysis
    decide
  ⟨hpre, findMatch_rejects_aliasing_write_in_body (sampleEnv .NoAlias)
    (sampleElemental sampleArray [opWith (writeTo sampleArray)] []) (sampleAssign sampleArray []) (sampleDestroy sampleArray [])
    [writeTo sampleArray] (writeTo sampleArray) hpre (by rfl) (by decide) (by rfl)
    (by decide)⟩
/-- C2, the code at the failing input: the body reads `%array(%arg0)`, an operation
between the elemental and the assignment stores into `%array`, and `findMatch`
still returns a match. -/
theorem findMatch_accepts_write_to_array_before_assign :
    findMatch (sampleEnv .MayAlias)
        (sampleElemental sampleArray [pureOp, opWith (readOf sampleElement)]
          [opWith (writeTo sampleArray)]) =
      .ok (some (sampleMatch sampleArray [opWith (writeTo sampleArray)])) ∧
    opsBetween
        (sampleElemental sampleArray [pureOp, opWith (readOf sampleElement)]
          [opWith (writeTo sampleArray)]).getNextNode
        (sampleAssign sampleArray [opWith (writeTo sampleArray)]).op =
      [opWith (writeTo sampleArray)] ∧
    containsReadOrWriteEffectOn (sampleEnv .MayAlias) (writeTo sampleArray) sampleArray =
      .MustAlias :=
  ⟨by rfl, by decide, by decide⟩

theorem getDesignatorIndices.loop_of_blockArguments (memref : Value) :
    ∀ (indices : List Value) (i : Nat) (newIndices : List Value),
      (∀ v ∈ indices, v.getDefiningOp = none) →
      getDesignatorIndices.loop memref indices i newIndices = newIndices := by
  intro indices
  induction indices with
  | nil => intro i acc _; rfl
  | cons v rest ih =>
    intro i acc h
    have hv : v.getDefiningOp = none := h v (List.mem_cons_self _ _)
    simp only [getDesignatorIndices.loop, hv]
    exact ih (i + 1) acc (fun x hx => h x (List.mem_cons_of_mem _ hx))

theorem getDesignatorIndices_of_blockArguments (env : Env) (designate : DesignateOp)
    (h : ∀ v ∈ designate.getIndices, v.getDefiningOp = none) :
    getDesignatorIndices env designate = designate.getIndices := by
  unfold getDesignatorIndices
  simp only [getDesignatorIndices.loop_of_blockArguments designate.getMemref
    designate.getIndices 0 [] h]
  cases env.hasBaseBoxType designate.getMemref with
  | false => simp
  | true =>
    by_cases hlen : ([] : List Value).length = designate.getIndices.length
    · simp only [hlen, ne_eq, not_true_eq_false, if_false, if_true]
      exact (List.length_eq_zero.mp hlen.symm).symm
    · simp only [ne_eq, hlen, not_false_eq_true, if_true]

theorem ElementalOp.getIndices_getDefiningOp (e : ElementalOp) :
    ∀ v ∈ e.getIndices, v.getDefiningOp = none := by
  intro v hv
  unfold ElementalOp.getIndices at hv
  obtain ⟨k, _, hk⟩ := List.mem_map.mp hv
  rw [← hk]
  rfl

theorem analyze_self (ref : Value) : analyze ref ref = .DefinitelyIdentical := by
  simp [analyze]

theorem containsReadOrWriteEffectOn_read_of_designate (env : Env) (effect : EffectInstance)
    (array value : Value) (designate : DesignateOp)
    (hvalue : effect.getValue = some value)
    (hdesignate : value.getDefiningDesignateOp = some designate)
    (hmemref : designate.getMemref = array)
    (hnopart : env.aliasAnalysis array value ≠ .PartialAlias) :
    (containsReadOrWriteEffectOn env effect array).isPartialAlias = false := by
  unfold containsReadOrWriteEffectOn
  by_cases hrw : effect.getEffect = .Read ∨ effect.getEffect = .Write
  · simp only [hrw, if_true, hvalue]
    cases effect.onDebuggingResource with
    | true => rfl
    | false =>
      simp only [Bool.false_eq_true, if_false]
      by_cases heq : value = array
      · simp [heq, AliasResult.isPartialAlias]
      · simp only [heq, if_false, hdesignate, hmemref, if_true]
        cases hres : env.aliasAnalysis array value with
        | NoAlias => simp [AliasResult.isNo, AliasResult.isPartialAlias]
        | MayAlias => simp [AliasResult.isNo, AliasResult.isPartialAlias]
        | PartialAlias => exact absurd hres hnopart
        | MustAlias => simp [AliasResult.isNo, AliasResult.isPartialAlias]
  · simp [hrw, AliasResult.isPartialAlias]

theorem findMatch.scanUsers_pair (assign : AssignOp) (destroy : DestroyOp)
    (users : List User)
    (h : users = [.assign assign, .destroy destroy] ∨
      users = [.destroy destroy, .assign assign]) :
    users.length = 2 ∧ findMatch.scanUsers users none none = (some assign, some destroy) := by
  rcases h with h | h <;> subst h <;> exact ⟨rfl, rfl⟩

/-- C3: an elemental used by exactly one non-reallocating assignment to an array
of trivial elements and one destroy, not required to produce a temporary, whose
body's only effect is a read through a designator of that array indexed by the
indices of the elemental, and immediately followed by the assignment, is
matched (with that array, assignment and destroy) provided the alias analysis
does not answer PartialAlias for the read. -/
theorem findMatch_accepts_in_place_read (env : Env) (e : ElementalOp) (assign : AssignOp)
    (destroy : DestroyOp) (read : EffectInstance) (value : Value) (designate : DesignateOp)
    (husers : e.getUsers = [.assign assign, .destroy destroy] ∨
      e.getUsers = [.destroy destroy, .assign assign])
    (hrealloc : assign.isAllocatableAssignment = false)
    (hseq : env.isSequenceAfterUnwrap assign.getLhs = true)
    (htrivial : env.hasTrivialElementType assign.getLhs = true)
    (htemp : env.elementalOpMustProduceTemp e = false)
    (hbody : collectEffects e.bodyOps = some [read])
    (hread : read.getEffect = .Read) (hvalue : read.getValue = some value)
    (hdesignate : value.getDefiningDesignateOp = some designate)
    (hmemref : designate.getMemref = assign.getLhs)
    (hindices : designate.getIndices = e.getIndices)
    (hnext : e.getNextNode = assign.op)
    (hnopart : env.aliasAnalysis assign.getLhs value ≠ .PartialAlias) :
    findMatch env e =
      .ok (some { array := assign.getLhs, assign := assign, destroy := destroy }) := by
  obtain ⟨hlen, hscan⟩ := findMatch.scanUsers_pair assign destroy e.getUsers husers
  rw [findMatch_of_passesPreAnalysis env e assign destroy
    ⟨hlen, htemp, hscan, hseq, htrivial, hrealloc⟩]
  unfold findMatch.effectAnalysis
  rw [getEffectsBetween_body, hbody]
  have hallowed : ∀ effect ∈ [read],
      (containsReadOrWriteEffectOn env effect assign.getLhs).isNo = true ∨
        AllowedAliasingRead env e assign.getLhs effect := by
    intro effect heffect
    rw [List.mem_singleton.mp heffect]
    refine Or.inr ⟨?_, ?_, value, designate, hvalue, hdesignate, Or.inr ⟨?_, ?_⟩⟩
    · rw [hread]
      decide
    · exact containsReadOrWriteEffectOn_read_of_designate env read assign.getLhs value
        designate hvalue hdesignate hmemref hnopart
    · rw [hmemref, analyze_self]
      decide
    · rw [getDesignatorIndices_of_blockArguments env designate
        (by rw [hindices]; exact e.getIndices_getDefiningOp)]
      exact hindices
  simp only [findMatch.bodyLoop_of_allowed env e assign.getLhs [read] [] [] hallowed, hnext]
  simp [getEffectsBetween, findMatch.spanLoop]

/-- Witness of C3: the in-place update of the class comment is matched. -/
theorem findMatch_accepts_in_place_read_witness :
    findMatch (sampleEnv .MayAlias) inPlaceElemental = .ok (some (sampleMatch sampleArray [])) :=
  findMatch_accepts_in_place_read (sampleEnv .MayAlias) inPlaceElemental (sampleAssign sampleArray [])
    (sampleDestroy sampleArray []) (readOf sampleElement) sampleElement
    { op := .designate 2 sampleArray none .nil (.index (.blockArgument 100 0) .nil) .nil
        none .nil
      getMemref := sampleArray
      getComponent := none
      getComponentShape := []
      subscripts := [.index (.blockArgument 100 0)]
      getSubstring := []
      getComplexPart := none
      getTypeparams := [] }
    (Or.inl rfl) rfl rfl rfl rfl (by rfl) rfl rfl (by rfl) rfl (by rfl) (by rfl) (by decide)

theorem findMatch.scanUsers_of_length_two (users : List User) (assign : AssignOp)
    (destroy : DestroyOp) (hlen : users.length = 2)
    (hscan : findMatch.scanUsers users none none = (some assign, some destroy)) :
    users = [.assign assign, .destroy destroy] ∨
      users = [.destroy destroy, .assign assign] := by
  match users, hlen with
  | [u1, u2], _ =>
    cases u1 <;> cases u2 <;> simp [findMatch.scanUsers] at hscan
    · left
      rw [hscan.1, hscan.2]
    · right
      rw [hscan.1, hscan.2]

/-- C4: `findMatch` returns a match only if the elemental has exactly two uses,
one by the matched `hlfir.assign` and one by the matched `hlfir.destroy`; an
elemental with three users is rejected whatever its other properties. -/
theorem findMatch_requires_assign_and_destroy (env : Env) (e : ElementalOp) :
    (∀ m, findMatch env e = .ok (some m) →
      e.getUsers.length = 2 ∧
        (e.getUsers = [.assign m.assign, .destroy m.destroy] ∨
          e.getUsers = [.destroy m.destroy, .assign m.assign])) ∧
    (e.getUsers.length = 3 → findMatch env e = .ok none) := by
  constructor
  · intro m h
    obtain ⟨⟨hlen, _, hscan, _⟩, _⟩ := findMatch_some env e m h
    exact ⟨hlen, findMatch.scanUsers_of_length_two e.getUsers m.assign m.destroy hlen hscan⟩
  · intro h
    simp [findMatch, h]

/-- Witness of C4: the matched in-place update has its assignment and its destroy
as only users, and the same elemental with a third user is rejected. -/
theorem findMatch_requires_assign_and_destroy_witness :
    (inPlaceElemental.getUsers.length = 2 ∧
      (inPlaceElemental.getUsers =
          [.assign (sampleMatch sampleArray []).assign, .destroy (sampleMatch sampleArray []).destroy] ∨
        inPlaceElemental.getUsers =
          [.destroy (sampleMatch sampleArray []).destroy, .assign (sampleMatch sampleArray []).assign])) ∧
    findMatch (sampleEnv .MayAlias)
        { inPlaceElemental with
          getUsers := inPlaceElemental.getUsers ++
            [.other { getBlock := sampleBlock sampleArray [], index := 3 }] } = .ok none :=
  ⟨(findMatch_requires_assign_and_destroy (sampleEnv .MayAlias) inPlaceElemental).1
      (sampleMatch sampleArray []) (by rfl),
    (findMatch_requires_assign_and_destroy (sampleEnv .MayAlias)
      { inPlaceElemental with
        getUsers := inPlaceElemental.getUsers ++
          [.other { getBlock := sampleBlock sampleArray [], index := 3 }] }).2 (by rfl)⟩

theorem findMatch.effectAnalysis_of_span_unknown (env : Env) (e : ElementalOp)
    (info : MatchInfo)
    (hspan : getEffectsBetween e.getNextNode info.assign.op = .ok none) :
    findMatch.effectAnalysis env e info = .ok none := by
  unfold findMatch.effectAnalysis
  rw [getEffectsBetween_body]
  cases hbody : collectEffects e.bodyOps with
  | none => rfl
  | some effects =>
    cases hloop : findMatch.bodyLoop env e info.array effects [] [] with
    | none => simp [hloop]
    | some r => simp [hloop, hspan]

/-- C5: for an elemental that passes the pre-analysis checks, an operation of the
body (before the terminator) whose effects cannot be enumerated makes `findMatch`
return no match, and so does such an operation between the elemental and the
assignment (the assignment following the elemental in its block). -/
theorem findMatch_rejects_unknown_effects (env : Env) (e : ElementalOp)
    (assign : AssignOp) (destroy : DestroyOp)
    (hpre : PassesPreAnalysis env e assign destroy) :
    ((∃ op ∈ e.bodyOps, op.getEffectsRecursively = none) → findMatch env e = .ok none) ∧
    (e.getNextNode.getBlock = assign.op.getBlock →
      e.getNextNode.index ≤ assign.op.index →
      (∃ op ∈ opsBetween e.getNextNode assign.op, op.getEffectsRecursively = none) →
      findMatch env e = .ok none) := by
  rw [findMatch_of_passesPreAnalysis env e assign destroy hpre]
  constructor
  · rintro ⟨op, hmem, hnone⟩
    unfold findMatch.effectAnalysis
    rw [getEffectsBetween_body, collectEffects_eq_none_of_mem e.bodyOps op hmem hnone]
  · rintro hblock hle ⟨op, hmem, hnone⟩
    apply findMatch.effectAnalysis_of_span_unknown
    rw [getEffectsBetween_eq e.getNextNode assign.op hblock hle,
      collectEffects_eq_none_of_mem _ op hmem hnone]

/-- Witness of C5: an operation with unknown effects in the body, and one between
the elemental and the assignment. -/
theorem findMatch_rejects_unknown_effects_witness :
    findMatch (sampleEnv .MayAlias) (sampleElemental sampleArray [unknownOp] []) = .ok none ∧
    findMatch (sampleEnv .MayAlias) (sampleElemental sampleArray [] [pureOp, unknownOp]) = .ok none :=
  ⟨(findMatch_rejects_unknown_effects (sampleEnv .MayAlias) (sampleElemental sampleArray [unknownOp] [])
      (sampleAssign sampleArray []) (sampleDestroy sampleArray []) (by unfold PassesPreAnalysis; decide)).1
      ⟨unknownOp, by decide, rfl⟩,
    (findMatch_rejects_unknown_effects (sampleEnv .MayAlias)
      (sampleElemental sampleArray [] [pureOp, unknownOp]) (sampleAssign sampleArray [pureOp, unknownOp])
      (sampleDestroy sampleArray [pureOp, unknownOp]) (by unfold PassesPreAnalysis; decide)).2
      rfl (by decide) ⟨unknownOp, by decide, rfl⟩⟩

/-- C7: `findMatch` returns a match only if the elemental need not produce a
temporary, the left-hand side of the assignment (the matched array) is, once
unwrapped, of sequence type with a trivial element type, and the assignment is not
an allocatable assignment. -/
theorem findMatch_requires_trivial_array_target (env : Env) (e : ElementalOp)
    (m : MatchInfo) (h : findMatch env e = .ok (some m)) :
    env.elementalOpMustProduceTemp e = false ∧
      m.array = m.assign.getLhs ∧
      env.isSequenceAfterUnwrap m.assign.getLhs = true ∧
      env.hasTrivialElementType m.assign.getLhs = true ∧
      m.assign.isAllocatableAssignment = false := by
  obtain ⟨⟨_, htemp, _, hseq, htrivial, hrealloc⟩, harray, _⟩ := findMatch_some env e m h
  exact ⟨htemp, harray, hseq, htrivial, hrealloc⟩

/-- Witness of C7: the matched in-place update. -/
theorem findMatch_requires_trivial_array_target_witness :
    findMatch (sampleEnv .MayAlias) inPlaceElemental = .ok (some (sampleMatch sampleArray [])) ∧
      (sampleEnv .MayAlias).elementalOpMustProduceTemp inPlaceElemental = false ∧
      (sampleMatch sampleArray []).array = (sampleMatch sampleArray []).assign.getLhs ∧
      (sampleEnv .MayAlias).isSequenceAfterUnwrap (sampleMatch sampleArray []).assign.getLhs = true ∧
      (sampleEnv .MayAlias).hasTrivialElementType (sampleMatch sampleArray []).assign.getLhs = true ∧
      (sampleMatch sampleArray []).assign.isAllocatableAssignment = false :=
  ⟨by rfl, findMatch_requires_trivial_array_target (sampleEnv .MayAlias) inPlaceElemental
    (sampleMatch sampleArray []) (by rfl)⟩

theorem containsReadOrWriteEffectOn_valueless (env : Env) (effect : EffectInstance)
    (val : Value) (hrw : effect.getEffect = .Read ∨ effect.getEffect = .Write)
    (hdebug : effect.onDebuggingResource = false) (hvalue : effect.getValue = none) :
    containsReadOrWriteEffectOn env effect val = .MayAlias := by
  simp [containsReadOrWriteEffectOn, hrw, hdebug, hvalue]

theorem findMatch.spanLoop_eq_false_of_mem (env : Env) (spanEffects : List EffectInstance)
    (notToBeAccessed notToBeWritten : List Value) (effect : EffectInstance)
    (hmem : effect ∈ spanEffects)
    (hbad : (∃ val ∈ notToBeAccessed,
        (containsReadOrWriteEffectOn env effect val).isNo = false) ∨
      (∃ val ∈ notToBeWritten, (containsReadOrWriteEffectOn env effect val).isNo = false ∧
        effect.getEffect ≠ .Read)) :
    findMatch.spanLoop env spanEffects notToBeAccessed notToBeWritten = false := by
  unfold findMatch.spanLoop
  rw [List.all_eq_false]
  refine ⟨effect, hmem, ?_⟩
  rcases hbad with ⟨val, hval, hno⟩ | ⟨val, hval, hno, hread⟩
  · intro hcontra
    rw [Bool.and_eq_true, List.all_eq_true] at hcontra
    have := hcontra.1 val hval
    rw [hno] at this
    exact Bool.false_ne_true this
  · intro hcontra
    rw [Bool.and_eq_true, List.all_eq_true, List.all_eq_true] at hcontra
    have := hcontra.2 val hval
    simp [hno, hread] at this

theorem findMatch.effectAnalysis_of_span_rejected (env : Env) (e : ElementalOp)
    (info : MatchInfo) (bodyEffects spanEffects : List EffectInstance)
    (hbody : collectEffects e.bodyOps = some bodyEffects)
    (hspan : getEffectsBetween e.getNextNode info.assign.op = .ok (some spanEffects))
    (hloop : findMatch.spanLoop env spanEffects (recordedWrites env info.array bodyEffects)
      (recordedReads env info.array bodyEffects) = false) :
    findMatch.effectAnalysis env e info = .ok none := by
  unfold findMatch.effectAnalysis
  rw [getEffectsBetween_body, hbody]
  cases hbodyLoop : findMatch.bodyLoop env e info.array bodyEffects [] [] with
  | none => simp [hbodyLoop]
  | some r =>
    obtain ⟨_, hr⟩ := findMatch.bodyLoop_some env e info.array bodyEffects [] [] r hbodyLoop
    simp only [List.nil_append] at hr
    subst hr
    simp [hbodyLoop, hspan, hloop]

/-- C6, counterexample: the body holds an `hlfir.declare`, whose effect (an
allocation on the debugging resource) has no value, and `findMatch` returns a
match. -/
theorem findMatch_accepts_valueless_effect :
    PassesPreAnalysis (sampleEnv .MayAlias) (sampleElemental sampleArray [opWith declareEffect] [])
        (sampleAssign sampleArray []) (sampleDestroy sampleArray []) ∧
      getEffectsBetween (sampleElemental sampleArray [opWith declareEffect] []).front
          (sampleElemental sampleArray [opWith declareEffect] []).getTerminator =
        .ok (some [declareEffect]) ∧
      declareEffect.getValue = none ∧
      findMatch (sampleEnv .MayAlias) (sampleElemental sampleArray [opWith declareEffect] []) =
        .ok (some (sampleMatch sampleArray [])) :=
  ⟨by unfold PassesPreAnalysis; decide, by rfl, rfl, by rfl⟩

/-- C6, amended: for an elemental that passes the pre-analysis checks, if the
effects collected over the body contain a Read or Write effect on a resource other
than the debugging resource and with no value, `findMatch` returns no match. -/
theorem findMatch_rejects_valueless_access (env : Env) (e : ElementalOp)
    (assign : AssignOp) (destroy : DestroyOp)
    (hpre : PassesPreAnalysis env e assign destroy)
    (bodyEffects : List EffectInstance)
    (hbody : getEffectsBetween e.front e.getTerminator = .ok (some bodyEffects))
    (effect : EffectInstance) (hmem : effect ∈ bodyEffects)
    (hrw : effect.getEffect = .Read ∨ effect.getEffect = .Write)
    (hdebug : effect.onDebuggingResource = false) (hvalue : effect.getValue = none) :
    findMatch env e = .ok none := by
  rw [findMatch_of_passesPreAnalysis env e assign destroy hpre]
  apply findMatch.effectAnalysis_of_body_rejected env e _ bodyEffects effect
    (collectEffects_of_getEffectsBetween_body e bodyEffects hbody) hmem
  · rw [containsReadOrWriteEffectOn_valueless env effect _ hrw hdebug hvalue]
    rfl
  · rintro ⟨_, _, value, _, hsome, _⟩
    rw [hvalue] at hsome
    exact Option.noConfusion hsome

/-- Witness of C6 (amended): a read of no value in the body. -/
theorem findMatch_rejects_valueless_access_witness :
    findMatch (sampleEnv .NoAlias) (sampleElemental sampleArray [opWith valuelessRead] []) =
      .ok none :=
  findMatch_rejects_valueless_access (sampleEnv .NoAlias)
    (sampleElemental sampleArray [opWith valuelessRead] []) (sampleAssign sampleArray [])
    (sampleDestroy sampleArray []) (by unfold PassesPreAnalysis; decide) [valuelessRead]
    (by rfl) valuelessRead (by decide) (Or.inl rfl) rfl rfl

/-- Between the elemental and the assignment a write of no value is only tested
against the values recorded from the body: after a body that reads `%array(%arg0)`
in place nothing is recorded, and `findMatch` returns a match although an operation
before the assignment writes to an unknown location.  It is the same missing test
of the array as for a store into `%array` before the assignment. -/
theorem findMatch_accepts_valueless_write_before_assign :
    valuelessWrite.getEffect = .Write ∧ valuelessWrite.getValue = none ∧
    valuelessWrite.onDebuggingResource = false ∧
    getEffectsBetween
        (sampleElemental sampleArray [pureOp, opWith (readOf sampleElement)]
          [opWith valuelessWrite]).getNextNode
        (sampleAssign sampleArray [opWith valuelessWrite]).op =
      .ok (some [valuelessWrite]) ∧
    findMatch (sampleEnv .MayAlias)
        (sampleElemental sampleArray [pureOp, opWith (readOf sampleElement)]
          [opWith valuelessWrite]) =
      .ok (some (sampleMatch sampleArray [opWith valuelessWrite])) :=
  ⟨rfl, rfl, rfl, by rfl, by rfl⟩

/-- C8, the code at the failing input: the assignment is in the region of the
operation that follows the elemental, hence in another block, and `findMatch`
does not return: the assertion `start->getBlock() == end->getBlock()` of
`getEffectsBetween` fails. -/
theorem findMatch_assertion_fails_across_blocks :
    findMatch (sampleEnv .MayAlias) nestedAssignElemental = .error .sameBlock := by
  rfl

theorem findMatch.scanUsers_assign_mem :
    ∀ (users : List User) (assign0 : Option AssignOp) (destroy0 : Option DestroyOp)
      (assign : AssignOp) (destroy : Option DestroyOp),
      findMatch.scanUsers users assign0 destroy0 = (some assign, destroy) →
      assign0 = some assign ∨ User.assign assign ∈ users := by
  intro users
  induction users with
  | nil =>
    intro assign0 destroy0 assign destroy h
    simp only [findMatch.scanUsers, Prod.mk.injEq] at h
    exact Or.inl h.1
  | cons user rest ih =>
    intro assign0 destroy0 assign destroy h
    cases user with
    | assign op =>
      simp only [findMatch.scanUsers] at h
      rcases ih _ _ assign destroy h with h1 | h1
      · right
        rw [Option.some.inj h1]
        exact List.mem_cons_self _ _
      · exact Or.inr (List.mem_cons_of_mem _ h1)
    | destroy op =>
      simp only [findMatch.scanUsers] at h
      rcases ih _ _ assign destroy h with h1 | h1
      · exact Or.inl h1
      · exact Or.inr (List.mem_cons_of_mem _ h1)
    | other op =>
      simp only [findMatch.scanUsers] at h
      rcases ih _ _ assign destroy h with h1 | h1
      · exact Or.inl h1
      · exact Or.inr (List.mem_cons_of_mem _ h1)

theorem findMatch.effectAnalysis_ok (env : Env) (e : ElementalOp) (info : MatchInfo)
    (hblock : e.getNextNode.getBlock = info.assign.op.getBlock)
    (hle : e.getNextNode.index ≤ info.assign.op.index) :
    ∃ r, findMatch.effectAnalysis env e info = .ok r := by
  unfold findMatch.effectAnalysis
  rw [getEffectsBetween_body, getEffectsBetween_eq e.getNextNode info.assign.op hblock hle]
  cases collectEffects e.bodyOps with
  | none => exact ⟨none, rfl⟩
  | some bodyEffects =>
    cases hloop : findMatch.bodyLoop env e info.array bodyEffects [] [] with
    | none => exact ⟨none, by simp [hloop]⟩
    | some r =>
      cases hspan : collectEffects (opsBetween e.getNextNode info.assign.op) with
      | none => exact ⟨none, by simp [hloop]⟩
      | some spanEffects =>
        by_cases hs : findMatch.spanLoop env spanEffects r.1 r.2 = true
        · exact ⟨some info, by simp [hloop, hs]⟩
        · exact ⟨none, by simp [hloop, hs]⟩

/-- For every elemental whose `hlfir.assign` users are in the block of the
elemental, at or after the operation that follows it, `findMatch` returns a match
or no match: the assertions of `getEffectsBetween` can only fail for an assignment
placed elsewhere. -/
theorem findMatch_total_within_block (env : Env) (e : ElementalOp)
    (h : ∀ assign, User.assign assign ∈ e.getUsers →
      assign.op.getBlock = e.getNextNode.getBlock ∧
        e.getNextNode.index ≤ assign.op.index) :
    ∃ r, findMatch env e = .ok r := by
  unfold findMatch
  by_cases hlen : e.getUsers.length = 2
  · simp only [hlen, ne_eq, not_true_eq_false, if_false]
    cases env.elementalOpMustProduceTemp e with
    | true => exact ⟨none, rfl⟩
    | false =>
      simp only [Bool.false_eq_true, if_false]
      cases hscan : findMatch.scanUsers e.getUsers none none with
      | mk assign destroy =>
        cases assign with
        | none => exact ⟨none, rfl⟩
        | some assign =>
          cases destroy with
          | none => exact ⟨none, rfl⟩
          | some destroy =>
            simp only
            cases env.isSequenceAfterUnwrap assign.getLhs with
            | false => exact ⟨none, rfl⟩
            | true =>
              cases env.hasTrivialElementType assign.getLhs with
              | false => exact ⟨none, rfl⟩
              | true =>
                cases hre : assign.isAllocatableAssignment with
                | true => exact ⟨none, by simp⟩
                | false =>
                  simp only [Bool.not_true, Bool.false_eq_true, if_false]
                  have hmem : User.assign assign ∈ e.getUsers := by
                    rcases findMatch.scanUsers_assign_mem e.getUsers none none assign
                      (some destroy) hscan with h1 | h1
                    · exact Option.noConfusion h1
                    · exact h1
                  obtain ⟨hblock, hle⟩ := h assign hmem
                  exact findMatch.effectAnalysis_ok env e _ hblock.symm hle
  · exact ⟨none, by simp [hlen]⟩

/-- The in-place update is an instance of `findMatch_total_within_block`. -/
theorem findMatch_total_within_block_witness :
    ∃ r, findMatch (sampleEnv .MayAlias) inPlaceElemental = .ok r :=
  findMatch_total_within_block (sampleEnv .MayAlias) inPlaceElemental (by
    intro assign hmem
    have hassign : assign = sampleAssign sampleArray [] := by
      simpa [inPlaceElemental, sampleElemental] using hmem
    rw [hassign]
    exact ⟨rfl, by decide⟩)

theorem findMatch_body_effect_allowed (env : Env) (e : ElementalOp) (m : MatchInfo)
    (bodyEffects : List EffectInstance) (effect : EffectInstance)
    (h : findMatch env e = .ok (some m))
    (hbody : getEffectsBetween e.front e.getTerminator = .ok (some bodyEffects))
    (hmem : effect ∈ bodyEffects) :
    (containsReadOrWriteEffectOn env effect m.array).isNo = true ∨
      AllowedAliasingRead env e m.array effect := by
  obtain ⟨_, _, hanalysis⟩ := findMatch_some env e m h
  obtain ⟨_, effects, _, heffects, hall, _⟩ :=
    findMatch.effectAnalysis_some env e m m hanalysis
  rw [collectEffects_of_getEffectsBetween_body e bodyEffects hbody] at heffects
  rw [← Option.some.inj heffects] at hall
  exact hall effect hmem

/-- C9, counterexample: the array is the slice `%array(2:10:1)`, the body reads
element `%c5` of the slice `%array(11:20:1)`, and the alias analysis answers
MustAlias.  The two slices are found disjoint, so the read is let through and
`findMatch` returns a match, although the designator is not indexed by the indices
of the elemental. -/
theorem findMatch_accepts_mustAlias_read_of_disjoint_slice :
    findMatch (sampleEnv .MustAlias)
        (sampleElemental (sampleSlice 20 2 10) [opWith (readOf sampleSliceElement)] []) =
      .ok (some (sampleMatch (sampleSlice 20 2 10) [])) ∧
    getEffectsBetween
        (sampleElemental (sampleSlice 20 2 10) [opWith (readOf sampleSliceElement)] []).front
        (sampleElemental (sampleSlice 20 2 10)
            [opWith (readOf sampleSliceElement)] []).getTerminator =
      .ok (some [readOf sampleSliceElement]) ∧
    containsReadOrWriteEffectOn (sampleEnv .MustAlias) (readOf sampleSliceElement)
        (sampleSlice 20 2 10) = .MustAlias ∧
    ¬ ∃ value designate, (readOf sampleSliceElement).getValue = some value ∧
        value.getDefiningDesignateOp = some designate ∧
        getDesignatorIndices (sampleEnv .MustAlias) designate =
          (sampleElemental (sampleSlice 20 2 10)
            [opWith (readOf sampleSliceElement)] []).getIndices := by
  refine ⟨by rfl, by rfl, by decide, ?_⟩
  rintro ⟨value, designate, hvalue, hdesignate, hindices⟩
  have hv : value = sampleSliceElement := (Option.some.inj hvalue).symm
  subst hv
  have hd := Option.some.inj hdesignate
  subst hd
  revert hindices
  decide

/-- C9, amended: whenever `findMatch` returns a match, every Read effect of the
body whose alias result against the matched array is MustAlias is a read through
an `hlfir.designate`, and either `ArraySectionAnalyzer::analyze` finds the
designated base DefinitelyDisjoint from the array, or its verdict is not Unknown
and the indices of the designator (as `getDesignatorIndices` returns them) are the
indices of the elemental, in the same order and number. -/
theorem findMatch_mustAlias_read_is_disjoint_or_indexed (env : Env) (e : ElementalOp)
    (m : MatchInfo) (bodyEffects : List EffectInstance) (effect : EffectInstance)
    (h : findMatch env e = .ok (some m))
    (hbody : getEffectsBetween e.front e.getTerminator = .ok (some bodyEffects))
    (hmem : effect ∈ bodyEffects) (_hread : effect.getEffect = .Read)
    (hmust : containsReadOrWriteEffectOn env effect m.array = .MustAlias) :
    ∃ value designate, effect.getValue = some value ∧
      value.getDefiningDesignateOp = some designate ∧
      (analyze m.array designate.getMemref = .DefinitelyDisjoint ∨
        (analyze m.array designate.getMemref ≠ .Unknown ∧
          getDesignatorIndices env designate = e.getIndices)) := by
  rcases findMatch_body_effect_allowed env e m bodyEffects effect h hbody hmem with hno | hal
  · rw [hmust] at hno
    exact absurd hno (by decide)
  · obtain ⟨_, _, value, designate, hvalue, hdesignate, hcase⟩ := hal
    exact ⟨value, designate, hvalue, hdesignate, hcase⟩

/-- Witness of C9 (amended): in the in-place update the alias analysis answers
NoAlias for the element and the read is MustAlias because it designates the
array. -/
theorem findMatch_mustAlias_read_is_disjoint_or_indexed_witness :
    ∃ value designate, (readOf sampleElement).getValue = some value ∧
      value.getDefiningDesignateOp = some designate ∧
      (analyze (sampleMatch sampleArray []).array designate.getMemref = .DefinitelyDisjoint ∨
        (analyze (sampleMatch sampleArray []).array designate.getMemref ≠ .Unknown ∧
          getDesignatorIndices (sampleEnv .NoAlias) designate =
            inPlaceElemental.getIndices)) :=
  findMatch_mustAlias_read_is_disjoint_or_indexed (sampleEnv .NoAlias) inPlaceElemental
    (sampleMatch sampleArray []) [readOf sampleElement] (readOf sampleElement) (by rfl) (by rfl)
    (by decide) rfl (by decide)

/-- C10, counterexample: in the in-place update of the class comment the alias
analysis answers MayAlias for the read of `%array(%arg0)`, the overlap verdict is
DefinitelyIdentical, not DefinitelyDisjoint, and `findMatch` returns a match. -/
theorem findMatch_accepts_mayAlias_read_of_identical_array :
    findMatch (sampleEnv .MayAlias) inPlaceElemental = .ok (some (sampleMatch sampleArray [])) ∧
    getEffectsBetween inPlaceElemental.front inPlaceElemental.getTerminator =
      .ok (some [readOf sampleElement]) ∧
    containsReadOrWriteEffectOn (sampleEnv .MayAlias) (readOf sampleElement)
        (sampleMatch sampleArray []).array = .MayAlias ∧
    sampleElement.getDefiningDesignateOp.map
        (fun designate => analyze (sampleMatch sampleArray []).array designate.getMemref) =
      some .DefinitelyIdentical :=
  ⟨by rfl, by rfl, by decide, by decide⟩

/-- C10, amended: whenever `findMatch` returns a match, no Read effect of the body
has the alias result PartialAlias against the matched array, and every Read effect
whose alias result is MayAlias is a read through an `hlfir.designate` for which
`ArraySectionAnalyzer::analyze` of the array and the designated base is
DefinitelyDisjoint, or is DefinitelyIdentical or EitherIdenticalOrDisjoint while
the indices of the designator (as `getDesignatorIndices` returns them) are the
indices of the elemental. -/
theorem findMatch_mayAlias_read_is_disjoint_or_indexed (env : Env) (e : ElementalOp)
    (m : MatchInfo) (bodyEffects : List EffectInstance) (effect : EffectInstance)
    (h : findMatch env e = .ok (some m))
    (hbody : getEffectsBetween e.front e.getTerminator = .ok (some bodyEffects))
    (hmem : effect ∈ bodyEffects) (_hread : effect.getEffect = .Read) :
    containsReadOrWriteEffectOn env effect m.array ≠ .PartialAlias ∧
    (containsReadOrWriteEffectOn env effect m.array = .MayAlias →
      ∃ value designate, effect.getValue = some value ∧
        value.getDefiningDesignateOp = some designate ∧
        (analyze m.array designate.getMemref = .DefinitelyDisjoint ∨
          ((analyze m.array designate.getMemref = .DefinitelyIdentical ∨
              analyze m.array designate.getMemref = .EitherIdenticalOrDisjoint) ∧
            getDesignatorIndices env designate = e.getIndices))) := by
  have hallowed := findMatch_body_effect_allowed env e m bodyEffects effect h hbody hmem
  constructor
  · intro hnopart
    rcases hallowed with hno | ⟨_, hp, _⟩
    · rw [hnopart] at hno
      exact absurd hno (by decide)
    · rw [hnopart] at hp
      exact absurd hp (by decide)
  · intro hmay
    rcases hallowed with hno | ⟨_, _, value, designate, hvalue, hdesignate, hcase⟩
    · rw [hmay] at hno
      exact absurd hno (by decide)
    · refine ⟨value, designate, hvalue, hdesignate, ?_⟩
      rcases hcase with hdis | ⟨hun, hidx⟩
      · exact Or.inl hdis
      · cases hov : analyze m.array designate.getMemref with
        | Unknown => exact absurd hov hun
        | DefinitelyIdentical => exact Or.inr ⟨Or.inl rfl, hidx⟩
        | DefinitelyDisjoint => exact Or.inl rfl
        | EitherIdenticalOrDisjoint => exact Or.inr ⟨Or.inr rfl, hidx⟩

/-- Witness of C10 (amended): the in-place update with an alias analysis that
answers MayAlias. -/
theorem findMatch_mayAlias_read_is_disjoint_or_indexed_witness :
    containsReadOrWriteEffectOn (sampleEnv .MayAlias) (readOf sampleElement)
        (sampleMatch sampleArray []).array ≠ .PartialAlias ∧
    (containsReadOrWriteEffectOn (sampleEnv .MayAlias) (readOf sampleElement)
        (sampleMatch sampleArray []).array = .MayAlias →
      ∃ value designate, (readOf sampleElement).getValue = some value ∧
        value.getDefiningDesignateOp = some designate ∧
        (analyze (sampleMatch sampleArray []).array designate.getMemref = .DefinitelyDisjoint ∨
          ((analyze (sampleMatch sampleArray []).array designate.getMemref = .DefinitelyIdentical ∨
              analyze (sampleMatch sampleArray []).array designate.getMemref =
                .EitherIdenticalOrDisjoint) ∧
            getDesignatorIndices (sampleEnv .MayAlias) designate =
              inPlaceElemental.getIndices))) :=
  findMatch_mayAlias_read_is_disjoint_or_indexed (sampleEnv .MayAlias) inPlaceElemental
    (sampleMatch sampleArray []) [readOf sampleElement] (readOf sampleElement) (by rfl) (by rfl)
    (by decide) rfl

/-! ## The effects between the elemental and the assignment -/

theorem findMatch.spanLoop_true (env : Env) (spanEffects : List EffectInstance)
    (notToBeAccessed notToBeWritten : List Value)
    (h : findMatch.spanLoop env spanEffects notToBeAccessed notToBeWritten = true)
    (effect : EffectInstance) (hmem : effect ∈ spanEffects) :
    (∀ val ∈ notToBeAccessed, containsReadOrWriteEffectOn env effect val = .NoAlias) ∧
    (∀ val ∈ notToBeWritten, containsReadOrWriteEffectOn env effect val ≠ .NoAlias →
      effect.getEffect = .Read) := by
  unfold findMatch.spanLoop at h
  rw [List.all_eq_true] at h
  have heffect := h effect hmem
  rw [Bool.and_eq_true, List.all_eq_true, List.all_eq_true] at heffect
  constructor
  · intro val hval
    exact (AliasResult.isNo_eq_true_iff _).mp (heffect.1 val hval)
  · intro val hval hne
    have hcheck := heffect.2 val hval
    by_cases hread : effect.getEffect = .Read
    · exact hread
    · exfalso
      have hno : (containsReadOrWriteEffectOn env effect val).isNo = false := by
        cases hres : (containsReadOrWriteEffectOn env effect val).isNo with
        | false => rfl
        | true => exact absurd ((AliasResult.isNo_eq_true_iff _).mp hres) hne
      simp [hno, hread] at hcheck

theorem mem_recordedWrites (env : Env) (array : Value) (effects : List EffectInstance)
    (effect : EffectInstance) (value : Value) (hmem : effect ∈ effects)
    (hno : containsReadOrWriteEffectOn env effect array = .NoAlias)
    (hwrite : effect.getEffect = .Write) (hvalue : effect.getValue = some value) :
    value ∈ recordedWrites env array effects := by
  unfold recordedWrites
  rw [List.mem_filterMap]
  refine ⟨effect, hmem, ?_⟩
  simp [hno, hwrite, hvalue, AliasResult.isNo]

theorem mem_recordedReads (env : Env) (array : Value) (effects : List EffectInstance)
    (effect : EffectInstance) (value : Value) (hmem : effect ∈ effects)
    (hno : containsReadOrWriteEffectOn env effect array = .NoAlias)
    (hread : effect.getEffect = .Read) (hvalue : effect.getValue = some value) :
    value ∈ recordedReads env array effects := by
  unfold recordedReads
  rw [List.mem_filterMap]
  refine ⟨effect, hmem, ?_⟩
  simp [hno, hread, hvalue, AliasResult.isNo]

theorem findMatch_spanLoop_of_match (env : Env) (e : ElementalOp) (m : MatchInfo)
    (bodyEffects spanEffects : List EffectInstance)
    (h : findMatch env e = .ok (some m))
    (hbody : getEffectsBetween e.front e.getTerminator = .ok (some bodyEffects))
    (hspan : getEffectsBetween e.getNextNode m.assign.op = .ok (some spanEffects)) :
    findMatch.spanLoop env spanEffects (recordedWrites env m.array bodyEffects)
      (recordedReads env m.array bodyEffects) = true := by
  obtain ⟨_, _, hanalysis⟩ := findMatch_some env e m h
  obtain ⟨_, effects, effects2, heffects, _, heffects2, hloop⟩ :=
    findMatch.effectAnalysis_some env e m m hanalysis
  rw [collectEffects_of_getEffectsBetween_body e bodyEffects hbody] at heffects
  rw [hspan] at heffects2
  rw [Option.some.inj heffects, Option.some.inj (Except.ok.inj heffects2)]
  exact hloop

/-- C11: whenever `findMatch` returns a match, for every Write effect of the body
that has a value `w` and does not alias the matched array, and every effect of
an operation between the elemental and the assignment,
`containsReadOrWriteEffectOn` of that effect and `w` is NoAlias. -/
theorem findMatch_body_writes_untouched_before_assign (env : Env) (e : ElementalOp)
    (m : MatchInfo) (bodyEffects spanEffects : List EffectInstance)
    (write effect : EffectInstance) (w : Value)
    (h : findMatch env e = .ok (some m))
    (hbody : getEffectsBetween e.front e.getTerminator = .ok (some bodyEffects))
    (hspan : getEffectsBetween e.getNextNode m.assign.op = .ok (some spanEffects))
    (hwrite : write ∈ bodyEffects) (hkind : write.getEffect = .Write)
    (hvalue : write.getValue = some w)
    (hno : containsReadOrWriteEffectOn env write m.array = .NoAlias)
    (heffect : effect ∈ spanEffects) :
    containsReadOrWriteEffectOn env effect w = .NoAlias :=
  (findMatch.spanLoop_true env spanEffects _ _
    (findMatch_spanLoop_of_match env e m bodyEffects spanEffects h hbody hspan) effect
    heffect).1 w (mem_recordedWrites env m.array bodyEffects write w hwrite hno hkind hvalue)

/-- Witness of C11: the body stores into `%other`, an operation between the
elemental and the assignment reads `%third`, the alias analysis answers NoAlias. -/
theorem findMatch_body_writes_untouched_before_assign_witness :
    containsReadOrWriteEffectOn (sampleEnv .NoAlias) (readOf thirdArray) otherArray =
      .NoAlias :=
  findMatch_body_writes_untouched_before_assign (sampleEnv .NoAlias)
    (sampleElemental sampleArray [opWith (writeTo otherArray)] [opWith (readOf thirdArray)])
    (sampleMatch sampleArray [opWith (readOf thirdArray)]) [writeTo otherArray]
    [readOf thirdArray] (writeTo otherArray) (readOf thirdArray) otherArray (by rfl) (by rfl)
    (by rfl) (by decide) rfl rfl (by decide) (by decide)

/-- C12: whenever `findMatch` returns a match, for every Read effect of the body
that has a value `r` and does not alias the matched array, every effect of an
operation between the elemental and the assignment whose
`containsReadOrWriteEffectOn` with `r` is not NoAlias is itself a Read effect. -/
theorem findMatch_body_reads_only_read_before_assign (env : Env) (e : ElementalOp)
    (m : MatchInfo) (bodyEffects spanEffects : List EffectInstance)
    (read effect : EffectInstance) (r : Value)
    (h : findMatch env e = .ok (some m))
    (hbody : getEffectsBetween e.front e.getTerminator = .ok (some bodyEffects))
    (hspan : getEffectsBetween e.getNextNode m.assign.op = .ok (some spanEffects))
    (hread : read ∈ bodyEffects) (hkind : read.getEffect = .Read)
    (hvalue : read.getValue = some r)
    (hno : containsReadOrWriteEffectOn env read m.array = .NoAlias)
    (heffect : effect ∈ spanEffects)
    (halias : containsReadOrWriteEffectOn env effect r ≠ .NoAlias) :
    effect.getEffect = .Read :=
  (findMatch.spanLoop_true env spanEffects _ _
    (findMatch_spanLoop_of_match env e m bodyEffects spanEffects h hbody hspan) effect
    heffect).2 r (mem_recordedReads env m.array bodyEffects read r hread hno hkind hvalue)
    halias

/-- Witness of C12: the body reads `%other` and an operation between the elemental
and the assignment reads `%other` again. -/
theorem findMatch_body_reads_only_read_before_assign_witness :
    containsReadOrWriteEffectOn (sampleEnv .NoAlias) (readOf otherArray) otherArray ≠
        .NoAlias ∧
      (readOf otherArray).getEffect = .Read :=
  ⟨by decide,
    findMatch_body_reads_only_read_before_assign (sampleEnv .NoAlias)
      (sampleElemental sampleArray [opWith (readOf otherArray)] [opWith (readOf otherArray)])
      (sampleMatch sampleArray [opWith (readOf otherArray)]) [readOf otherArray]
      [readOf otherArray] (readOf otherArray) (readOf otherArray) otherArray (by rfl)
      (by rfl) (by rfl) (by decide) rfl rfl (by decide) (by decide) (by decide)⟩

/-! ## The properties of ArraySectionAnalyzer -/

/-- C13: `analyze` is reflexive: for every value, designator or not,
`analyze(D, D)` is DefinitelyIdentical. -/
theorem analyze_reflexive (ref : Value) : analyze ref ref = .DefinitelyIdentical := by
  unfold analyze
  rw [if_pos rfl]

/-- C14: for two distinct values, if one of them is not the result of an
`hlfir.designate`, or the two designators differ in base, component, component
shape, substring, complex part or type parameters, `analyze` returns Unknown. -/
theorem analyze_unknown_of_not_comparable (ref1 ref2 : Value) (hne : ref1 ≠ ref2)
    (h : ref1.getDefiningDesignateOp = none ∨ ref2.getDefiningDesignateOp = none ∨
      ∃ des1 des2, ref1.getDefiningDesignateOp = some des1 ∧
        ref2.getDefiningDesignateOp = some des2 ∧
        (des1.getMemref ≠ des2.getMemref ∨ des1.getComponent ≠ des2.getComponent ∨
          des1.getComponentShape ≠ des2.getComponentShape ∨
          des1.getSubstring ≠ des2.getSubstring ∨
          des1.getComplexPart ≠ des2.getComplexPart ∨
          des1.getTypeparams ≠ des2.getTypeparams)) :
    analyze ref1 ref2 = .Unknown := by
  unfold analyze
  rw [if_neg hne]
  rcases h with h1 | h2 | ⟨des1, des2, h1, h2, hdiff⟩
  · rw [h1]
  · rw [h2]
    cases ref1.getDefiningDesignateOp <;> rfl
  · rw [h1, h2]
    by_cases hmemref : des1.getMemref = des2.getMemref
    · have hstatic : des1.getComponent ≠ des2.getComponent ∨
          des1.getComponentShape ≠ des2.getComponentShape ∨
          des1.getSubstring ≠ des2.getSubstring ∨
          des1.getComplexPart ≠ des2.getComplexPart ∨
          des1.getTypeparams ≠ des2.getTypeparams := by
        rcases hdiff with hd | hd
        · exact absurd hmemref hd
        · exact hd
      simp only [hmemref, ne_eq, not_true_eq_false, if_false]
      rw [if_pos hstatic]
    · simp [hmemref]

/-- Witness of C14: the array, which no designator defines, against one of its
elements; and an element of `%array` against the same element of `%other`. -/
theorem analyze_unknown_of_not_comparable_witness :
    analyze sampleArray sampleElement = .Unknown ∧
    analyze sampleElement
        (.opResult (.designate 5 otherArray none .nil (.index (.blockArgument 100 0) .nil)
          .nil none .nil) 0) = .Unknown :=
  ⟨analyze_unknown_of_not_comparable sampleArray sampleElement (by decide) (Or.inl rfl),
    analyze_unknown_of_not_comparable sampleElement _ (by decide)
      (Or.inr (Or.inr ⟨_, _, rfl, rfl, Or.inl (by decide)⟩))⟩

/-- C20: normalization of a section descriptor is idempotent: for every triple
`(lb, ub, stride)` with `lb` present, normalizing the normalized descriptor
leaves its three fields unchanged. -/
theorem SectionDesc.normalize_idempotent (d : SectionDesc) :
    d.normalize.normalize = d.normalize := by
  obtain ⟨lb, ub, stride⟩ := d
  cases ub with
  | none =>
    simp [SectionDesc.normalize]
  | some u =>
    by_cases hlb : lb = u
    · simp [SectionDesc.normalize, hlb]
    · cases stride with
      | none => simp [SectionDesc.normalize, hlb]
      | some st =>
        cases hc : getIntIfConstant st with
        | none => simp [SectionDesc.normalize, hlb, hc]
        | some val =>
          by_cases hone : val = 1
          · simp [SectionDesc.normalize, hlb, hc, hone]
          · simp [SectionDesc.normalize, hlb, hc, hone]

theorem analyze_of_comparable (ref1 ref2 : Value) (des1 des2 : DesignateOp)
    (hne : ref1 ≠ ref2) (h1 : ref1.getDefiningDesignateOp = some des1)
    (h2 : ref2.getDefiningDesignateOp = some des2) (hcomp : Comparable des1 des2) :
    analyze ref1 ref2 = analyze.loop (des1.subscripts.zip des2.subscripts) true true := by
  obtain ⟨hm, hc, hcs, hs, hcp, ht⟩ := hcomp
  unfold analyze
  rw [if_neg hne, h1, h2]
  simp [hm, hc, hcs, hs, hcp, ht]

theorem getOrderedBounds_eq_iff (desc : SectionDesc) (low high : Value) :
    getOrderedBounds desc = (some low, some high) ↔
      orderedBoundsSpec desc = some (low, high) := by
  obtain ⟨lb, ub, stride⟩ := desc
  unfold getOrderedBounds orderedBoundsSpec
  cases ub with
  | none =>
    cases stride with
    | none => simp
    | some st =>
      cases hc : getIntIfConstant st with
      | none => simp [hc]
      | some val => by_cases hval : 0 ≤ val <;> simp [hc, hval]
  | some u =>
    cases stride with
    | none => simp
    | some st =>
      cases hc : getIntIfConstant st with
      | none => simp [hc]
      | some val => by_cases hval : 0 ≤ val <;> simp [hc, hval]

theorem areDisjointSections_iff (desc1 desc2 : SectionDesc) :
    areDisjointSections desc1 desc2 = true ↔ ProvenDisjoint desc1 desc2 := by
  unfold areDisjointSections ProvenDisjoint
  constructor
  · intro h
    rcases hb1 : getOrderedBounds desc1 with ⟨lb1, ub1⟩
    rcases hb2 : getOrderedBounds desc2 with ⟨lb2, ub2⟩
    rw [hb1, hb2] at h
    cases lb1 with
    | none => simp at h
    | some low1 =>
      cases ub1 with
      | none => simp at h
      | some high1 =>
        cases lb2 with
        | none => simp at h
        | some low2 =>
          cases ub2 with
          | none => simp at h
          | some high2 =>
            simp only [Bool.or_eq_true] at h
            exact ⟨low1, high1, low2, high2,
              (getOrderedBounds_eq_iff desc1 low1 high1).mp hb1,
              (getOrderedBounds_eq_iff desc2 low2 high2).mp hb2, h⟩
  · rintro ⟨low1, high1, low2, high2, hb1, hb2, h⟩
    rw [(getOrderedBounds_eq_iff desc1 low1 high1).mpr hb1,
      (getOrderedBounds_eq_iff desc2 low2 high2).mpr hb2]
    simpa only [Bool.or_eq_true] using h

theorem analyze.loop_disjoint_iff :
    ∀ (pairs : List (Subscript × Subscript)) (identicalTriplets identicalIndices : Bool),
      analyze.loop pairs identicalTriplets identicalIndices = .DefinitelyDisjoint ↔
        ∃ pair ∈ pairs,
          areDisjointSections (readSectionDesc pair.1) (readSectionDesc pair.2) = true := by
  intro pairs
  induction pairs with
  | nil =>
    intro idT idI
    cases idT <;> cases idI <;> simp [analyze.loop]
  | cons pair rest ih =>
    intro idT idI
    obtain ⟨s1, s2⟩ := pair
    simp only [analyze.loop, List.mem_cons, exists_eq_or_imp]
    by_cases hd : areDisjointSections (readSectionDesc s1) (readSectionDesc s2) = true
    · simp [hd]
    · simp only [hd, if_false, false_or, Bool.false_eq_true]
      by_cases hid : areIdenticalSections (readSectionDesc s1) (readSectionDesc s2) = true
      · simp only [hid, Bool.not_true, Bool.false_eq_true, if_false]
        exact ih idT idI
      · simp only [hid, Bool.not_false, if_true]
        by_cases ht : (s1.isTriplet || s2.isTriplet) = true
        · simp only [ht, if_true]
          exact ih false idI
        · simp only [ht, if_false]
          exact ih idT false

/-- C15: for two distinct comparable designators, `analyze` returns
DefinitelyDisjoint if and only if some pair of corresponding sections has both
strides statically signed (absent or an integer constant) and, with the ordered
bounds `(lb, ub)` for an absent or non-negative stride and `(ub, lb)` for a
negative one, `isLess(high1, low2)` or `isLess(high2, low1)` holds, whatever the
other dimensions are. -/
theorem analyze_disjoint_iff_proven_disjoint_pair (ref1 ref2 : Value)
    (des1 des2 : DesignateOp) (hne : ref1 ≠ ref2)
    (h1 : ref1.getDefiningDesignateOp = some des1)
    (h2 : ref2.getDefiningDesignateOp = some des2) (hcomp : Comparable des1 des2) :
    analyze ref1 ref2 = .DefinitelyDisjoint ↔
      ∃ pair ∈ des1.subscripts.zip des2.subscripts,
        ProvenDisjoint (readSectionDesc pair.1) (readSectionDesc pair.2) := by
  rw [analyze_of_comparable ref1 ref2 des1 des2 hne h1 h2 hcomp, analyze.loop_disjoint_iff]
  constructor
  · rintro ⟨pair, hmem, hd⟩
    exact ⟨pair, hmem, (areDisjointSections_iff _ _).mp hd⟩
  · rintro ⟨pair, hmem, hd⟩
    exact ⟨pair, hmem, (areDisjointSections_iff _ _).mpr hd⟩

/-- Witness of C15: the sections `(2, 10, 1)` and `(11, 20, 1)` of the same base
are proven disjoint (10 < 11) and the designators are DefinitelyDisjoint. -/
theorem analyze_disjoint_iff_proven_disjoint_pair_witness :
    analyze (sampleSlice 20 2 10) (sampleSlice 21 11 20) = .DefinitelyDisjoint :=
  (analyze_disjoint_iff_proven_disjoint_pair (sampleSlice 20 2 10) (sampleSlice 21 11 20)
    _ _ (by decide) rfl rfl (by unfold Comparable; decide)).mpr
    ⟨(.triplet (sampleConstant 2) (sampleConstant 10) (sampleConstant 1),
        .triplet (sampleConstant 11) (sampleConstant 20) (sampleConstant 1)),
      by decide,
      sampleConstant 2, sampleConstant 10, sampleConstant 11, sampleConstant 20,
      by decide, by decide, Or.inl (by decide)⟩

theorem analyze.loop_of_no_disjoint :
    ∀ (pairs : List (Subscript × Subscript)) (identicalTriplets identicalIndices : Bool),
      (∀ pair ∈ pairs,
        areDisjointSections (readSectionDesc pair.1) (readSectionDesc pair.2) = false) →
      analyze.loop pairs identicalTriplets identicalIndices =
        if (identicalTriplets && pairs.all fun pair =>
            areIdenticalSections (readSectionDesc pair.1) (readSectionDesc pair.2) ||
              !(pair.1.isTriplet || pair.2.isTriplet)) = true then
          if (identicalIndices && pairs.all fun pair =>
              areIdenticalSections (readSectionDesc pair.1) (readSectionDesc pair.2) ||
                (pair.1.isTriplet || pair.2.isTriplet)) = true then
            .DefinitelyIdentical
          else .EitherIdenticalOrDisjoint
        else .Unknown := by
  intro pairs
  induction pairs with
  | nil =>
    intro idT idI _
    cases idT <;> cases idI <;> simp [analyze.loop]
  | cons pair rest ih =>
    intro idT idI hno
    obtain ⟨s1, s2⟩ := pair
    have hd : areDisjointSections (readSectionDesc s1) (readSectionDesc s2) = false :=
      hno (s1, s2) (List.mem_cons_self _ _)
    have hrest : ∀ pair ∈ rest,
        areDisjointSections (readSectionDesc pair.1) (readSectionDesc pair.2) = false :=
      fun pair hp => hno pair (List.mem_cons_of_mem _ hp)
    simp only [analyze.loop, hd, Bool.false_eq_true, if_false, List.all_cons]
    by_cases hid : areIdenticalSections (readSectionDesc s1) (readSectionDesc s2) = true
    · simp only [hid, Bool.not_true, Bool.false_eq_true, if_false, Bool.true_or,
        Bool.true_and]
      exact ih idT idI hrest
    · have hid2 : areIdenticalSections (readSectionDesc s1) (readSectionDesc s2) = false :=
        Bool.eq_false_iff.mpr hid
      simp only [hid2, Bool.not_false, if_true, Bool.false_or]
      by_cases ht : (s1.isTriplet || s2.isTriplet) = true
      · simp only [ht, if_true, Bool.not_true, Bool.false_and, Bool.and_false,
          Bool.true_and]
        rw [ih false idI hrest]
        simp
      · have ht2 : (s1.isTriplet || s2.isTriplet) = false := Bool.eq_false_iff.mpr ht
        simp only [ht2, Bool.false_eq_true, if_false, Bool.not_false, Bool.true_and,
          Bool.false_and, Bool.and_false]
        rw [ih idT false hrest]
        simp

theorem readSectionDesc_index (v : Value) :
    readSectionDesc (.index v) = { lb := v, ub := some v, stride := none } := by
  simp [readSectionDesc, SectionDesc.construct, SectionDesc.normalize]

/-- C16: for two distinct comparable designators none of whose pairs of
corresponding sections is proven disjoint, `analyze` returns Unknown if some pair
of corresponding normalized sections is unequal with a triplet on either side;
otherwise EitherIdenticalOrDisjoint if some pair of scalar indices is unequal;
otherwise DefinitelyIdentical. -/
theorem analyze_of_no_proven_disjoint_pair (ref1 ref2 : Value) (des1 des2 : DesignateOp)
    (hne : ref1 ≠ ref2) (h1 : ref1.getDefiningDesignateOp = some des1)
    (h2 : ref2.getDefiningDesignateOp = some des2) (hcomp : Comparable des1 des2)
    (hno : ∀ pair ∈ des1.subscripts.zip des2.subscripts,
      ¬ ProvenDisjoint (readSectionDesc pair.1) (readSectionDesc pair.2)) :
    ((∃ pair ∈ des1.subscripts.zip des2.subscripts,
        readSectionDesc pair.1 ≠ readSectionDesc pair.2 ∧
          (pair.1.isTriplet = true ∨ pair.2.isTriplet = true)) →
      analyze ref1 ref2 = .Unknown) ∧
    ((¬ ∃ pair ∈ des1.subscripts.zip des2.subscripts,
        readSectionDesc pair.1 ≠ readSectionDesc pair.2 ∧
          (pair.1.isTriplet = true ∨ pair.2.isTriplet = true)) →
      (∃ v1 v2, (Subscript.index v1, Subscript.index v2) ∈
          des1.subscripts.zip des2.subscripts ∧ v1 ≠ v2) →
      analyze ref1 ref2 = .EitherIdenticalOrDisjoint) ∧
    ((¬ ∃ pair ∈ des1.subscripts.zip des2.subscripts,
        readSectionDesc pair.1 ≠ readSectionDesc pair.2 ∧
          (pair.1.isTriplet = true ∨ pair.2.isTriplet = true)) →
      (¬ ∃ v1 v2, (Subscript.index v1, Subscript.index v2) ∈
          des1.subscripts.zip des2.subscripts ∧ v1 ≠ v2) →
      analyze ref1 ref2 = .DefinitelyIdentical) := by
  have hd : ∀ pair ∈ des1.subscripts.zip des2.subscripts,
      areDisjointSections (readSectionDesc pair.1) (readSectionDesc pair.2) = false := by
    intro pair hp
    cases h : areDisjointSections (readSectionDesc pair.1) (readSectionDesc pair.2) with
    | false => rfl
    | true => exact absurd ((areDisjointSections_iff _ _).mp h) (hno pair hp)
  rw [analyze_of_comparable ref1 ref2 des1 des2 hne h1 h2 hcomp,
    analyze.loop_of_no_disjoint _ true true hd]
  simp only [Bool.true_and]
  have htriplets : (∃ pair ∈ des1.subscripts.zip des2.subscripts,
        readSectionDesc pair.1 ≠ readSectionDesc pair.2 ∧
          (pair.1.isTriplet = true ∨ pair.2.isTriplet = true)) ↔
      ¬ ((des1.subscripts.zip des2.subscripts).all fun pair =>
          areIdenticalSections (readSectionDesc pair.1) (readSectionDesc pair.2) ||
            !(pair.1.isTriplet || pair.2.isTriplet)) = true := by
    rw [List.all_eq_true]
    constructor
    · rintro ⟨pair, hp, hneq, htrip⟩ hall
      have := hall pair hp
      simp only [areIdenticalSections, Bool.or_eq_true, decide_eq_true_eq,
        Bool.not_eq_true', Bool.or_eq_false_iff] at this
      rcases this with h | ⟨ha, hb⟩
      · exact hneq h
      · rcases htrip with h | h
        · rw [ha] at h
          exact Bool.false_ne_true h
        · rw [hb] at h
          exact Bool.false_ne_true h
    · intro hall
      by_contra hex
      apply hall
      intro pair hp
      simp only [areIdenticalSections, Bool.or_eq_true, decide_eq_true_eq,
        Bool.not_eq_true', Bool.or_eq_false_iff]
      by_cases heq : readSectionDesc pair.1 = readSectionDesc pair.2
      · exact Or.inl heq
      · right
        constructor
        · cases ha : pair.1.isTriplet with
          | false => rfl
          | true => exact absurd ⟨pair, hp, heq, Or.inl ha⟩ hex
        · cases hb : pair.2.isTriplet with
          | false => rfl
          | true => exact absurd ⟨pair, hp, heq, Or.inr hb⟩ hex
  have hindices : (∃ v1 v2, (Subscript.index v1, Subscript.index v2) ∈
          des1.subscripts.zip des2.subscripts ∧ v1 ≠ v2) ↔
      ¬ ((des1.subscripts.zip des2.subscripts).all fun pair =>
          areIdenticalSections (readSectionDesc pair.1) (readSectionDesc pair.2) ||
            (pair.1.isTriplet || pair.2.isTriplet)) = true := by
    rw [List.all_eq_true]
    constructor
    · rintro ⟨v1, v2, hp, hneq⟩ hall
      have := hall _ hp
      simp only [areIdenticalSections, readSectionDesc_index, Subscript.isTriplet,
        Bool.or_false, Bool.or_eq_true, decide_eq_true_eq, SectionDesc.mk.injEq,
        Option.some.injEq, and_self, and_true, Bool.false_eq_true, or_false] at this
      exact hneq this
    · intro hall
      by_contra hex
      apply hall
      intro pair hp
      obtain ⟨s1, s2⟩ := pair
      cases s1 with
      | triplet lb ub st => simp [Subscript.isTriplet]
      | index v1 =>
        cases s2 with
        | triplet lb ub st => simp [Subscript.isTriplet]
        | index v2 =>
          by_cases hv : v1 = v2
          · simp [areIdenticalSections, hv]
          · exact absurd ⟨v1, v2, hp, hv⟩ hex
  refine ⟨?_, ?_, ?_⟩
  · intro h
    rw [if_neg (htriplets.mp h)]
  · intro hnt hi
    rw [if_pos (not_not.mp (mt htriplets.mpr hnt)), if_neg (hindices.mp hi)]
  · intro hnt hni
    rw [if_pos (not_not.mp (mt htriplets.mpr hnt)),
      if_pos (not_not.mp (mt hindices.mpr hni))]

theorem not_provenDisjoint_of_all (pairs : List (Subscript × Subscript))
    (h : (pairs.all fun pair =>
      !areDisjointSections (readSectionDesc pair.1) (readSectionDesc pair.2)) = true) :
    ∀ pair ∈ pairs, ¬ ProvenDisjoint (readSectionDesc pair.1) (readSectionDesc pair.2) := by
  intro pair hp hd
  rw [List.all_eq_true] at h
  have := h pair hp
  rw [(areDisjointSections_iff _ _).mpr hd] at this
  exact Bool.false_ne_true this

/-- Witness of C16: the slices `2:10` and `5:15` give Unknown; the slices
`(2:7999:1, %i)` and `(2:7999:1, %j)` give EitherIdenticalOrDisjoint; the slice
`2:2:1` and the element `2` give DefinitelyIdentical. -/
theorem analyze_of_no_proven_disjoint_pair_witness :
    analyze (sampleSlice 20 2 10) (sampleSlice 23 5 15) = .Unknown ∧
    analyze (columnSlice 60 61) (columnSlice 62 65) = .EitherIdenticalOrDisjoint ∧
    analyze unitSlice unitElement = .DefinitelyIdentical :=
  ⟨(analyze_of_no_proven_disjoint_pair (sampleSlice 20 2 10) (sampleSlice 23 5 15) _ _
      (by decide) rfl rfl (by unfold Comparable; decide)
      (not_provenDisjoint_of_all _ (by decide))).1
      ⟨(.triplet (sampleConstant 2) (sampleConstant 10) (sampleConstant 1),
          .triplet (sampleConstant 5) (sampleConstant 15) (sampleConstant 1)),
        by decide, by decide, Or.inl rfl⟩,
    (analyze_of_no_proven_disjoint_pair (columnSlice 60 61) (columnSlice 62 65) _ _
      (by decide) rfl rfl (by unfold Comparable; decide)
      (not_provenDisjoint_of_all _ (by decide))).2.1
      (by
        rintro ⟨pair, hp, hne, htriplet⟩
        revert hne htriplet
        revert pair
        decide)
      ⟨.opResult (.other 61 .nil) 0, .opResult (.other 65 .nil) 0, by decide, by decide⟩,
    (analyze_of_no_proven_disjoint_pair unitSlice unitElement _ _
      (by decide) rfl rfl (by unfold Comparable; decide)
      (not_provenDisjoint_of_all _ (by decide))).2.2
      (by
        rintro ⟨pair, hp, hne, htriplet⟩
        revert hne htriplet
        revert pair
        decide)
      (by
        rintro ⟨v1, v2, hp, hne⟩
        simp [unitSlice, sampleSlice, unitElement, Value.getDefiningDesignateOp,
          Value.getDefiningOp, Operation.asDesignate, SubscriptList.toList] at hp)⟩

theorem isLess_of_opaque (v1 v2 : Value) (h1 : v1.isOpaque = true)
    (h2 : v2.isOpaque = true) : isLess v1 v2 = false := by
  cases v1 with
  | blockArgument b k => simp [isLess, removeConvert, Value.getDefiningOp]
  | opResult op1 k1 =>
    cases v2 with
    | blockArgument b k =>
      cases op1 <;> simp [isLess, removeConvert, Value.getDefiningOp, removeConvertOp]
    | opResult op2 k2 =>
      cases op1 <;> simp [Value.isOpaque, Operation.isOpaque] at h1 <;>
        cases op2 <;> simp [Value.isOpaque, Operation.isOpaque] at h2 <;>
        simp [isLess, removeConvert, Value.getDefiningOp, removeConvertOp,
          Operation.getResult, getIntIfConstant, isLess.variableCases]

theorem isLess_addi_of_opaque (id : Nat) (lhs rhs v2 : Value) (h2 : v2.isOpaque = true) :
    isLess (.opResult (.addi id lhs rhs) 0) v2 = false := by
  cases v2 with
  | blockArgument b k => simp [isLess, removeConvert, Value.getDefiningOp, removeConvertOp]
  | opResult op2 k2 =>
    cases op2 <;> simp [Value.isOpaque, Operation.isOpaque] at h2 <;>
      simp [isLess, removeConvert, Value.getDefiningOp, removeConvertOp,
        Operation.getResult, getIntIfConstant, isLess.variableCases]

/-- C17: disjointness is tested on the ordered bounds.  For the sections
`(lb = X, ub = Y, stride = -1)` and `(lb = Y + 1, ub = Z, stride = -1)`, with `X`,
`Y`, `Z` opaque and `Y + 1` the result of `arith.addi Y, 1`,
`areDisjointSections` is false, so two comparable designators with these
subscripts are not DefinitelyDisjoint (they are Unknown); while `isLess` of the raw
bounds `Y` and `Y + 1` holds when `Y` is the result of an operation. -/
theorem areDisjointSections_reversed_stride (X Y Z : Value) (idAdd idOne idStride : Nat)
    (hX : X.isOpaque = true) (hY : Y.isOpaque = true) (hZ : Z.isOpaque = true) :
    areDisjointSections
        (SectionDesc.construct X (some Y) (some (.opResult (.constant idStride (-1)) 0)))
        (SectionDesc.construct
          (.opResult (.addi idAdd Y (.opResult (.constant idOne 1) 0)) 0) (some Z)
          (some (.opResult (.constant idStride (-1)) 0))) = false ∧
    (∀ ref1 ref2 des1 des2, ref1 ≠ ref2 →
      ref1.getDefiningDesignateOp = some des1 → ref2.getDefiningDesignateOp = some des2 →
      Comparable des1 des2 →
      des1.subscripts = [.triplet X Y (.opResult (.constant idStride (-1)) 0)] →
      des2.subscripts =
        [.triplet (.opResult (.addi idAdd Y (.opResult (.constant idOne 1) 0)) 0) Z
          (.opResult (.constant idStride (-1)) 0)] →
      analyze ref1 ref2 = .Unknown) ∧
    (Y.getDefiningOp ≠ none →
      isLess Y (.opResult (.addi idAdd Y (.opResult (.constant idOne 1) 0)) 0) = true) := by
  have hZne : ¬ (Value.opResult (.addi idAdd Y (.opResult (.constant idOne 1) 0)) 0 = Z) := by
    intro h
    rw [← h] at hZ
    simp [Value.isOpaque, Operation.isOpaque] at hZ
  have hXne : ¬ (X = Value.opResult (.addi idAdd Y (.opResult (.constant idOne 1) 0)) 0) := by
    intro h
    rw [h] at hX
    simp [Value.isOpaque, Operation.isOpaque] at hX
  have hdisjoint : areDisjointSections
        (SectionDesc.construct X (some Y) (some (.opResult (.constant idStride (-1)) 0)))
        (SectionDesc.construct
          (.opResult (.addi idAdd Y (.opResult (.constant idOne 1) 0)) 0) (some Z)
          (some (.opResult (.constant idStride (-1)) 0))) = false := by
    by_cases hXY : X = Y
    · subst hXY
      simp [areDisjointSections, SectionDesc.construct, SectionDesc.normalize,
        getOrderedBounds, getIntIfConstant, hZne, isLess_of_opaque X Z hX hZ,
        isLess_addi_of_opaque idAdd X _ X hX]
    · simp [areDisjointSections, SectionDesc.construct, SectionDesc.normalize,
        getOrderedBounds, getIntIfConstant, hZne, hXY, isLess_of_opaque X Z hX hZ,
        isLess_addi_of_opaque idAdd Y _ Y hY]
  refine ⟨hdisjoint, ?_, ?_⟩
  · intro ref1 ref2 des1 des2 hne h1 h2 hcomp hs1 hs2
    rw [analyze_of_comparable ref1 ref2 des1 des2 hne h1 h2 hcomp, hs1, hs2]
    have hdesc : ¬ (readSectionDesc (.triplet X Y (.opResult (.constant idStride (-1)) 0)) =
        readSectionDesc
          (.triplet (.opResult (.addi idAdd Y (.opResult (.constant idOne 1) 0)) 0) Z
            (.opResult (.constant idStride (-1)) 0))) := by
      intro h
      have hlb := congrArg SectionDesc.lb h
      simp [readSectionDesc, SectionDesc.construct, SectionDesc.normalize] at hlb
      exact hXne hlb
    simp only [List.zip_cons_cons, List.zip_nil_right, analyze.loop, readSectionDesc]
    simp only [readSectionDesc] at hdesc
    simp [hdisjoint, areIdenticalSections, hdesc, Subscript.isTriplet]
  · intro hdef
    cases Y with
    | blockArgument b k => exact absurd rfl hdef
    | opResult op k =>
      cases op <;> simp [Value.isOpaque, Operation.isOpaque] at hY <;>
        simp [isLess, removeConvert, Value.getDefiningOp, removeConvertOp,
          Operation.getResult, getIntIfConstant, isLess.variableCases, isPositiveConstant]

/-- Witness of C17: `X`, `Y`, `Z` are the results of three operations that are not
interpreted. -/
theorem areDisjointSections_reversed_stride_witness :
    areDisjointSections
        (SectionDesc.construct otherArray (some thirdArray)
          (some (.opResult (.constant 72 (-1)) 0)))
        (SectionDesc.construct
          (.opResult (.addi 70 thirdArray (.opResult (.constant 71 1) 0)) 0)
          (some sampleArray)
          (some (.opResult (.constant 72 (-1)) 0))) = false :=
  (areDisjointSections_reversed_stride otherArray thirdArray sampleArray 70 71 72 rfl rfl
    rfl).1

/-! ## Soundness of the overlap verdicts -/

theorem eval_of_getIntIfConstant (ρ : Interpretation) (v : Value) (c : Int)
    (h : getIntIfConstant v = some c) : v.eval ρ = c := by
  cases v with
  | blockArgument b k => simp [getIntIfConstant] at h
  | opResult op k =>
    cases op <;> simp [getIntIfConstant] at h
    simp [Value.eval, Operation.eval, h]

theorem extentSlice_eval :
    (Value.opResult sampleBoxDims 1).eval sampleInterpretation = 10 ∧
    (Value.opResult (.addi 52 (.opResult sampleBoxDims 0) (sampleConstant 1)) 0).eval
      sampleInterpretation = 2 ∧
    (sampleConstant 1).eval sampleInterpretation = 1 ∧
    (sampleConstant 20).eval sampleInterpretation = 20 := by
  simp [Value.eval, Operation.eval, sampleBoxDims, sampleConstant, sampleInterpretation]

/-- C18, the code at the failing input: `analyze` answers DefinitelyDisjoint for
`%array(%c1 : %dims#1 : %c1)` and `%array(%lb1 : %c20 : %c1)`, where
`%dims:3 = fir.box_dims %array, %c0` and `%lb1 = arith.addi %dims#0, %c1`,
although with a lower bound 1 and an extent 10 the two slices, `1:10` and `2:20`,
both address the index 5. -/
theorem analyze_disjoint_for_overlapping_slices :
    analyze extentSlice shiftedSlice = .DefinitelyDisjoint ∧
    addressesTuple sampleInterpretation
      [.triplet (sampleConstant 1) (.opResult sampleBoxDims 1) (sampleConstant 1)] [5] ∧
    addressesTuple sampleInterpretation
      [.triplet (.opResult (.addi 52 (.opResult sampleBoxDims 0) (sampleConstant 1)) 0)
        (sampleConstant 20) (sampleConstant 1)] [5] ∧
    extentSlice.getDefiningDesignateOp.map DesignateOp.subscripts =
      some [.triplet (sampleConstant 1) (.opResult sampleBoxDims 1) (sampleConstant 1)] ∧
    shiftedSlice.getDefiningDesignateOp.map DesignateOp.subscripts =
      some [.triplet (.opResult (.addi 52 (.opResult sampleBoxDims 0) (sampleConstant 1)) 0)
        (sampleConstant 20) (sampleConstant 1)] := by
  obtain ⟨hext, hlb, hone, htwenty⟩ := extentSlice_eval
  refine ⟨by decide, ?_, ?_, by decide, by decide⟩
  · refine ⟨⟨4, ?_, ?_, ?_⟩, trivial⟩
    · rw [hone]
      simp [Value.eval, Operation.eval, sampleConstant]
    · intro _
      rw [hext]
      decide
    · intro h
      rw [hone] at h
      exact absurd h (by decide)
  · refine ⟨⟨3, ?_, ?_, ?_⟩, trivial⟩
    · rw [hlb, hone]
      rfl
    · intro _
      rw [htwenty]
      decide
    · intro h
      rw [hone] at h
      exact absurd h (by decide)

theorem analyze.loop_of_differing_triplets :
    ∀ (pairs : List (Subscript × Subscript)) (identicalIndices : Bool),
      analyze.loop pairs false identicalIndices = .DefinitelyDisjoint ∨
        analyze.loop pairs false identicalIndices = .Unknown := by
  intro pairs
  induction pairs with
  | nil =>
    intro idI
    right
    simp [analyze.loop]
  | cons pair rest ih =>
    intro idI
    obtain ⟨s1, s2⟩ := pair
    simp only [analyze.loop]
    by_cases hd : areDisjointSections (readSectionDesc s1) (readSectionDesc s2) = true
    · left
      simp [hd]
    · simp only [hd, if_false, Bool.false_eq_true]
      by_cases hid : (!areIdenticalSections (readSectionDesc s1) (readSectionDesc s2)) = true
      · simp only [hid, if_true]
        by_cases ht : (s1.isTriplet || s2.isTriplet) = true
        · simp only [ht, if_true]
          exact ih idI
        · simp only [ht, if_false]
          exact ih false
      · simp only [hid, if_false]
        exact ih idI

theorem analyze.loop_sections_of_no_unknown :
    ∀ (pairs : List (Subscript × Subscript)) (identicalTriplets identicalIndices : Bool),
      (analyze.loop pairs identicalTriplets identicalIndices = .EitherIdenticalOrDisjoint ∨
        analyze.loop pairs identicalTriplets identicalIndices = .DefinitelyIdentical) →
      ∀ pair ∈ pairs, readSectionDesc pair.1 = readSectionDesc pair.2 ∨
        (pair.1.isTriplet = false ∧ pair.2.isTriplet = false) := by
  intro pairs
  induction pairs with
  | nil =>
    intro _ _ _ pair hp
    simp at hp
  | cons head rest ih =>
    intro idT idI h pair hp
    obtain ⟨s1, s2⟩ := head
    simp only [analyze.loop] at h
    by_cases hd : areDisjointSections (readSectionDesc s1) (readSectionDesc s2) = true
    · simp [hd] at h
    · simp only [hd, if_false, Bool.false_eq_true] at h
      by_cases hid : areIdenticalSections (readSectionDesc s1) (readSectionDesc s2) = true
      · simp only [hid, Bool.not_true, Bool.false_eq_true, if_false] at h
        rcases List.mem_cons.mp hp with hp | hp
        · rw [hp]
          left
          simpa [areIdenticalSections] using hid
        · exact ih idT idI h pair hp
      · simp only [hid, Bool.not_false, if_true] at h
        by_cases ht : (s1.isTriplet || s2.isTriplet) = true
        · simp only [ht, if_true] at h
          exfalso
          rcases analyze.loop_of_differing_triplets rest idI with h2 | h2 <;>
            rw [h2] at h <;> simp at h
        · simp only [ht, if_false] at h
          rcases List.mem_cons.mp hp with hp | hp
          · rw [hp]
            right
            simpa using ht
          · exact ih idT false h pair hp

theorem analyze_loop_of_either (ref1 ref2 : Value) (des1 des2 : DesignateOp)
    (h1 : ref1.getDefiningDesignateOp = some des1)
    (h2 : ref2.getDefiningDesignateOp = some des2)
    (h : analyze ref1 ref2 = .EitherIdenticalOrDisjoint) :
    analyze.loop (des1.subscripts.zip des2.subscripts) true true =
      .EitherIdenticalOrDisjoint := by
  unfold analyze at h
  by_cases hne : ref1 = ref2
  · simp [hne] at h
  · rw [if_neg hne, h1, h2] at h
    simp only at h
    by_cases hm : des1.getMemref ≠ des2.getMemref
    · simp [hm] at h
    · rw [if_neg hm] at h
      split at h
      · simp at h
      · exact h

theorem singleton_triplet_addresses (a st x : Int) (hst : st ≠ 0) :
    (∃ k : Nat, x = a + (k : Int) * st ∧ (0 < st → x ≤ a) ∧ (st < 0 → a ≤ x)) ↔ x = a := by
  constructor
  · rintro ⟨k, hx, hpos, hneg⟩
    rcases lt_or_gt_of_ne hst with hlt | hgt
    · have h1 := hneg hlt
      have h2 : (k : Int) * st ≤ 0 :=
        mul_nonpos_of_nonneg_of_nonpos (Int.ofNat_nonneg k) (le_of_lt hlt)
      omega
    · have h1 := hpos hgt
      have h2 : 0 ≤ (k : Int) * st := mul_nonneg (Int.ofNat_nonneg k) (le_of_lt hgt)
      omega
  · intro hx
    refine ⟨0, by simp [hx], ?_, ?_⟩ <;> intro _ <;> omega

theorem readSectionDesc_triplet (lb ub stride : Value) :
    readSectionDesc (.triplet lb ub stride) =
      { lb := lb, ub := some ub
        stride := if lb = ub then none
          else match getIntIfConstant stride with
            | some val => if val = 1 then none else some stride
            | none => some stride } := by
  by_cases h : lb = ub <;> simp [readSectionDesc, SectionDesc.construct,
    SectionDesc.normalize, h]

theorem Subscript.addresses_of_readSectionDesc_eq (ρ : Interpretation) (s1 s2 : Subscript)
    (h : readSectionDesc s1 = readSectionDesc s2)
    (hnz1 : s1.hasNonZeroStride ρ) (hnz2 : s2.hasNonZeroStride ρ) (x : Int) :
    s1.addresses ρ x ↔ s2.addresses ρ x := by
  cases s1 with
  | index v1 =>
    cases s2 with
    | index v2 =>
      rw [readSectionDesc_index, readSectionDesc_index] at h
      simp only [SectionDesc.mk.injEq] at h
      rw [h.1]
    | triplet lb ub st =>
      rw [readSectionDesc_index, readSectionDesc_triplet] at h
      simp only [SectionDesc.mk.injEq, Option.some.injEq] at h
      obtain ⟨hlb, hub, _⟩ := h
      subst hlb
      subst hub
      simp only [Subscript.addresses]
      rw [singleton_triplet_addresses _ _ _ hnz2]
  | triplet lb1 ub1 st1 =>
    cases s2 with
    | index v2 =>
      rw [readSectionDesc_index, readSectionDesc_triplet] at h
      simp only [SectionDesc.mk.injEq, Option.some.injEq] at h
      obtain ⟨hlb, hub, _⟩ := h
      subst hlb
      subst hub
      simp only [Subscript.addresses]
      rw [singleton_triplet_addresses _ _ _ hnz1]
    | triplet lb2 ub2 st2 =>
      rw [readSectionDesc_triplet, readSectionDesc_triplet] at h
      simp only [SectionDesc.mk.injEq, Option.some.injEq] at h
      obtain ⟨hlb, hub, hst⟩ := h
      subst hlb
      subst hub
      simp only [Subscript.addresses]
      by_cases heq : lb1 = ub1
      · subst heq
        rw [singleton_triplet_addresses _ _ _ hnz1, singleton_triplet_addresses _ _ _ hnz2]
      · simp only [heq, if_false] at hst
        have hevals : st1.eval ρ = st2.eval ρ := by
          cases hc1 : getIntIfConstant st1 with
          | none =>
            cases hc2 : getIntIfConstant st2 with
            | none =>
              simp only [hc1, hc2, Option.some.injEq] at hst
              rw [hst]
            | some val2 =>
              by_cases hv2 : val2 = 1
              · simp [hc1, hc2, hv2] at hst
              · simp only [hc1, hc2, hv2, if_false, Option.some.injEq] at hst
                rw [hst]
          | some val1 =>
            by_cases hv1 : val1 = 1
            · cases hc2 : getIntIfConstant st2 with
              | none => simp [hc1, hc2, hv1] at hst
              | some val2 =>
                by_cases hv2 : val2 = 1
                · rw [eval_of_getIntIfConstant ρ st1 val1 hc1,
                    eval_of_getIntIfConstant ρ st2 val2 hc2, hv1, hv2]
                · simp [hc1, hc2, hv1, hv2] at hst
            · cases hc2 : getIntIfConstant st2 with
              | none =>
                simp only [hc1, hc2, hv1, if_false, Option.some.injEq] at hst
                rw [hst]
              | some val2 =>
                by_cases hv2 : val2 = 1
                · simp [hc1, hc2, hv1, hv2] at hst
                · simp only [hc1, hc2, hv1, hv2, if_false, Option.some.injEq] at hst
                  rw [hst]
        rw [hevals]

theorem addressesTuple_equal_or_disjoint (ρ : Interpretation) :
    ∀ (subscripts1 subscripts2 : List Subscript),
      subscripts1.length = subscripts2.length →
      (∀ pair ∈ subscripts1.zip subscripts2,
        (∀ x, pair.1.addresses ρ x ↔ pair.2.addresses ρ x) ∨
          (∀ x, ¬ (pair.1.addresses ρ x ∧ pair.2.addresses ρ x))) →
      (∀ tuple, addressesTuple ρ subscripts1 tuple ↔ addressesTuple ρ subscripts2 tuple) ∨
        (∀ tuple, ¬ (addressesTuple ρ subscripts1 tuple ∧
          addressesTuple ρ subscripts2 tuple)) := by
  intro subscripts1
  induction subscripts1 with
  | nil =>
    intro subscripts2 hlen _
    cases subscripts2 with
    | nil => exact Or.inl (fun _ => Iff.rfl)
    | cons s rest => simp at hlen
  | cons s1 rest1 ih =>
    intro subscripts2 hlen hpairs
    cases subscripts2 with
    | nil => simp at hlen
    | cons s2 rest2 =>
      have hhead := hpairs (s1, s2) (by simp)
      have htail := ih rest2 (by simpa using hlen)
        (fun pair hp => hpairs pair (by simp [hp]))
      rcases hhead with hheq | hhdis
      · rcases htail with hteq | htdis
        · left
          intro tuple
          cases tuple with
          | nil => simp [addressesTuple]
          | cons x xs =>
            simp only [addressesTuple]
            rw [hheq x, hteq xs]
        · right
          intro tuple
          cases tuple with
          | nil => simp [addressesTuple]
          | cons x xs =>
            simp only [addressesTuple]
            rintro ⟨⟨_, h1⟩, ⟨_, h2⟩⟩
            exact htdis xs ⟨h1, h2⟩
      · right
        intro tuple
        cases tuple with
        | nil => simp [addressesTuple]
        | cons x xs =>
          simp only [addressesTuple]
          rintro ⟨⟨h1, _⟩, ⟨h2, _⟩⟩
          exact hhdis x ⟨h1, h2⟩

/-- C19: EitherIdenticalOrDisjoint is sound.  For two designators with the same
number of subscripts, and every interpretation of the index values as integers
under which no triplet has a zero stride, if `analyze` returns
EitherIdenticalOrDisjoint then the two sets of addressed index tuples are equal or
have an empty intersection. -/
theorem analyze_either_sound (ρ : Interpretation) (ref1 ref2 : Value)
    (des1 des2 : DesignateOp)
    (h1 : ref1.getDefiningDesignateOp = some des1)
    (h2 : ref2.getDefiningDesignateOp = some des2)
    (hlen : des1.subscripts.length = des2.subscripts.length)
    (hnz1 : ∀ s ∈ des1.subscripts, s.hasNonZeroStride ρ)
    (hnz2 : ∀ s ∈ des2.subscripts, s.hasNonZeroStride ρ)
    (h : analyze ref1 ref2 = .EitherIdenticalOrDisjoint) :
    (∀ tuple, addressesTuple ρ des1.subscripts tuple ↔
        addressesTuple ρ des2.subscripts tuple) ∨
      (∀ tuple, ¬ (addressesTuple ρ des1.subscripts tuple ∧
        addressesTuple ρ des2.subscripts tuple)) := by
  have hloop := analyze_loop_of_either ref1 ref2 des1 des2 h1 h2 h
  have hsections := analyze.loop_sections_of_no_unknown _ true true (Or.inl hloop)
  apply addressesTuple_equal_or_disjoint ρ des1.subscripts des2.subscripts hlen
  intro pair hp
  obtain ⟨hp1, hp2⟩ := List.of_mem_zip hp
  rcases hsections pair hp with heq | ⟨ht1, ht2⟩
  · left
    intro x
    exact Subscript.addresses_of_readSectionDesc_eq ρ pair.1 pair.2 heq (hnz1 _ hp1)
      (hnz2 _ hp2) x
  · obtain ⟨s1, s2⟩ := pair
    cases s1 with
    | triplet lb ub st => simp [Subscript.isTriplet] at ht1
    | index v1 =>
      cases s2 with
      | triplet lb ub st => simp [Subscript.isTriplet] at ht2
      | index v2 =>
        simp only [Subscript.addresses]
        by_cases hv : v1.eval ρ = v2.eval ρ
        · left
          intro x
          rw [hv]
        · right
          rintro x ⟨hx1, hx2⟩
          exact hv (hx1.symm.trans hx2)

theorem columnSlice_hasNonZeroStride (id idIndex : Nat) (des : DesignateOp)
    (h : (columnSlice id idIndex).getDefiningDesignateOp = some des) :
    ∀ s ∈ des.subscripts, s.hasNonZeroStride sampleInterpretation := by
  have hdes := Option.some.inj h
  subst hdes
  intro s hs
  simp only [SubscriptList.toList, List.mem_cons, List.mem_singleton, List.not_mem_nil,
    or_false] at hs
  rcases hs with hs | hs <;> subst hs
  · simp [Subscript.hasNonZeroStride, Value.eval, Operation.eval, sampleConstant]
  · trivial

/-- Witness of C19: the slices `%array(2:7999:1, %i)` and `%array(2:7999:1, %j)` of
the comment in `analyze`. -/
theorem analyze_either_sound_witness :
    (∀ tuple,
      addressesTuple sampleInterpretation
          [.triplet (sampleConstant 2) (sampleConstant 7999) (sampleConstant 1),
            .index (.opResult (.other 61 .nil) 0)] tuple ↔
        addressesTuple sampleInterpretation
          [.triplet (sampleConstant 2) (sampleConstant 7999) (sampleConstant 1),
            .index (.opResult (.other 65 .nil) 0)] tuple) ∨
    (∀ tuple,
      ¬ (addressesTuple sampleInterpretation
          [.triplet (sampleConstant 2) (sampleConstant 7999) (sampleConstant 1),
            .index (.opResult (.other 61 .nil) 0)] tuple ∧
        addressesTuple sampleInterpretation
          [.triplet (sampleConstant 2) (sampleConstant 7999) (sampleConstant 1),
            .index (.opResult (.other 65 .nil) 0)] tuple)) :=
  analyze_either_sound sampleInterpretation (columnSlice 60 61) (columnSlice 62 65) _ _ rfl
    rfl rfl (columnSlice_hasNonZeroStride 60 61 _ rfl)
    (columnSlice_hasNonZeroStride 62 65 _ rfl) (by decide)

/-! ## getEffectsBetween -/

theorem collectEffects_eq_none_iff (ops : List BlockOp) :
    collectEffects ops = none ↔ ∃ op ∈ ops, op.getEffectsRecursively = none := by
  induction ops with
  | nil => simp [collectEffects]
  | cons op rest ih =>
    simp only [collectEffects, List.mem_cons, exists_eq_or_imp]
    cases hop : op.getEffectsRecursively with
    | none => simp
    | some effects =>
      cases hrest : collectEffects rest with
      | none =>
        simp only [true_iff]
        exact Or.inr (ih.mp hrest)
      | some others =>
        constructor
        · intro h
          exact Option.noConfusion h
        · rintro (h | ⟨x, hx, hnone⟩)
          · exact Option.noConfusion h
          · have := ih.mpr ⟨x, hx, hnone⟩
            rw [hrest] at this
            exact Option.noConfusion this

theorem collectEffects_of_all_enumerable (ops : List BlockOp)
    (h : ∀ op ∈ ops, op.getEffectsRecursively ≠ none) :
    collectEffects ops = some ((ops.filterMap BlockOp.getEffectsRecursively).flatten) := by
  induction ops with
  | nil => simp [collectEffects]
  | cons op rest ih =>
    have hrest := ih (fun x hx => h x (List.mem_cons_of_mem _ hx))
    cases hop : op.getEffectsRecursively with
    | none => exact absurd hop (h op (List.mem_cons_self _ _))
    | some effects =>
      simp [collectEffects, hop, hrest, List.filterMap_cons]

/-- C21: for `start` equal to `end`, or before `end` in the same block,
`getEffectsBetween` returns nothing exactly when some operation from `start`
(included) to `end` (excluded) has effects that `getEffectsRecursively` cannot
enumerate; otherwise it returns the concatenation, in program order, of the effects
of these operations, which is the empty list when `start` is `end`. -/
theorem getEffectsBetween_collects_in_order (start stop : OpPtr)
    (hblock : start.getBlock = stop.getBlock) (hle : start.index ≤ stop.index) :
    (getEffectsBetween start stop = .ok none ↔
      ∃ op ∈ opsBetween start stop, op.getEffectsRecursively = none) ∧
    ((∀ op ∈ opsBetween start stop, op.getEffectsRecursively ≠ none) →
      getEffectsBetween start stop =
        .ok (some (((opsBetween start stop).filterMap
          BlockOp.getEffectsRecursively).flatten))) ∧
    (start = stop → getEffectsBetween start stop = .ok (some [])) := by
  rw [getEffectsBetween_eq start stop hblock hle]
  refine ⟨?_, ?_, ?_⟩
  · rw [← collectEffects_eq_none_iff]
    constructor
    · intro h
      exact Except.ok.inj h
    · intro h
      rw [h]
  · intro h
    rw [collectEffects_of_all_enumerable _ h]
  · intro h
    subst h
    simp [opsBetween, collectEffects]

/-- Witness of C21: in the block `elemental; pure; store; assign; ...` the effects
from position 1 to position 3 are those of the store. -/
theorem getEffectsBetween_collects_in_order_witness :
    getEffectsBetween
        { getBlock := sampleBlock sampleArray [pureOp, opWith (writeTo otherArray)]
          index := 1 }
        { getBlock := sampleBlock sampleArray [pureOp, opWith (writeTo otherArray)]
          index := 3 } =
      .ok (some [writeTo otherArray]) :=
  (getEffectsBetween_collects_in_order
    { getBlock := sampleBlock sampleArray [pureOp, opWith (writeTo otherArray)], index := 1 }
    { getBlock := sampleBlock sampleArray [pureOp, opWith (writeTo otherArray)], index := 3 }
    rfl (by decide)).2.1 (by decide)

/-! ## Symmetry of analyze -/

theorem areDisjointSections_comm (desc1 desc2 : SectionDesc) :
    areDisjointSections desc1 desc2 = areDisjointSections desc2 desc1 := by
  unfold areDisjointSections
  rcases getOrderedBounds desc1 with ⟨lb1, ub1⟩
  rcases getOrderedBounds desc2 with ⟨lb2, ub2⟩
  cases lb1 <;> cases ub1 <;> cases lb2 <;> cases ub2 <;> simp [Bool.or_comm]

theorem areIdenticalSections_comm (desc1 desc2 : SectionDesc) :
    areIdenticalSections desc1 desc2 = areIdenticalSections desc2 desc1 := by
  unfold areIdenticalSections
  by_cases h : desc1 = desc2
  · simp [h]
  · have h2 : ¬ desc2 = desc1 := fun h3 => h h3.symm
    simp [h, h2]

theorem analyze.loop_swap :
    ∀ (pairs : List (Subscript × Subscript)) (identicalTriplets identicalIndices : Bool),
      analyze.loop (pairs.map Prod.swap) identicalTriplets identicalIndices =
        analyze.loop pairs identicalTriplets identicalIndices := by
  intro pairs
  induction pairs with
  | nil => intro idT idI; rfl
  | cons pair rest ih =>
    intro idT idI
    obtain ⟨s1, s2⟩ := pair
    simp only [List.map_cons, Prod.swap, analyze.loop]
    rw [areDisjointSections_comm (readSectionDesc s2) (readSectionDesc s1),
      areIdenticalSections_comm (readSectionDesc s2) (readSectionDesc s1),
      Bool.or_comm s2.isTriplet s1.isTriplet, ih false idI, ih idT false, ih idT idI]

/-- C28: `analyze` is symmetric: `analyze(ref1, ref2) = analyze(ref2, ref1)` for all
values. -/
theorem analyze_symmetric (ref1 ref2 : Value) : analyze ref1 ref2 = analyze ref2 ref1 := by
  unfold analyze
  by_cases hne : ref1 = ref2
  · subst hne
    rfl
  · have hne2 : ¬ ref2 = ref1 := fun h => hne h.symm
    rw [if_neg hne, if_neg hne2]
    cases h1 : ref1.getDefiningDesignateOp with
    | none => cases ref2.getDefiningDesignateOp <;> rfl
    | some des1 =>
      cases h2 : ref2.getDefiningDesignateOp with
      | none => rfl
      | some des2 =>
        simp only
        by_cases hm : des1.getMemref = des2.getMemref
        · rw [if_neg (not_not.mpr hm), if_neg (not_not.mpr hm.symm)]
          by_cases hstatic : des1.getComponent ≠ des2.getComponent ∨
              des1.getComponentShape ≠ des2.getComponentShape ∨
              des1.getSubstring ≠ des2.getSubstring ∨
              des1.getComplexPart ≠ des2.getComplexPart ∨
              des1.getTypeparams ≠ des2.getTypeparams
          · have hstatic2 : des2.getComponent ≠ des1.getComponent ∨
                des2.getComponentShape ≠ des1.getComponentShape ∨
                des2.getSubstring ≠ des1.getSubstring ∨
                des2.getComplexPart ≠ des1.getComplexPart ∨
                des2.getTypeparams ≠ des1.getTypeparams := by
              rcases hstatic with h | h | h | h | h
              · exact Or.inl (Ne.symm h)
              · exact Or.inr (Or.inl (Ne.symm h))
              · exact Or.inr (Or.inr (Or.inl (Ne.symm h)))
              · exact Or.inr (Or.inr (Or.inr (Or.inl (Ne.symm h))))
              · exact Or.inr (Or.inr (Or.inr (Or.inr (Ne.symm h))))
            rw [if_pos hstatic, if_pos hstatic2]
          · have hstatic2 : ¬ (des2.getComponent ≠ des1.getComponent ∨
                des2.getComponentShape ≠ des1.getComponentShape ∨
                des2.getSubstring ≠ des1.getSubstring ∨
                des2.getComplexPart ≠ des1.getComplexPart ∨
                des2.getTypeparams ≠ des1.getTypeparams) := by
              intro h
              apply hstatic
              rcases h with h | h | h | h | h
              · exact Or.inl (Ne.symm h)
              · exact Or.inr (Or.inl (Ne.symm h))
              · exact Or.inr (Or.inr (Or.inl (Ne.symm h)))
              · exact Or.inr (Or.inr (Or.inr (Or.inl (Ne.symm h))))
              · exact Or.inr (Or.inr (Or.inr (Or.inr (Ne.symm h))))
            rw [if_neg hstatic, if_neg hstatic2, ← List.zip_swap, analyze.loop_swap]
        · have hm2 : ¬ des2.getMemref = des1.getMemref := fun h => hm h.symm
          rw [if_pos hm, if_pos hm2]

/-! ## Designators with different numbers of subscripts -/

/-- C29, the code at the failing input: `%array imag` (no subscript: the imaginary
parts of the whole array) and `%array(%c2) imag` (one subscript) are comparable
designators, `llvm::zip` yields no pair of sections for them, and `analyze` answers
DefinitelyIdentical although the numbers of subscripts are 0 and 1. -/
theorem analyze_identical_for_different_subscript_counts :
    imagPartOfArray ≠ imagPartOfElement ∧
    analyze imagPartOfArray imagPartOfElement = .DefinitelyIdentical ∧
    imagPartOfArray.getDefiningDesignateOp.map (fun des => des.subscripts.length) = some 0 ∧
    imagPartOfElement.getDefiningDesignateOp.map (fun des => des.subscripts.length) =
      some 1 := by
  decide

theorem analyze.loop_identical_sections :
    ∀ (pairs : List (Subscript × Subscript)) (identicalTriplets identicalIndices : Bool),
      analyze.loop pairs identicalTriplets identicalIndices = .DefinitelyIdentical →
      ∀ pair ∈ pairs, readSectionDesc pair.1 = readSectionDesc pair.2 := by
  intro pairs
  induction pairs with
  | nil =>
    intro _ _ _ pair hp
    simp at hp
  | cons head rest ih =>
    intro idT idI h pair hp
    obtain ⟨s1, s2⟩ := head
    simp only [analyze.loop] at h
    by_cases hd : areDisjointSections (readSectionDesc s1) (readSectionDesc s2) = true
    · simp [hd] at h
    · simp only [hd, if_false, Bool.false_eq_true] at h
      by_cases hid : areIdenticalSections (readSectionDesc s1) (readSectionDesc s2) = true
      · simp only [hid, Bool.not_true, Bool.false_eq_true, if_false] at h
        rcases List.mem_cons.mp hp with hp | hp
        · rw [hp]
          simpa [areIdenticalSections] using hid
        · exact ih idT idI h pair hp
      · simp only [hid, Bool.not_false, if_true] at h
        exfalso
        by_cases ht : (s1.isTriplet || s2.isTriplet) = true
        · simp only [ht, if_true] at h
          rcases analyze.loop_of_differing_triplets rest idI with h2 | h2 <;>
            rw [h2] at h <;> simp at h
        · simp only [ht, if_false] at h
          have hno : ∀ p ∈ rest,
              areDisjointSections (readSectionDesc p.1) (readSectionDesc p.2) = false := by
            intro p hpr
            cases hdp : areDisjointSections (readSectionDesc p.1) (readSectionDesc p.2) with
            | false => rfl
            | true =>
              have := (analyze.loop_disjoint_iff rest idT false).mpr ⟨p, hpr, hdp⟩
              rw [this] at h
              simp at h
          rw [analyze.loop_of_no_disjoint rest idT false hno] at h
          simp only [Bool.false_and, Bool.false_eq_true, if_false] at h
          split at h <;> simp at h

/-- For two distinct designators with the same number of subscripts the verdict
DefinitelyIdentical does mean that all the corresponding normalized sections are
equal. -/
theorem analyze_identical_sections_of_same_count (ref1 ref2 : Value)
    (des1 des2 : DesignateOp) (hne : ref1 ≠ ref2)
    (h1 : ref1.getDefiningDesignateOp = some des1)
    (h2 : ref2.getDefiningDesignateOp = some des2)
    (h : analyze ref1 ref2 = .DefinitelyIdentical) :
    ∀ pair ∈ des1.subscripts.zip des2.subscripts,
      readSectionDesc pair.1 = readSectionDesc pair.2 := by
  unfold analyze at h
  rw [if_neg hne, h1, h2] at h
  simp only at h
  by_cases hm : des1.getMemref ≠ des2.getMemref
  · simp [hm] at h
  · rw [if_neg hm] at h
    split at h
    · simp at h
    · exact analyze.loop_identical_sections _ true true h

/-! ## tryUsingAssignLhsDirectly -/

/-- C30, the code at the failing input: an `hlfir.eval_in_mem` with three users, its
assignment, its destroy and one more operation, gets past the test
`user.index() > 2` and `tryUsingAssignLhsDirectly` succeeds. -/
theorem tryUsingAssignLhsDirectly_succeeds_with_three_users :
    (sampleEvalInMem [3]).getUsers.length = 3 ∧
    (sampleEvalInMem [3]).getUsers =
      [.assign (sampleAssign sampleArray []), .destroy (sampleDestroy sampleArray []),
        .other { getBlock := sampleBlock sampleArray [], index := 3 }] ∧
    tryUsingAssignLhsDirectly sampleEvalInMemEnv (sampleEvalInMem [3]) = .ok true :=
  ⟨by decide, by decide, by rfl⟩

theorem tryUsingAssignLhsDirectly.scanUsers_none_of_long :
    ∀ (users : List User) (index : Nat) (assign : Option AssignOp)
      (destroy : Option DestroyOp), index ≤ 3 → 3 < index + users.length →
      tryUsingAssignLhsDirectly.scanUsers users index assign destroy = none := by
  intro users
  induction users with
  | nil =>
    intro index assign destroy hle h
    simp only [List.length_nil, Nat.add_zero] at h
    omega
  | cons user rest ih =>
    intro index assign destroy hle h
    simp only [tryUsingAssignLhsDirectly.scanUsers]
    by_cases hi : index > 2
    · simp [hi]
    · simp only [hi, if_false]
      have hlen : 3 < index + 1 + rest.length := by
        simp only [List.length_cons] at h
        omega
      cases user <;> exact ih _ _ _ (by omega) hlen

/-- What the test on the users does guarantee: with four users or more
`tryUsingAssignLhsDirectly` returns failure. -/
theorem tryUsingAssignLhsDirectly_fails_with_four_users (env : EvalInMemEnv)
    (evalInMem : EvaluateInMemoryOp) (h : 4 ≤ evalInMem.getUsers.length) :
    tryUsingAssignLhsDirectly env evalInMem = .ok false := by
  unfold tryUsingAssignLhsDirectly
  rw [tryUsingAssignLhsDirectly.scanUsers_none_of_long _ 0 none none (by omega) (by omega)]

/-! ## isLess -/

/-- C25, the code at the failing input: with `%dims:3 = fir.box_dims %array, %c0`,
`isLess(%dims#1, %dims#0 + %c1)` is true, because the addition is applied to a
result of the operation defining `%dims#1`; with the lower bound `%dims#0 = 1` and
the extent `%dims#1 = 10` the first value is 10 and the second is 2. -/
theorem isLess_unsound_for_other_result :
    isLess (.opResult sampleBoxDims 1)
        (.opResult (.addi 52 (.opResult sampleBoxDims 0) (sampleConstant 1)) 0) = true ∧
    (Value.opResult sampleBoxDims 1).eval sampleInterpretation = 10 ∧
    (Value.opResult (.addi 52 (.opResult sampleBoxDims 0) (sampleConstant 1)) 0).eval
      sampleInterpretation = 2 :=
  ⟨by decide, extentSlice_eval.1, extentSlice_eval.2.1⟩

/-- C24, counterexample: for a block argument `%arg0`, such as an index of an
elemental, `isLess(%arg0, %arg0 + %c1)`, `isLess(%arg0, %c1 + %arg0)` and
`isLess(%arg0 - %c1, %arg0)` are false; and so is `isLess(v, v + %c1)` when `v` is
the result of a `fir.convert`. -/
theorem isLess_fails_for_block_argument :
    isLess (.blockArgument 100 0)
        (.opResult (.addi 30 (.blockArgument 100 0) (sampleConstant 1)) 0) = false ∧
    isLess (.blockArgument 100 0)
        (.opResult (.addi 31 (sampleConstant 1) (.blockArgument 100 0)) 0) = false ∧
    isLess (.opResult (.subi 32 (.blockArgument 100 0) (sampleConstant 1)) 0)
        (.blockArgument 100 0) = false ∧
    isLess (.opResult (.convert 33 otherArray) 0)
        (.opResult (.addi 34 (.opResult (.convert 33 otherArray) 0) (sampleConstant 1)) 0) =
      false := by
  decide

theorem removeConvert_wrapConverts (op : Operation) (resultNumber : Nat) :
    ∀ ids : List Nat,
      removeConvert (wrapConverts ids (.opResult op resultNumber)) = removeConvertOp op := by
  intro ids
  induction ids with
  | nil => rfl
  | cons id rest ih =>
    cases rest with
    | nil => rfl
    | cons id2 rest2 =>
      simp only [wrapConverts, removeConvert, Value.getDefiningOp, removeConvertOp] at ih ⊢
      exact ih

theorem removeConvertOp_of_not_convert (op : Operation)
    (h : ∀ id value, op ≠ .convert id value) : removeConvertOp op = some op := by
  cases op with
  | convert id value => exact absurd rfl (h id value)
  | constant id value => rfl
  | addi id lhs rhs => rfl
  | subi id lhs rhs => rfl
  | boxDims id val dim => rfl
  | designate id memref component componentShape subscripts substring complexPart
      typeparams => rfl
  | other id operands => rfl

theorem isLess.variableCases_addi_left (op1 : Operation) (id resultNumber : Nat)
    (rhs : Value) (hrhs : isPositiveConstant rhs = true) :
    isLess.variableCases op1 (.addi id (.opResult op1 resultNumber) rhs) = true := by
  simp [isLess.variableCases, Value.getDefiningOp, hrhs]

theorem isLess.variableCases_addi_right (op1 : Operation) (id resultNumber : Nat)
    (lhs : Value) (hlhs : isPositiveConstant lhs = true) :
    isLess.variableCases op1 (.addi id lhs (.opResult op1 resultNumber)) = true := by
  simp [isLess.variableCases, Value.getDefiningOp, hlhs]

theorem isLess.variableCases_subi (op2 : Operation) (id resultNumber : Nat)
    (rhs : Value) (hrhs : isPositiveConstant rhs = true) :
    isLess.variableCases (.subi id (.opResult op2 resultNumber) rhs) op2 = true := by
  unfold isLess.variableCases
  simp only [Value.getDefiningOp, decide_True, hrhs, Bool.and_self]
  split <;> rfl

theorem isLess_of_variableCases (v1 v2 : Value) (op1 op2 : Operation)
    (h1 : removeConvert v1 = some op1) (h2 : removeConvert v2 = some op2)
    (hconst : getIntIfConstant (op1.getResult 0) = none ∨
      getIntIfConstant (op2.getResult 0) = none)
    (h : isLess.variableCases op1 op2 = true) : isLess v1 v2 = true := by
  unfold isLess
  rw [h1, h2]
  rcases hconst with hc | hc
  · simp only [hc]
    exact h
  · simp only [hc]
    cases getIntIfConstant (op1.getResult 0) <;> exact h

/-- C24, amended: for every value `v` that is the result of an operation other
than `fir.convert`, and every integer constant `C > 0`, `isLess(v, v + C)`,
`isLess(v, C + v)` and `isLess(v - C, v)` return true, where `v + C`, `C + v` and
`v - C` are the results of the `arith.addi` and `arith.subi` operations, possibly
wrapped in `fir.convert` operations.  When one of the two values is a block
argument, `isLess` returns false, whatever the other value is. -/
theorem isLess_constant_offset_patterns (op : Operation) (resultNumber : Nat)
    (hop : ∀ id value, op ≠ .convert id value)
    (idC : Nat) (c : Int) (hc : 0 < c) (idOp resultOp : Nat) (ids : List Nat)
    (block argNumber : Nat) (other : Value) :
    isLess (.opResult op resultNumber)
        (wrapConverts ids
          (.opResult (.addi idOp (.opResult op resultNumber) (.opResult (.constant idC c) 0))
            resultOp)) = true ∧
    isLess (.opResult op resultNumber)
        (wrapConverts ids
          (.opResult (.addi idOp (.opResult (.constant idC c) 0) (.opResult op resultNumber))
            resultOp)) = true ∧
    isLess
        (wrapConverts ids
          (.opResult (.subi idOp (.opResult op resultNumber) (.opResult (.constant idC c) 0))
            resultOp))
        (.opResult op resultNumber) = true ∧
    isLess (.blockArgument block argNumber) other = false ∧
    isLess other (.blockArgument block argNumber) = false := by
  have hv : removeConvert (.opResult op resultNumber) = some op :=
    removeConvertOp_of_not_convert op hop
  have hpos : isPositiveConstant (.opResult (.constant idC c) 0) = true := by
    simp [isPositiveConstant, getIntIfConstant, hc]
  refine ⟨?_, ?_, ?_, ?_, ?_⟩
  · exact isLess_of_variableCases _ _ op
      (.addi idOp (.opResult op resultNumber) (.opResult (.constant idC c) 0)) hv
      (by rw [removeConvert_wrapConverts]; rfl) (Or.inr rfl)
      (isLess.variableCases_addi_left op idOp resultNumber _ hpos)
  · exact isLess_of_variableCases _ _ op
      (.addi idOp (.opResult (.constant idC c) 0) (.opResult op resultNumber)) hv
      (by rw [removeConvert_wrapConverts]; rfl) (Or.inr rfl)
      (isLess.variableCases_addi_right op idOp resultNumber _ hpos)
  · exact isLess_of_variableCases _ _
      (.subi idOp (.opResult op resultNumber) (.opResult (.constant idC c) 0)) op
      (by rw [removeConvert_wrapConverts]; rfl) hv (Or.inl rfl)
      (isLess.variableCases_subi op idOp resultNumber _ hpos)
  · simp [isLess, removeConvert, Value.getDefiningOp]
  · unfold isLess
    cases removeConvert other <;> simp [removeConvert, Value.getDefiningOp]

/-- Witness of C24 (amended): `%other < convert (%other + %c3)`, and nothing is
known of the block argument `%arg0` against `%arg0 + %c3`. -/
theorem isLess_constant_offset_patterns_witness :
    isLess otherArray
        (wrapConverts [35]
          (.opResult (.addi 36 otherArray (.opResult (.constant 37 3) 0)) 0)) = true ∧
    isLess (.blockArgument 100 0)
        (.opResult (.addi 38 (.blockArgument 100 0) (.opResult (.constant 37 3) 0)) 0) =
      false :=
  ⟨(isLess_constant_offset_patterns (.other 3 .nil) 0 (by intro id value h; cases h) 37 3
      (by decide) 36 0 [35] 100 0
      (.opResult (.addi 38 (.blockArgument 100 0) (.opResult (.constant 37 3) 0)) 0)).1,
    (isLess_constant_offset_patterns (.other 3 .nil) 0 (by intro id value h; cases h) 37 3
      (by decide) 36 0 [35] 100 0
      (.opResult (.addi 38 (.blockArgument 100 0) (.opResult (.constant 37 3) 0)) 0)).2.2.2.1⟩

/-! ## Lemmas on getDesignatorIndices -/

theorem isNormalizedLb_iff (memref v : Value) (k : Nat) :
    isNormalizedLb memref v k = true ↔ IsLowerBoundMinusOne memref v k := by
  constructor
  · intro h
    unfold isNormalizedLb at h
    split at h
    · rename_i idSub subLhs subRhs hdef
      split at h
      · rename_i cst hcst
        split at h
        · exact absurd h (by simp)
        · rename_i hone
          split at h
          · rename_i idDims val dimOperand hdims
            split at h
            · exact absurd h (by simp)
            · rename_i hsame
              split at h
              · rename_i dimsOpDim hdim
                cases v with
                | blockArgument b n => simp [Value.getDefiningOp] at hdef
                | opResult op resultNumber =>
                  simp only [Value.getDefiningOp, Option.some.injEq] at hdef
                  simp only [not_or, not_not, Operation.getResult] at hsame
                  refine ⟨idSub, idDims, dimOperand, subRhs, resultNumber, ?_, ?_, ?_⟩
                  · rw [hdef, ← hsame.2, hsame.1]
                  · rw [hcst]
                    simp only [ne_eq, not_not] at hone
                    rw [hone]
                  · rw [hdim]
                    simpa using h
              · exact absurd h (by simp)
          · exact absurd h (by simp)
      · exact absurd h (by simp)
    · exact absurd h (by simp)
  · rintro ⟨idSub, idDims, dim, one, resultNumber, rfl, hone, hdim⟩
    simp [isNormalizedLb, Value.getDefiningOp, hone, hdim, Operation.getResult]

theorem getDesignatorIndices.oneBasedIndex_some (memref value : Value) (i : Nat) (o : Value)
    (h : getDesignatorIndices.oneBasedIndex memref value i = some o) :
    IsAdjustedIndex memref value i o := by
  unfold getDesignatorIndices.oneBasedIndex at h
  split at h
  · rename_i id lhs rhs hdef
    cases value with
    | blockArgument b n => simp [Value.getDefiningOp] at hdef
    | opResult op resultNumber =>
      simp only [Value.getDefiningOp, Option.some.injEq] at hdef
      subst hdef
      split at h
      · rename_i hl
        simp only [Option.some.injEq] at h
        subst h
        exact ⟨id, resultNumber, lhs, (isNormalizedLb_iff _ _ _).mp hl, Or.inr rfl⟩
      · split at h
        · rename_i hr
          simp only [Option.some.injEq] at h
          subst h
          exact ⟨id, resultNumber, rhs, (isNormalizedLb_iff _ _ _).mp hr, Or.inl rfl⟩
        · exact absurd h (by simp)
  · exact absurd h (by simp)

theorem getDesignatorIndices.oneBasedIndex_isSome (memref value : Value) (i : Nat) (o : Value)
    (h : IsAdjustedIndex memref value i o) :
    ∃ o2, getDesignatorIndices.oneBasedIndex memref value i = some o2 := by
  obtain ⟨id, resultNumber, lowerBoundMinusOne, hlb, hv | hv⟩ := h
  · subst hv
    have hr := (isNormalizedLb_iff _ _ _).mpr hlb
    by_cases hl : isNormalizedLb memref o i = true
    · exact ⟨lowerBoundMinusOne, by
        simp [getDesignatorIndices.oneBasedIndex, Value.getDefiningOp, hl]⟩
    · exact ⟨o, by
        simp [getDesignatorIndices.oneBasedIndex, Value.getDefiningOp, hl, hr]⟩
  · subst hv
    have hl := (isNormalizedLb_iff _ _ _).mpr hlb
    exact ⟨o, by simp [getDesignatorIndices.oneBasedIndex, Value.getDefiningOp, hl]⟩

theorem getDesignatorIndices.loop_cons (memref value : Value) (rest : List Value) (i : Nat)
    (acc : List Value) (hacc : acc.length ≤ i) :
    getDesignatorIndices.loop memref (value :: rest) i acc =
      match getDesignatorIndices.oneBasedIndex memref value i with
      | some o =>
        if acc.length < i then acc ++ [o]
        else getDesignatorIndices.loop memref rest (i + 1) (acc ++ [o])
      | none =>
        match value.getDefiningOp with
        | some (.addi _ _ _) => acc
        | _ => getDesignatorIndices.loop memref rest (i + 1) acc := by
  cases value with
  | blockArgument b n =>
    simp [getDesignatorIndices.loop, getDesignatorIndices.oneBasedIndex, Value.getDefiningOp]
  | opResult op resultNumber =>
    cases op with
    | addi id lhs rhs =>
      simp only [getDesignatorIndices.loop, getDesignatorIndices.oneBasedIndex,
        Value.getDefiningOp]
      by_cases hl : isNormalizedLb memref lhs i = true
      · simp only [hl, if_true, List.length_append, List.length_cons, List.length_nil]
        by_cases hlt : acc.length < i
        · simp [hlt, Nat.succ_le_of_lt hlt]
        · have : ¬ acc.length + 1 ≤ i := by omega
          simp [hlt, this]
      · by_cases hr : isNormalizedLb memref rhs i = true
        · simp only [hl, hr, if_true, List.length_append, List.length_cons,
            List.length_nil]
          by_cases hlt : acc.length < i
          · simp [hlt, Nat.succ_le_of_lt hlt]
          · have : ¬ acc.length + 1 ≤ i := by omega
            simp [hlt, this]
        · simp [hl, hr, hacc]
    | constant id value =>
      simp [getDesignatorIndices.loop, getDesignatorIndices.oneBasedIndex, Value.getDefiningOp]
    | convert id value =>
      simp [getDesignatorIndices.loop, getDesignatorIndices.oneBasedIndex, Value.getDefiningOp]
    | subi id lhs rhs =>
      simp [getDesignatorIndices.loop, getDesignatorIndices.oneBasedIndex, Value.getDefiningOp]
    | boxDims id val dim =>
      simp [getDesignatorIndices.loop, getDesignatorIndices.oneBasedIndex, Value.getDefiningOp]
    | designate id memref2 component componentShape subscripts substring complexPart
        typeparams =>
      simp [getDesignatorIndices.loop, getDesignatorIndices.oneBasedIndex, Value.getDefiningOp]
    | other id operands =>
      simp [getDesignatorIndices.loop, getDesignatorIndices.oneBasedIndex, Value.getDefiningOp]

theorem getDesignatorIndices.loop_short (memref : Value) :
    ∀ (l : List Value) (i : Nat) (acc : List Value), acc.length < i →
      (getDesignatorIndices.loop memref l i acc).length < i + l.length := by
  intro l
  induction l with
  | nil =>
    intro i acc h
    simpa [getDesignatorIndices.loop] using h
  | cons value rest ih =>
    intro i acc h
    rw [getDesignatorIndices.loop_cons memref value rest i acc (Nat.le_of_lt h)]
    cases getDesignatorIndices.oneBasedIndex memref value i with
    | some o =>
      simp only [h, if_true, List.length_append, List.length_cons, List.length_nil]
      omega
    | none =>
      simp only [List.length_cons]
      split
      · omega
      · have := ih (i + 1) acc (by omega)
        omega

theorem getDesignatorIndices.loop_of_none (memref : Value) :
    ∀ (l : List Value) (i : Nat) (acc : List Value), acc.length = i →
      getDesignatorIndices.oneBasedIndices memref l i = none →
      (getDesignatorIndices.loop memref l i acc).length < i + l.length := by
  intro l
  induction l with
  | nil =>
    intro i acc _ h
    simp [getDesignatorIndices.oneBasedIndices] at h
  | cons value rest ih =>
    intro i acc hacc h
    rw [getDesignatorIndices.loop_cons memref value rest i acc (Nat.le_of_eq hacc)]
    unfold getDesignatorIndices.oneBasedIndices at h
    cases ho : getDesignatorIndices.oneBasedIndex memref value i with
    | some o =>
      have hlt : ¬ acc.length < i := by omega
      simp only [hlt, if_false, List.length_cons]
      rw [ho] at h
      have hrest : getDesignatorIndices.oneBasedIndices memref rest (i + 1) = none := by
        cases hr : getDesignatorIndices.oneBasedIndices memref rest (i + 1) with
        | none => rfl
        | some others => rw [hr] at h; simp at h
      have := ih (i + 1) (acc ++ [o]) (by simp [hacc]) hrest
      omega
    | none =>
      simp only [List.length_cons]
      split
      · omega
      · have := getDesignatorIndices.loop_short memref rest (i + 1) acc (by omega)
        omega

theorem getDesignatorIndices.loop_of_some (memref : Value) :
    ∀ (l : List Value) (i : Nat) (acc os : List Value), acc.length = i →
      getDesignatorIndices.oneBasedIndices memref l i = some os →
      getDesignatorIndices.loop memref l i acc = acc ++ os := by
  intro l
  induction l with
  | nil =>
    intro i acc os _ h
    simp only [getDesignatorIndices.oneBasedIndices, Option.some.injEq] at h
    subst h
    simp [getDesignatorIndices.loop]
  | cons value rest ih =>
    intro i acc os hacc h
    rw [getDesignatorIndices.loop_cons memref value rest i acc (Nat.le_of_eq hacc)]
    unfold getDesignatorIndices.oneBasedIndices at h
    cases ho : getDesignatorIndices.oneBasedIndex memref value i with
    | none => rw [ho] at h; simp at h
    | some o =>
      rw [ho] at h
      cases hr : getDesignatorIndices.oneBasedIndices memref rest (i + 1) with
      | none => rw [hr] at h; simp at h
      | some others =>
        rw [hr] at h
        simp only [Option.some.injEq] at h
        subst h
        have hlt : ¬ acc.length < i := by omega
        simp only [hlt, if_false]
        rw [ih (i + 1) (acc ++ [o]) others (by simp [hacc]) hr]
        simp

theorem getDesignatorIndices.oneBasedIndices_some (memref : Value) :
    ∀ (l : List Value) (i : Nat) (os : List Value),
      getDesignatorIndices.oneBasedIndices memref l i = some os →
      os.length = l.length ∧
      ∀ k v o, l[k]? = some v → os[k]? = some o → IsAdjustedIndex memref v (i + k) o := by
  intro l
  induction l with
  | nil =>
    intro i os h
    simp only [getDesignatorIndices.oneBasedIndices, Option.some.injEq] at h
    subst h
    simp
  | cons value rest ih =>
    intro i os h
    unfold getDesignatorIndices.oneBasedIndices at h
    cases ho : getDesignatorIndices.oneBasedIndex memref value i with
    | none => rw [ho] at h; simp at h
    | some o =>
      rw [ho] at h
      cases hr : getDesignatorIndices.oneBasedIndices memref rest (i + 1) with
      | none => rw [hr] at h; simp at h
      | some others =>
        rw [hr] at h
        simp only [Option.some.injEq] at h
        subst h
        obtain ⟨hlen, hall⟩ := ih (i + 1) others hr
        refine ⟨by simp [hlen], ?_⟩
        intro k v o2 hv ho2
        cases k with
        | zero =>
          simp only [List.getElem?_cons_zero, Option.some.injEq] at hv ho2
          subst hv
          subst ho2
          exact getDesignatorIndices.oneBasedIndex_some memref _ i _ ho
        | succ k =>
          simp only [List.getElem?_cons_succ] at hv ho2
          have := hall k v o2 hv ho2
          rwa [show i + (k + 1) = i + 1 + k by omega]

theorem getDesignatorIndices.oneBasedIndices_isSome (memref : Value) :
    ∀ (l : List Value) (i : Nat),
      (∀ k v, l[k]? = some v → ∃ o, IsAdjustedIndex memref v (i + k) o) →
      ∃ os, getDesignatorIndices.oneBasedIndices memref l i = some os := by
  intro l
  induction l with
  | nil =>
    intro i _
    exact ⟨[], rfl⟩
  | cons value rest ih =>
    intro i h
    obtain ⟨o, ho⟩ := h 0 value (by simp)
    obtain ⟨o2, ho2⟩ := getDesignatorIndices.oneBasedIndex_isSome memref value i o ho
    obtain ⟨os, hos⟩ := ih (i + 1) (by
      intro k v hv
      have := h (k + 1) v (by simpa using hv)
      rwa [show i + (k + 1) = i + 1 + k by omega] at this)
    exact ⟨o2 :: os, by
      rw [getDesignatorIndices.oneBasedIndices, show i + 0 = i from rfl] at *
      simp [ho2, hos]⟩

theorem getDesignatorIndices.oneBasedIndices_none (memref : Value) :
    ∀ (l : List Value) (i : Nat),
      ¬ (∀ k v, l[k]? = some v → ∃ o, IsAdjustedIndex memref v (i + k) o) →
      getDesignatorIndices.oneBasedIndices memref l i = none := by
  intro l i h
  cases hos : getDesignatorIndices.oneBasedIndices memref l i with
  | none => rfl
  | some os =>
    exfalso
    apply h
    obtain ⟨hlen, hall⟩ := getDesignatorIndices.oneBasedIndices_some memref l i os hos
    intro k v hv
    have hk : k < os.length := by
      rw [hlen]
      exact (List.getElem?_eq_some_iff.mp hv).1
    exact ⟨os[k], hall k v os[k] hv (List.getElem?_eq_getElem hk)⟩

/-- C26: `getDesignatorIndices` is all-or-nothing and length-preserving.  For every
`hlfir.designate` it returns as many values as the designator has index operands;
when the base is not a box it returns the index operands unchanged; when the base
is a box and every index operand `k` is an `arith.addi` of some `o_k` and of
(`fir.box_dims` of the base and `k`, lower bound, minus one), in either operand
order, every returned value `k` is such an `o_k`; and when some index operand does
not have that form it returns the index operands unchanged. -/
theorem getDesignatorIndices_all_or_nothing (env : Env) (designate : DesignateOp) :
    (getDesignatorIndices env designate).length = designate.getIndices.length ∧
    (env.hasBaseBoxType designate.getMemref = false →
      getDesignatorIndices env designate = designate.getIndices) ∧
    (env.hasBaseBoxType designate.getMemref = true →
      (∀ k v, designate.getIndices[k]? = some v →
        ∃ o, IsAdjustedIndex designate.getMemref v k o) →
      ∀ k v o, designate.getIndices[k]? = some v →
        (getDesignatorIndices env designate)[k]? = some o →
        IsAdjustedIndex designate.getMemref v k o) ∧
    (env.hasBaseBoxType designate.getMemref = true →
      ¬ (∀ k v, designate.getIndices[k]? = some v →
        ∃ o, IsAdjustedIndex designate.getMemref v k o) →
      getDesignatorIndices env designate = designate.getIndices) := by
  refine ⟨?_, ?_, ?_, ?_⟩
  · unfold getDesignatorIndices
    simp only
    split
    · split
      · rfl
      · rename_i h
        simpa using h
    · rfl
  · intro h
    simp [getDesignatorIndices, h]
  · intro hbox hall k v o hv ho
    obtain ⟨os, hos⟩ := getDesignatorIndices.oneBasedIndices_isSome designate.getMemref
      designate.getIndices 0 (by simpa using hall)
    obtain ⟨hlen, hadj⟩ := getDesignatorIndices.oneBasedIndices_some designate.getMemref
      designate.getIndices 0 os hos
    have hloop := getDesignatorIndices.loop_of_some designate.getMemref designate.getIndices
      0 [] os rfl hos
    have hres : getDesignatorIndices env designate = os := by
      simp [getDesignatorIndices, hbox, hloop, hlen]
    rw [hres] at ho
    simpa using hadj k v o hv ho
  · intro hbox hnot
    have hnone := getDesignatorIndices.oneBasedIndices_none designate.getMemref
      designate.getIndices 0 (by simpa using hnot)
    have hlt := getDesignatorIndices.loop_of_none designate.getMemref designate.getIndices
      0 [] rfl hnone
    have hne : (getDesignatorIndices.loop designate.getMemref designate.getIndices 0 []).length
        ≠ designate.getIndices.length := by omega
    simp [getDesignatorIndices, hbox, hne]

/-- Witness of C26: for `hlfir.designate %array(%arg0 + (%dims#0 - %c1))` on a
box, the one-based index `%arg0` is returned. -/
theorem getDesignatorIndices_all_or_nothing_witness :
    getDesignatorIndices boxEnv adjustedDesignate = [.blockArgument 100 0] ∧
    IsAdjustedIndex sampleArray sampleAdjustedIndex 0 (.blockArgument 100 0) :=
  ⟨by decide,
    (getDesignatorIndices_all_or_nothing boxEnv adjustedDesignate).2.2.1 rfl
      (by
        intro k v hv
        cases k with
        | zero =>
          simp only [DesignateOp.getIndices, adjustedDesignate, List.map, List.flatten,
            Subscript.operands, List.append_nil, List.getElem?_cons_zero,
            Option.some.injEq] at hv
          subst hv
          exact ⟨.blockArgument 100 0, 52, 0, sampleLowerBoundMinusOne,
            ⟨51, 50, sampleConstant 0, sampleConstant 1, 0, rfl, rfl, rfl⟩, Or.inl rfl⟩
        | succ k =>
          simp [DesignateOp.getIndices, adjustedDesignate, Subscript.operands] at hv)
      0 sampleAdjustedIndex (.blockArgument 100 0) rfl rfl⟩

end OptimizedBufferization

/-! # SveEmitter: theorems -/

namespace SveEmitter

theorem getSplatIdx.loop_isSome (Proto : List Char) :
    ∀ (fuel I Param : Nat), Proto.length < fuel + I → fuel ≠ 0 →
      (getSplatIdx.loop Proto fuel I Param).isSome = true := by
  intro fuel
  induction fuel with
  | zero => intro I Param _ h; exact absurd rfl h
  | succ fuel ih =>
    intro I Param hlen _
    rw [getSplatIdx.loop]
    cases hc : Proto[I]? with
    | none => rfl
    | some c =>
      have hI : I < Proto.length := (List.getElem?_eq_some_iff.mp hc).1
      simp only
      split
      · rfl
      · apply ih
        · split <;> omega
        · omega

/-- The loop of `getSplatIdx` ends within the `Proto.size() + 1` tests of its
condition: `getSplatIdx` returns an index or fails its assertion. -/
theorem getSplatIdx_isSome (Proto : List Char) : (getSplatIdx Proto).isSome = true := by
  unfold getSplatIdx
  have h := getSplatIdx.loop_isSome Proto (Proto.length + 1) 1 0 (by omega) (by omega)
  cases hl : getSplatIdx.loop Proto (Proto.length + 1) 1 0 with
  | none => rw [hl] at h; exact absurd h (by simp)
  | some r =>
    obtain ⟨I, Param⟩ := r
    simp only
    split <;> rfl

/-- C27, evaluation: the prototype `d2.da` has a splat operand, its parameter 1
(`getProtoModifier` gives the modifier `a` for the operand 2), and `getSplatIdx`
fails the assertion "Prototype has no splat operand" on it; on `d2.daa`
`getSplatIdx` returns 2 although the parameter 1 already has the modifier `a`.
After the test of `.` the loop adds 2 to `I` and the increment of the loop adds
one more, which skips the character after the multivector modifier, and `Param`
is counted twice for the one parameter `2.d`. -/
theorem getSplatIdx_skips_splat_after_multivector :
    hasSplat tupleThenSplat = true ∧
    getProtoModifier tupleThenSplat 2 = some ('a', 1) ∧
    getSplatIdx tupleThenSplat = some .assertionFailure ∧
    getSplatIdx tupleThenTwoSplats = some (.param 2) ∧
    getProtoModifier tupleThenTwoSplats (1 + 1) = some ('a', 1) ∧
    getProtoModifier tupleThenTwoSplats (2 + 1) = some ('a', 1) := by
  decide

end SveEmitter

/-! # MathToFuncs: theorems -/

namespace MathToFuncs

theorem two_pow_eq_double (w : Nat) (hw : 1 ≤ w) : 2 ^ w = 2 * 2 ^ (w - 1) := by
  rw [← pow_succ']
  congr 1
  omega

theorem toSigned_of_lt (w x : Nat) (h : x < 2 ^ (w - 1)) : toSigned w x = (x : Int) := by
  simp [toSigned, h]

theorem toSigned_of_ge (w x : Nat) (h : 2 ^ (w - 1) ≤ x) :
    toSigned w x = (x : Int) - 2 ^ w := by
  simp [toSigned, Nat.not_lt.mpr h]

theorem toSigned_modEq (w x : Nat) : toSigned w x ≡ (x : Int) [ZMOD (2 : Int) ^ w] := by
  unfold toSigned
  split
  · exact Int.ModEq.refl _
  · rw [Int.modEq_iff_dvd]
    simp

theorem createElementIPowIFunc.loop_computes_power (w : Nat) (hw : 1 ≤ w) :
    ∀ (fuel resultTmp baseTmp powerTmp : Nat), 0 < powerTmp → powerTmp < 2 ^ fuel →
      createElementIPowIFunc.loop w fuel resultTmp baseTmp powerTmp =
        some (resultTmp * baseTmp ^ powerTmp % 2 ^ w) := by
  have hone : 1 % 2 ^ w = 1 :=
    Nat.mod_eq_of_lt (by have := Nat.lt_two_pow w; omega)
  intro fuel
  induction fuel with
  | zero =>
    intro r b pw h0 hlt
    simp at hlt
    omega
  | succ fuel ih =>
    intro r b pw h0 hlt
    rw [createElementIPowIFunc.loop]
    simp only [hone, Nat.and_one_is_mod, Nat.shiftRight_eq_div_pow, pow_one]
    have hpw : pw = 2 * (pw / 2) + pw % 2 := (Nat.div_add_mod pw 2).symm
    by_cases hz : pw / 2 = 0
    · have h1 : pw = 1 := by omega
      subst h1
      simp
    · rw [if_neg hz]
      rw [ih _ _ (pw / 2) (Nat.pos_of_ne_zero hz) (by rw [pow_succ] at hlt; omega)]
      congr 1
      have hsq : (b * b % 2 ^ w) ^ (pw / 2) ≡ (b * b) ^ (pw / 2) [MOD 2 ^ w] :=
        (Nat.mod_modEq _ _).pow _
      have hb : (b * b) ^ (pw / 2) = b ^ (2 * (pw / 2)) := by
        rw [pow_mul, pow_two]
      rcases Nat.mod_two_eq_zero_or_one pw with hev | hodd
      · simp only [hev, ne_eq, not_true_eq_false, if_false]
        have : r * b ^ pw = r * (b * b) ^ (pw / 2) := by
          rw [hb]
          congr 2
          omega
        rw [this]
        exact (Nat.ModEq.refl r).mul hsq
      · simp only [hodd, ne_eq, one_ne_zero, not_false_eq_true, if_true]
        have : r * b ^ pw = r * b * (b * b) ^ (pw / 2) := by
          rw [hb, mul_assoc, ← pow_succ']
          congr 2
          omega
        rw [this]
        exact (Nat.mod_modEq _ _).mul hsq

/-- C22: the function `__mlir_math_ipowi_<T>` computes the documented integer
power.  For every width `w ≥ 2` and all `w`-bit `b` and `p`, `p` read as signed:
it returns 1 if `p = 0`; if `p > 0` it returns `b ^ p` reduced modulo `2 ^ w`, with
whatever fuel of at least `w` entries into the loop; if `p < 0` it executes the
signed division `1 / 0` when `b = 0`, and returns 1 when `b = 1`, `(-1) ^ |p|`
when `b = -1`, and 0 when `|b| ≥ 2`. -/
theorem createElementIPowIFunc_computes_power (w b p : Nat) (hw : 2 ≤ w)
    (hb : b < 2 ^ w) (hp : p < 2 ^ w) :
    (p = 0 → ∀ fuel, createElementIPowIFunc w fuel b p = some (.value 1)) ∧
    (0 < toSigned w p → ∀ fuel, w ≤ fuel →
      createElementIPowIFunc w fuel b p = some (.value (b ^ p % 2 ^ w)) ∧
      ((b ^ p % 2 ^ w : Nat) : Int) = toSigned w b ^ (toSigned w p).toNat % 2 ^ w) ∧
    (toSigned w p < 0 → ∀ fuel,
      (b = 0 → createElementIPowIFunc w fuel b p = some .divisionByZero) ∧
      (toSigned w b = 1 → createElementIPowIFunc w fuel b p = some (.value 1)) ∧
      (toSigned w b = -1 → ∃ v, createElementIPowIFunc w fuel b p = some (.value v) ∧
        v < 2 ^ w ∧ toSigned w v = (-1) ^ (toSigned w p).natAbs) ∧
      (2 ≤ (toSigned w b).natAbs →
        createElementIPowIFunc w fuel b p = some (.value 0))) := by
  have h2 : 2 ^ w = 2 * 2 ^ (w - 1) := two_pow_eq_double w (by omega)
  have h4 : 2 ^ (w - 1) = 2 * 2 ^ (w - 2) := by
    rw [← pow_succ']
    congr 1
    omega
  have hpos : 0 < 2 ^ (w - 2) := Nat.two_pow_pos _
  have hone : 1 % 2 ^ w = 1 := Nat.mod_eq_of_lt (by omega)
  have hzero : toSigned w 0 = 0 := by
    rw [toSigned_of_lt w 0 (by omega)]
    rfl
  have hcast : ((2 ^ w : Nat) : Int) = 2 * ((2 ^ (w - 1) : Nat) : Int) := by
    exact_mod_cast h2
  refine ⟨?_, ?_, ?_⟩
  · intro h0 fuel
    simp [createElementIPowIFunc, h0, hone]
  · intro hsign fuel hfuel
    have hplt : p < 2 ^ (w - 1) := by
      by_contra hge
      rw [toSigned_of_ge w p (Nat.not_lt.mp hge)] at hsign
      have : (p : Int) < ((2 ^ w : Nat) : Int) := by exact_mod_cast hp
      push_cast at this
      omega
    have hpeq : toSigned w p = (p : Int) := toSigned_of_lt w p hplt
    have hp0 : p ≠ 0 := by
      intro h
      rw [hpeq, h] at hsign
      exact absurd hsign (by decide)
    constructor
    · have hnle : ¬ toSigned w p ≤ toSigned w 0 := by
        rw [hzero]
        omega
      have hfu : p < 2 ^ fuel :=
        lt_of_lt_of_le hplt (Nat.pow_le_pow_right (by decide) (by omega))
      simp only [createElementIPowIFunc, hp0, if_false, hnle, hone]
      rw [createElementIPowIFunc.loop_computes_power w (by omega) fuel 1 b p (Nat.pos_of_ne_zero hp0) hfu]
      simp
    · rw [hpeq, Int.toNat_ofNat]
      push_cast
      exact ((toSigned_modEq w b).pow p).symm
  · intro hsign fuel
    have hpge : 2 ^ (w - 1) ≤ p := by
      by_contra hlt
      rw [toSigned_of_lt w p (Nat.not_le.mp hlt)] at hsign
      omega
    have hp0 : p ≠ 0 := by omega
    have hle : toSigned w p ≤ toSigned w 0 := by
      rw [hzero]
      omega
    have hpeq : toSigned w p = (p : Int) - 2 ^ w := toSigned_of_ge w p hpge
    refine ⟨?_, ?_, ?_, ?_⟩
    · intro hb0
      simp [createElementIPowIFunc, hp0, hle, hb0]
    · intro hb1
      have : b = 1 := by
        unfold toSigned at hb1
        split at hb1
        · exact_mod_cast hb1
        · have : (b : Int) < ((2 ^ w : Nat) : Int) := by exact_mod_cast hb
          push_cast at this
          omega
      subst this
      simp [createElementIPowIFunc, hp0, hle, hone]
    · intro hbm
      have hbeq : b = 2 ^ w - 1 := by
        unfold toSigned at hbm
        split at hbm
        · omega
        · have h1 : (b : Int) = ((2 ^ w : Nat) : Int) - 1 := by
            push_cast
            omega
          omega
      have hb0 : b ≠ 0 := by omega
      have hb1 : b ≠ 1 := by omega
      have hm1 : toSigned w (2 ^ w - 1) = -1 := by
        rw [toSigned_of_ge w _ (by omega)]
        have : ((2 ^ w - 1 : Nat) : Int) = ((2 ^ w : Nat) : Int) - 1 := by
          rw [Nat.cast_sub (by omega)]
          rfl
        rw [this]
        push_cast
        ring
      have hs1 : toSigned w 1 = 1 := by
        rw [toSigned_of_lt w 1 (by omega)]
        rfl
      have habs : (toSigned w p).natAbs = 2 ^ w - p := by
        rw [hpeq]
        have : ((p : Int) - 2 ^ w) = -(((2 ^ w - p : Nat) : Int)) := by
          rw [Nat.cast_sub (le_of_lt hp)]
          push_cast
          ring
        rw [this, Int.natAbs_neg, Int.natAbs_ofNat]
      rcases Nat.mod_two_eq_zero_or_one p with hev | hodd
      · refine ⟨1, ?_, by omega, ?_⟩
        · unfold createElementIPowIFunc
          simp only [hone]
          rw [if_neg hp0, if_pos hle, if_neg hb0, if_neg hb1, if_pos hbeq]
          simp [Nat.and_one_is_mod, hev]
        · rw [hs1, habs]
          have : Even (2 ^ w - p) := by
            rw [Nat.even_iff]
            omega
          exact this.neg_one_pow.symm
      · refine ⟨2 ^ w - 1, ?_, by omega, ?_⟩
        · unfold createElementIPowIFunc
          simp only [hone]
          rw [if_neg hp0, if_pos hle, if_neg hb0, if_neg hb1, if_pos hbeq]
          simp [Nat.and_one_is_mod, hodd]
        · rw [hm1, habs]
          have : Odd (2 ^ w - p) := by
            rw [Nat.odd_iff]
            omega
          exact this.neg_one_pow.symm
    · intro habs
      have hb0 : b ≠ 0 := by
        intro h
        rw [h, hzero] at habs
        simp at habs
      have hb1 : b ≠ 1 := by
        intro h
        rw [h, toSigned_of_lt w 1 (by omega)] at habs
        simp at habs
      have hbm : b ≠ 2 ^ w - 1 := by
        intro h
        rw [h, toSigned_of_ge w _ (by omega)] at habs
        have : ((2 ^ w - 1 : Nat) : Int) - 2 ^ w = -1 := by
          rw [Nat.cast_sub (by omega)]
          push_cast
          ring
        rw [this] at habs
        simp at habs
      simp [createElementIPowIFunc, hp0, hle, hone, hb0, hb1, hbm]

/-- Witness of C22: for the 8-bit type, `3 ^ 5 = 243` and `(-1) ^ (-1) = -1`. -/
theorem createElementIPowIFunc_computes_power_witness :
    createElementIPowIFunc 8 8 3 5 = some (.value 243) ∧
    createElementIPowIFunc 8 0 255 255 = some (.value 255) :=
  ⟨((createElementIPowIFunc_computes_power 8 3 5 (by decide) (by decide) (by decide)).2.1
      (by decide) 8 (by decide)).1,
    by decide⟩

theorem toSigned_lt_zero_iff (w a : Nat) (hw : 1 ≤ w) (ha : a < 2 ^ w) :
    toSigned w a < toSigned w 0 ↔ 2 ^ (w - 1) ≤ a := by
  have hpos : 0 < 2 ^ (w - 1) := Nat.two_pow_pos _
  have h2 : 2 ^ w = 2 * 2 ^ (w - 1) := by
    rw [← pow_succ']
    congr 1
    omega
  unfold toSigned
  simp only [hpos, if_true, Nat.cast_zero]
  split
  · rename_i h
    constructor
    · intro h'
      exfalso
      have : (0 : Int) ≤ (a : Int) := Int.ofNat_nonneg a
      omega
    · intro h'
      omega
  · rename_i h
    constructor
    · intro _
      omega
    · intro _
      have : (a : Int) < ((2 ^ w : Nat) : Int) := by exact_mod_cast ha
      push_cast at this
      omega

theorem createCtlzFunc.body_invariant (w x : Nat) (hw : 1 ≤ w) (hx : 0 < x)
    (args : Nat × Nat) (k : Nat)
    (hinv : args.1 = x * 2 ^ args.2 ∧ args.1 < 2 ^ w)
    (hprog : 2 ^ (w - 1) ≤ args.1 ∨ args.2 = k) :
    ((createCtlzFunc.body w args).1 = x * 2 ^ (createCtlzFunc.body w args).2 ∧
      (createCtlzFunc.body w args).1 < 2 ^ w) ∧
    (2 ^ (w - 1) ≤ (createCtlzFunc.body w args).1 ∨ (createCtlzFunc.body w args).2 = k + 1) := by
  obtain ⟨a, n⟩ := args
  simp only at hinv hprog
  obtain ⟨ha, hlt⟩ := hinv
  have h2 : 2 ^ w = 2 * 2 ^ (w - 1) := by
    rw [← pow_succ']
    congr 1
    omega
  have hw2 : w < 2 ^ w := Nat.lt_two_pow w
  have hone : 1 % 2 ^ w = 1 := Nat.mod_eq_of_lt (by omega)
  unfold createCtlzFunc.body
  simp only [toSigned_lt_zero_iff w a hw hlt, hone]
  by_cases hneg : 2 ^ (w - 1) ≤ a
  · rw [if_pos hneg]
    exact ⟨⟨ha, hlt⟩, Or.inl hneg⟩
  · rw [if_neg hneg]
    simp only
    have hnk : n = k := by
      rcases hprog with h | h
      · exact absurd h hneg
      · exact h
    have ha2 : a <<< 1 = 2 * a := by
      rw [Nat.shiftLeft_eq]
      omega
    have hlt2 : 2 * a < 2 ^ w := by omega
    -- n < w, since 2 ^ n ≤ a < 2 ^ w
    have hn : n < w := by
      have : 2 ^ n ≤ a := by
        rw [ha]
        exact Nat.le_mul_of_pos_left _ hx
      exact (Nat.pow_lt_pow_iff_right (by decide : 1 < 2)).mp (lt_of_le_of_lt this hlt)
    have hn1 : (n + 1) % 2 ^ w = n + 1 := Nat.mod_eq_of_lt (by omega)
    rw [ha2, Nat.mod_eq_of_lt hlt2, hn1]
    refine ⟨⟨?_, hlt2⟩, Or.inr (by omega)⟩
    rw [ha, pow_succ]
    ring

theorem createCtlzFunc.loop_invariant (w x : Nat) (hw : 1 ≤ w) (hx : 0 < x) :
    ∀ (l : List Nat) (args : Nat × Nat) (k : Nat),
      (args.1 = x * 2 ^ args.2 ∧ args.1 < 2 ^ w) →
      (2 ^ (w - 1) ≤ args.1 ∨ args.2 = k) →
      ((l.foldl (fun args _ => createCtlzFunc.body w args) args).1 =
          x * 2 ^ (l.foldl (fun args _ => createCtlzFunc.body w args) args).2 ∧
        (l.foldl (fun args _ => createCtlzFunc.body w args) args).1 < 2 ^ w) ∧
      (2 ^ (w - 1) ≤ (l.foldl (fun args _ => createCtlzFunc.body w args) args).1 ∨
        (l.foldl (fun args _ => createCtlzFunc.body w args) args).2 = k + l.length) := by
  intro l
  induction l with
  | nil =>
    intro args k hinv hprog
    exact ⟨hinv, by simpa using hprog⟩
  | cons iv rest ih =>
    intro args k hinv hprog
    obtain ⟨hinv2, hprog2⟩ := createCtlzFunc.body_invariant w x hw hx args k hinv hprog
    have := ih (createCtlzFunc.body w args) (k + 1) hinv2 hprog2
    simp only [List.foldl_cons, List.length_cons]
    rw [show k + (rest.length + 1) = k + 1 + rest.length by omega]
    exact this

/-- The count of `__mlir_math_ctlz_<T>` brackets a non-zero argument:
`2 ^ (w - 1 - n) ≤ x < 2 ^ (w - n)`. -/
theorem createCtlzFunc_bounds (w x : Nat) (hw : 1 ≤ w) (hx : x < 2 ^ w) (hx0 : x ≠ 0) :
    createCtlzFunc w x < w ∧ 2 ^ (w - 1 - createCtlzFunc w x) ≤ x ∧
      x < 2 ^ (w - createCtlzFunc w x) := by
  have hpos : 0 < x := Nat.pos_of_ne_zero hx0
  obtain ⟨⟨hval, hlt⟩, hprog⟩ := createCtlzFunc.loop_invariant w x hw hpos
    (List.range' 1 (w - 1)) (x, 0) 0 ⟨by simp, hx⟩ (Or.inr rfl)
  have hres : createCtlzFunc w x =
      ((List.range' 1 (w - 1)).foldl (fun args _ => createCtlzFunc.body w args) (x, 0)).2 := by
    simp [createCtlzFunc, hx0]
  rw [← hres] at hval hprog
  generalize ((List.range' 1 (w - 1)).foldl (fun args _ => createCtlzFunc.body w args)
    (x, 0)).1 = a at hval hlt hprog
  generalize createCtlzFunc w x = n at hval hprog
  subst hval
  have hn : n < w := by
    have : 2 ^ n ≤ x * 2 ^ n := Nat.le_mul_of_pos_left _ hpos
    exact (Nat.pow_lt_pow_iff_right (by decide : 1 < 2)).mp (lt_of_le_of_lt this hlt)
  have hge : 2 ^ (w - 1) ≤ x * 2 ^ n := by
    rcases hprog with h | h
    · exact h
    · simp only [List.length_range', Nat.zero_add] at h
      rw [h]
      exact Nat.le_mul_of_pos_left _ hpos
  refine ⟨hn, ?_, ?_⟩
  · have h1 : 2 ^ (w - 1) = 2 ^ (w - 1 - n) * 2 ^ n := by
      rw [← pow_add]
      congr 1
      omega
    rw [h1] at hge
    exact Nat.le_of_mul_le_mul_right hge (Nat.two_pow_pos _)
  · have h1 : 2 ^ w = 2 ^ (w - n) * 2 ^ n := by
      rw [← pow_add]
      congr 1
      omega
    rw [h1] at hlt
    exact Nat.lt_of_mul_lt_mul_right hlt

/-- C23: the function `__mlir_math_ctlz_<T>` counts leading zeros.  For every width
`w ≥ 1` and every `w`-bit `x` it returns `w` when `x = 0`; otherwise it returns a
value `n < w` such that the bit `w - 1 - n` of `x` is set and every bit above it is
zero: the `w - 1` iterations of the loop are enough for every non-zero `x`. -/
theorem createCtlzFunc_counts_leading_zeros (w x : Nat) (hw : 1 ≤ w) (hx : x < 2 ^ w) :
    (x = 0 → createCtlzFunc w x = w) ∧
    (x ≠ 0 →
      createCtlzFunc w x < w ∧
      x.testBit (w - 1 - createCtlzFunc w x) = true ∧
      ∀ j, w - 1 - createCtlzFunc w x < j → x.testBit j = false) := by
  constructor
  · intro h
    simp [createCtlzFunc, h, Nat.mod_eq_of_lt (Nat.lt_two_pow w)]
  · intro h
    obtain ⟨hn, hlo, hhi⟩ := createCtlzFunc_bounds w x hw hx h
    refine ⟨hn, ?_, ?_⟩
    · rw [Nat.testBit_to_div_mod]
      have hdiv : x / 2 ^ (w - 1 - createCtlzFunc w x) = 1 := by
        apply Nat.div_eq_of_lt_le
        · simpa using hlo
        · rw [show w - createCtlzFunc w x = w - 1 - createCtlzFunc w x + 1 by omega,
            pow_succ] at hhi
          omega
      simp [hdiv]
    · intro j hj
      apply Nat.testBit_lt_two_pow
      exact lt_of_lt_of_le hhi (Nat.pow_le_pow_right (by decide) (by omega))

/-- Witness of C23: the 8-bit value 37 (`00100101`) has two leading zeros. -/
theorem createCtlzFunc_counts_leading_zeros_witness :
    createCtlzFunc 8 37 = 2 ∧ Nat.testBit 37 5 = true :=
  ⟨by decide,
    ((createCtlzFunc_counts_leading_zeros 8 37 (by decide) (by decide)).2 (by decide)).2.1⟩

end MathToFuncs
